import Mathlib

/-!
# rbfbattle: a shallow embedding of the RBF engine

The Go sources under `cmd/rbfbattle` are embedded as pure functions.

* `float64` values are modelled exactly: a finite value is the rational it denotes and every
  arithmetic operation rounds its exact result to the nearest binary64 value, ties to even.
* `btcutil.Amount` (an `int64` count of satoshis), `int32` sizes and `uint32` indices are integers
  and naturals.
* The process-wide variables `monitoredUtxos`, `unspentUtxo` and `ourAddresses` become explicit
  state; answers of the Bitcoin node are inputs.
-/

namespace RBFBattle

/-! ## binary64 arithmetic -/

/-- Nearest integer of a rational, ties going to the even neighbour. -/
def roundHalfEven (q : ℚ) : ℤ :=
  let f := ⌊q⌋
  if q - f < 1 / 2 then f
  else if 1 / 2 < q - f then f + 1
  else if f % 2 = 0 then f else f + 1

/-- Exponent of the binary64 quantum around `q`: 52 places below the leading bit of `q`, and never
below the subnormal quantum `2 ^ (-1074)`. -/
def f64quantum (q : ℚ) : ℤ :=
  max (Int.log 2 |q| - 52) (-1074)

/-- Nearest binary64 value of a rational: round to nearest, ties to even, with a 53-bit
significand. Overflow to infinity (magnitudes of `2 ^ 1024` and more) is not represented: the
operands met in this program are `int64`, `int32` and JSON amounts, far below it. -/
def f64round (q : ℚ) : ℚ :=
  if q = 0 then 0 else (roundHalfEven (q / 2 ^ f64quantum q) : ℚ) * 2 ^ f64quantum q

/-- A `float64`: `some q` is the finite value `q`, `none` stands for `+Inf`, `-Inf` and `NaN`. -/
abbrev Float64 := Option ℚ

/-- Conversion `float64(n)` of an integer. -/
def f64ofInt (n : ℤ) : Float64 := some (f64round n)

/-- Quotient `a / b` of two floats; a zero divisor gives an infinity or `NaN`. Only finite
divisors occur in the program (the divisor is a converted integer). -/
def f64div (a b : Float64) : Float64 :=
  match a, b with
  | some x, some y => if y = 0 then none else some (f64round (x / y))
  | _, _ => none

/-- Product `a * b`; a non-finite operand gives a non-finite result. -/
def f64mul (a b : Float64) : Float64 :=
  match a, b with
  | some x, some y => some (f64round (x * y))
  | _, _ => none

/-- Sum `a + b`; a non-finite operand gives a non-finite result. -/
def f64add (a b : Float64) : Float64 :=
  match a, b with
  | some x, some y => some (f64round (x + y))
  | _, _ => none

/-- Fused multiply-add `a * b + c`, rounded once. -/
def f64fma (a b c : Float64) : Float64 :=
  match a, b, c with
  | some x, some y, some z => some (f64round (x * y + z))
  | _, _, _ => none

/-- What the Go specification leaves to the implementation in floating-point code.

* `fusedMulAdd`: "An implementation may combine multiple floating-point operations into a single
  fused operation": `x*y + z` is rounded once on arm64, twice on x86-64.
* `int64OfUnrepresentable`: "if the result type cannot represent the value the conversion succeeds
  but the result value is implementation-dependent": the `int64` obtained from a float that is
  not finite or lies outside the `int64` range. -/
structure Platform where
  fusedMulAdd : Bool
  int64OfUnrepresentable : Float64 → ℤ

/-- The platform of x86-64: no fusion, and `CVTTSD2SI` answers `-2^63` for what it cannot
represent. -/
def x86_64 : Platform where
  fusedMulAdd := false
  int64OfUnrepresentable := fun _ => -2 ^ 63

/-- A platform that fuses `x*y + z` (as arm64 does) and is otherwise like `x86_64`. -/
def fusing : Platform where
  fusedMulAdd := true
  int64OfUnrepresentable := fun _ => -2 ^ 63

/-- The expression `x*y + z` as the platform evaluates it. -/
def f64mulAdd (p : Platform) (x y z : Float64) : Float64 :=
  if p.fusedMulAdd then f64fma x y z else f64add (f64mul x y) z

/-- Integer part of a rational, rounding toward zero. -/
def truncate (q : ℚ) : ℤ := if 0 ≤ q then ⌊q⌋ else ⌈q⌉

/-- Conversion `int64(x)` of a float: the fraction is discarded (rounding toward zero). -/
def float64ToInt64 (p : Platform) (x : Float64) : ℤ :=
  match x with
  | some q =>
    if -2 ^ 63 ≤ truncate q ∧ truncate q < 2 ^ 63 then truncate q
    else p.int64OfUnrepresentable x
  | none => p.int64OfUnrepresentable x

/-! ## Records of the node's JSON interface and of the engine -/

/-- The fields of `btcjson.ScriptPubKeyResult` the program reads. An output without an address
(such as `OP_RETURN`) has the empty string as `Address`. -/
structure ScriptPubKeyResult where
  Asm : String
  Hex : String
  Address : String
deriving DecidableEq, Repr

/-- An input of a transaction, `btcjson.Vin`: the outpoint it spends. -/
structure Vin where
  Txid : String
  Vout : ℕ
deriving DecidableEq, Repr

/-- An output of a transaction, `btcjson.Vout`; `Value` is a `float64` amount in BTC. -/
structure Vout where
  Value : ℚ
  N : ℕ
  ScriptPubKey : ScriptPubKeyResult
deriving DecidableEq, Repr

/-- A decoded transaction, `btcjson.TxRawResult`. -/
structure TxRawResult where
  Txid : String
  Vin : List Vin
  Vout : List Vout
  BlockHash : String
  Confirmations : ℕ
deriving DecidableEq, Repr

/-- An output under observation, `TrackedUTXO`; `Amount` is in satoshis and `Tx` is the
transaction that contains the output. -/
structure TrackedUTXO where
  Address : String
  Amount : ℤ
  N : ℕ
  TxID : String
  Script : ScriptPubKeyResult
  Tx : Option TxRawResult
deriving DecidableEq, Repr

/-! ## fees.go -/

/-- The `float64` product `float64(ourEstimatedTxSize) * newFeeRate` of `newFee`, where
`originalFeeRate = float64(attackingFee) / float64(attackingTxSize)` and
`newFeeRate = 1 + originalFeeRate*1.1`. -/
def newFeeProduct (p : Platform) (attackingFee attackingTxSize ourEstimatedTxSize : ℤ) :
    Float64 :=
  let originalFeeRate := f64div (f64ofInt attackingFee) (f64ofInt attackingTxSize)
  let newFeeRate := f64mulAdd p originalFeeRate (some (f64round (11 / 10))) (some 1)
  f64mul (f64ofInt ourEstimatedTxSize) newFeeRate

/-- The function `newFee`: the fee of the replacement and whether to burn instead. -/
def newFee (p : Platform) (attackingFee attackingTxSize ourEstimatedTxSize : ℤ)
    (utxo : TrackedUTXO) : ℤ × Bool :=
  let newFee := float64ToInt64 p (newFeeProduct p attackingFee attackingTxSize ourEstimatedTxSize)
  let burn := decide (newFee ≥ utxo.Amount)
  (newFee, burn)

/-- The product of the specification in exact arithmetic: `V_o * rate_new` with
`rate_new = 1 + (F_c / V_c) * 1.1`. -/
def specFeeProduct (attackingFee attackingTxSize ourEstimatedTxSize : ℤ) : ℚ :=
  (ourEstimatedTxSize : ℚ) * (1 + (attackingFee : ℚ) / (attackingTxSize : ℚ) * (11 / 10))

/-- The fee of the specification, `ceil(V_o * rate_new)`, in exact arithmetic. -/
def specFee (attackingFee attackingTxSize ourEstimatedTxSize : ℤ) : ℤ :=
  ⌈specFeeProduct attackingFee attackingTxSize ourEstimatedTxSize⌉

/-- Unit roundoff of binary64. -/
def f64unit : ℚ := 2 ^ (-53 : ℤ)

/-- The value `a` approximates `e` within `k` roundings: each rounding costs at most a factor
`1 - f64unit` in either direction. -/
def Near (k : ℕ) (a e : ℚ) : Prop :=
  e * (1 - f64unit) ^ k ≤ a ∧ a * (1 - f64unit) ^ k ≤ e


/-- The contested output of `TestNewFee`: only its amount, 1 BTC, is set. -/
def testUtxo : TrackedUTXO :=
  { Address := "", Amount := 100000000, N := 0, TxID := "", Script := ⟨"", "", ""⟩, Tx := none }

/-! ## btcutil, encoding/hex, sort: the library functions the engine calls -/

/-- The function `btcutil.NewAmount`: a `float64` amount in BTC as satoshis, computed as
`round(f * 1e8)` where `round(x)` is `int64(x - 0.5)` for negative `x` and `int64(x + 0.5)`
otherwise. The amount `f` is finite (it comes from JSON), so no error is returned. -/
def NewAmount (p : Platform) (f : ℚ) : ℤ :=
  if f64round (f * 100000000) < 0 then
    float64ToInt64 p (f64mulAdd p (some f) (some 100000000) (some (-(1 / 2))))
  else float64ToInt64 p (f64mulAdd p (some f) (some 100000000) (some (1 / 2)))

/-- A character `hex.DecodeString` accepts. -/
def isHexDigit (c : Char) : Bool :=
  ('0' ≤ c && c ≤ '9') || ('a' ≤ c && c ≤ 'f') || ('A' ≤ c && c ≤ 'F')

/-- Whether `hex.DecodeString s` succeeds: an even number of hexadecimal digits. -/
def hexDecodes (s : String) : Bool :=
  s.toList.all isHexDigit && s.length % 2 == 0

/-- An entry of the wallet's list of unspent outputs, `btcjson.ListUnspentResult`; `Amount` is a
`float64` amount in BTC. -/
structure ListUnspentResult where
  TxID : String
  Vout : ℕ
  Address : String
  ScriptPubKey : String
  Amount : ℚ
  Confirmations : ℕ
  Spendable : Bool
deriving DecidableEq, Repr

/-- What `sort.Slice(unspent, func(i, j) { unspent[i].Amount < unspent[j].Amount })` is
documented to do: reorder the slice so that amounts ascend. The order of entries of equal amount
is left to the library ("the sort is not guaranteed to be stable"). -/
structure AmountSort where
  run : List ListUnspentResult → List ListUnspentResult
  perm : ∀ l, List.Perm (run l) l
  sorted : ∀ l, List.Pairwise (fun a b => a.Amount ≤ b.Amount) (run l)

/-- The insertion sort that `sort.Slice` runs on slices of at most 12 entries: an entry moves
left while it is strictly smaller than its left neighbour. -/
def insertionSortByAmount : List ListUnspentResult → List ListUnspentResult :=
  List.insertionSort (fun a b => a.Amount ≤ b.Amount)

/-- The insertion sort as an instance of what `sort.Slice` promises. -/
def insertionAmountSort : AmountSort where
  run := insertionSortByAmount
  perm := fun l => List.perm_insertionSort _ l
  sorted := fun l => by
    haveI : IsTotal ListUnspentResult (fun a b => a.Amount ≤ b.Amount) :=
      ⟨fun a b => le_total a.Amount b.Amount⟩
    haveI : IsTrans ListUnspentResult (fun a b => a.Amount ≤ b.Amount) :=
      ⟨fun _ _ _ h1 h2 => le_trans h1 h2⟩
    exact List.sorted_insertionSort _ l

/-! ## monitor.go -/

/-- A Go `map[string]V`: an association list that holds each key at most once. -/
abbrev GoMap (V : Type) := List (String × V)

/-- The lookup `v, ok := m[k]`. -/
def GoMap.get {V : Type} (m : GoMap V) (k : String) : Option V :=
  (m.find? (fun e => e.1 == k)).map (fun e => e.2)

/-- The statement `delete(m, k)`. -/
def GoMap.delete {V : Type} (m : GoMap V) (k : String) : GoMap V :=
  m.filter (fun e => e.1 != k)

/-- The assignment `m[k] = v`. -/
def GoMap.set {V : Type} (m : GoMap V) (k : String) (v : V) : GoMap V :=
  (k, v) :: m.delete k

/-- The key `txid:vout` of an outpoint, `txid + ":" + strconv.Itoa(int(n))`. -/
def outpointKey (txid : String) (n : ℕ) : String :=
  txid ++ ":" ++ toString n

/-- The function `monitor`, on the table `monitoredUtxos`. -/
def monitor (monitoredUtxos : GoMap TrackedUTXO) (utxo : TrackedUTXO) : GoMap TrackedUTXO :=
  let id := outpointKey utxo.TxID utxo.N
  monitoredUtxos.set id utxo

/-- The function `cleanup`, on the table `monitoredUtxos`. -/
def cleanup (monitoredUtxos : GoMap TrackedUTXO) (utxo : TrackedUTXO) : GoMap TrackedUTXO :=
  monitoredUtxos.delete (outpointKey utxo.TxID utxo.N)

/-! ## wallet.go -/

/-- The errors `selectUnspentUtxo` returns. -/
inductive WalletError where
  | noUsableUtxo
  | rpc (msg : String)
  | hexDecode (script : String)
deriving DecidableEq, Repr

/-- The sentinel `errNoUsableUtxo`. -/
def errNoUsableUtxo : WalletError := WalletError.noUsableUtxo

/-- The constant `highestValueUtxo = 500.10000000`, as the `float64` it is compared in. -/
def highestValueUtxo : ℚ := f64round (5001 / 10)

/-- The constant `lowestValueUtxo = 0.00001000`, as the `float64` it is compared in. -/
def lowestValueUtxo : ℚ := f64round (1 / 100000)

/-- The condition of the selection loop:
`utxo.Spendable && utxo.Amount < highestValueUtxo && utxo.Amount > lowestValueUtxo`. -/
def usable (utxo : ListUnspentResult) : Bool :=
  utxo.Spendable && decide (utxo.Amount < highestValueUtxo) &&
    decide (utxo.Amount > lowestValueUtxo)

/-- The answer of the node to `listunspent`, as `client.ListUnspentMin(1)` returns it: the list
and a nil error, or a nil list and the error. -/
def ListUnspentMin (answer : Except String (List ListUnspentResult)) :
    List ListUnspentResult × Option String :=
  match answer with
  | Except.ok unspent => (unspent, none)
  | Except.error err => ([], some err)

/-- The function `selectUnspentUtxo`, on the funding slot `unspentUtxo`: the new content of the
slot and the returned pair. `answer` is what the node answers if it is asked. The log line of the
selected output is not modelled. -/
def selectUnspentUtxo (sort : AmountSort) (unspentUtxo : Option ListUnspentResult)
    (answer : Except String (List ListUnspentResult)) :
    Option ListUnspentResult × Except WalletError ListUnspentResult :=
  match unspentUtxo with
  | some cached => (some cached, Except.ok cached)
  | none =>
    let (unspent, err) := ListUnspentMin answer
    if unspent.length = 0 then (none, Except.error errNoUsableUtxo)
    else
      match err with
      | some msg => (none, Except.error (WalletError.rpc msg))
      | none =>
        match (sort.run unspent).find? usable with
        | none => (none, Except.error errNoUsableUtxo)
        | some utxo =>
          if hexDecodes utxo.ScriptPubKey then (some utxo, Except.ok utxo)
          else (some utxo, Except.error (WalletError.hexDecode utxo.ScriptPubKey))

/-- An entry of the wallet's list with the given outpoint, amount and flag, at a P2WPKH script. -/
def walletEntry (txid : String) (amount : ℚ) (spendable : Bool) : ListUnspentResult :=
  { TxID := txid, Vout := 0, Address := "bcrt1qfunding",
    ScriptPubKey := "0014751e76e8199196d454941c45d1b3a323f1433bd6",
    Amount := amount, Confirmations := 6, Spendable := spendable }

/-- The list of the funding-selection scenario: 0.5, 0.0001, 0.000001 and 600 BTC spendable,
0.001 BTC not spendable; each amount is the `float64` of its decimal. -/
def walletExample : List ListUnspentResult :=
  [walletEntry "a0" (f64round (1 / 2)) true, walletEntry "a1" (f64round (1 / 10000)) true,
    walletEntry "a2" (f64round (1 / 1000000)) true, walletEntry "a3" (f64round 600) true,
    walletEntry "a4" (f64round (1 / 1000)) false]

/-- A spendable entry of 0.5 BTC whose `ScriptPubKey` is not hexadecimal. -/
def badScriptEntry : ListUnspentResult :=
  { TxID := "a5", Vout := 0, Address := "bcrt1qfunding", ScriptPubKey := "zz",
    Amount := f64round (1 / 2), Confirmations := 6, Spendable := true }

/-! ## main.go: the classification pipeline -/

/-- The settings of `Config` the engine reads. -/
structure Config where
  DestinationAddress : String
  BurnMessage : String
deriving DecidableEq, Repr

/-- The two process-wide variables the engine writes: the table `monitoredUtxos` and the funding
slot `unspentUtxo`. -/
structure State where
  monitoredUtxos : GoMap TrackedUTXO
  unspentUtxo : Option ListUnspentResult
deriving DecidableEq, Repr

/-- What `processTransaction` does besides writing the state: its log lines and the calls that
leave it. -/
inductive Event where
  | logWon (monitoredUtxo : TrackedUTXO) (txID : String) (received : ℤ)
  | logLost (monitoredUtxo : TrackedUTXO) (txID : String) (received : ℤ)
  | logMultipleOutputs (txID : String) (voutValue : ℤ)
  | logConfirmedToWatched (address txID : String)
  | logDetected (utxo : TrackedUTXO)
  | callSpendTransaction (utxo : TrackedUTXO) (privKey : String)
  | logSpendFailed (err : String)
  | logOpReturn (txID : String)
  | goTryReplacingAttacker (tx : TxRawResult) (utxo : TrackedUTXO) (privateKeyWIF : String)
deriving DecidableEq, Repr

/-- Everything `processTransaction` reads and does not write: the platform and library, the
table `ourAddresses` (address to private key), the configuration, and the node: its answer to the
`k`-th `listunspent` request and the outcome of `SpendTransaction` (which builds, signs and
broadcasts the sweep and writes neither `monitoredUtxos` nor `unspentUtxo`). -/
structure Env where
  platform : Platform
  sort : AmountSort
  ourAddresses : GoMap String
  config : Config
  listUnspent : ℕ → Except String (List ListUnspentResult)
  spend : TrackedUTXO → String → Except String String

/-- The literal `&TrackedUTXO{...}` that `extractUTXOs` builds for an output of `tx`. -/
def trackUTXO (p : Platform) (tx : TxRawResult) (vout : Vout) : TrackedUTXO :=
  { Address := vout.ScriptPubKey.Address
    Amount := NewAmount p vout.Value
    N := vout.N
    TxID := tx.Txid
    Script := vout.ScriptPubKey
    Tx := some tx }

/-- The function `extractUTXOs`: the outputs of `tx` that carry an address. -/
def extractUTXOs (p : Platform) (tx : TxRawResult) : List TrackedUTXO :=
  tx.Vout.filterMap fun vout =>
    if vout.ScriptPubKey.Address ≠ "" then some (trackUTXO p tx vout) else none

/-- The call `SpendTransaction(client, utxo, privKey, config)`, seen from `processTransaction`:
the node decides its outcome. -/
def SpendTransaction (env : Env) (utxo : TrackedUTXO) (privKey : String) : Except String String :=
  env.spend utxo privKey

/-- The loop over `tx.Vin` in the branch `tx.Confirmations > 0`: for every input found in the
table, log the battle as won or lost (cleaning up in the latter case), empty the funding slot and
select again. `answers` are the node's answers to the `listunspent` requests still to come. -/
def confirmedInputs (env : Env) (tx : TxRawResult) (isSentToUs : Bool) (voutValue : ℤ) :
    List Vin → (ℕ → Except String (List ListUnspentResult)) → State → State × List Event
  | [], _, st => (st, [])
  | vin :: rest, answers, st =>
    let id := outpointKey vin.Txid vin.Vout
    match st.monitoredUtxos.get id with
    | some monitoredUtxo =>
      let logged : GoMap TrackedUTXO × Event :=
        if isSentToUs then
          (st.monitoredUtxos, Event.logWon monitoredUtxo tx.Txid (monitoredUtxo.Amount - voutValue))
        else
          (cleanup st.monitoredUtxos monitoredUtxo,
            Event.logLost monitoredUtxo tx.Txid (monitoredUtxo.Amount - voutValue))
      let selected := selectUnspentUtxo env.sort none (answers 0)
      let st1 : State := { monitoredUtxos := logged.1, unspentUtxo := selected.1 }
      let r := confirmedInputs env tx isSentToUs voutValue rest (fun k => answers (k + 1)) st1
      (r.1, logged.2 :: r.2)
    | none => confirmedInputs env tx isSentToUs voutValue rest answers st

/-- How a loop of `processTransaction` ends: it falls through to the next statement, or it
executes `return`. -/
inductive Flow where
  | next
  | returned
deriving DecidableEq, Repr

/-- The first loop, over `tx.Vout`. -/
def outputsLoop (env : Env) (tx : TxRawResult) (utxos : List TrackedUTXO) :
    List Vout → State → Flow × State × List Event
  | [], st => (Flow.next, st, [])
  | vout :: rest, st =>
    let isSentToUs := vout.ScriptPubKey.Address == env.config.DestinationAddress
    let voutValue := NewAmount env.platform vout.Value
    if tx.Confirmations > 0 then
      let r := confirmedInputs env tx isSentToUs voutValue tx.Vin env.listUnspent st
      (Flow.returned, r.1, r.2)
    else if isSentToUs && decide (utxos.length > 1) then
      let r := outputsLoop env tx utxos rest st
      (r.1, r.2.1, Event.logMultipleOutputs tx.Txid voutValue :: r.2.2)
    else if isSentToUs then (Flow.returned, st, [])
    else outputsLoop env tx utxos rest st

/-- The second loop, over `utxos`: `none` when the loop ends without `return`. -/
def watchedOutputs (env : Env) (tx : TxRawResult) :
    List TrackedUTXO → State → Option (State × List Event)
  | [], _ => none
  | utxo :: rest, st =>
    match env.ourAddresses.get utxo.Address with
    | none => watchedOutputs env tx rest st
    | some privKey =>
      if tx.Confirmations > 0 then
        some (st, [Event.logConfirmedToWatched utxo.Address tx.Txid])
      else
        let st1 : State := { st with monitoredUtxos := monitor st.monitoredUtxos utxo }
        match SpendTransaction env utxo privKey with
        | Except.error err =>
          some (st1, [Event.logDetected utxo, Event.callSpendTransaction utxo privKey,
            Event.logSpendFailed err])
        | Except.ok _ => some (st1, [Event.logDetected utxo, Event.callSpendTransaction utxo privKey])

/-- The log lines of the inner loop over `tx.Vout`: one for each output whose script is
`OP_RETURN`. -/
def opReturnLogs (tx : TxRawResult) : List Event :=
  (tx.Vout.filter (fun vout => vout.ScriptPubKey.Asm == "OP_RETURN")).map
    (fun _ => Event.logOpReturn tx.Txid)

/-- The third loop, over `tx.Vin`: the first input found in the table starts
`TryReplacingAttacker` in a goroutine and `processTransaction` returns. -/
def monitoredInputs (env : Env) (tx : TxRawResult) (st : State) : List Vin → List Event
  | [] => []
  | vin :: rest =>
    let id := outpointKey vin.Txid vin.Vout
    match st.monitoredUtxos.get id with
    | some utxo =>
      let privateKeyWIF := (env.ourAddresses.get utxo.Address).getD ""
      opReturnLogs tx ++ [Event.goTryReplacingAttacker tx utxo privateKeyWIF]
    | none => monitoredInputs env tx st rest

/-- What follows the first loop when it falls through: the second loop, the guard
`tx.Confirmations > 0` and the third loop. -/
def afterOutputsLoop (env : Env) (tx : TxRawResult) (utxos : List TrackedUTXO) (st : State) :
    State × List Event :=
  match watchedOutputs env tx utxos st with
  | some r => r
  | none =>
    if tx.Confirmations > 0 then (st, [])
    else (st, monitoredInputs env tx st tx.Vin)

/-- The function `processTransaction`: the state it leaves and what it did. -/
def processTransaction (env : Env) (st : State) (tx : TxRawResult) : State × List Event :=
  let utxos := extractUTXOs env.platform tx
  match outputsLoop env tx utxos tx.Vout st with
  | (Flow.returned, st1, events) => (st1, events)
  | (Flow.next, st1, events) =>
    let r := afterOutputsLoop env tx utxos st1
    (r.1, events ++ r.2)

/-! ## Reading the pipeline's behaviour -/

/-- Whether an output pays the destination address (`isSentToUs`). -/
def paysDestination (env : Env) (vout : Vout) : Bool :=
  vout.ScriptPubKey.Address == env.config.DestinationAddress

/-- Whether an output carries an address that is in the address table. -/
def watched (env : Env) (vout : Vout) : Bool :=
  decide (vout.ScriptPubKey.Address ≠ "") && (env.ourAddresses.get vout.ScriptPubKey.Address).isSome

/-- Whether an input spends an outpoint that is in the monitored table. -/
def spendsMonitored (st : State) (vin : Vin) : Bool :=
  (st.monitoredUtxos.get (outpointKey vin.Txid vin.Vout)).isSome

/-- The calls of `SpendTransaction` among the events, in order. -/
def spendCalls (events : List Event) : List (TrackedUTXO × String) :=
  events.filterMap fun e =>
    match e with
    | Event.callSpendTransaction utxo privKey => some (utxo, privKey)
    | _ => none

/-- The goroutines `TryReplacingAttacker` started among the events, in order. -/
def replaceCalls (events : List Event) : List (TxRawResult × TrackedUTXO × String) :=
  events.filterMap fun e =>
    match e with
    | Event.goTryReplacingAttacker tx utxo privateKeyWIF => some (tx, utxo, privateKeyWIF)
    | _ => none

/-- The warnings of the first loop: one for each output that pays the destination. -/
def multipleOutputWarnings (env : Env) (tx : TxRawResult) (vouts : List Vout) : List Event :=
  (vouts.filter (paysDestination env)).map
    (fun vout => Event.logMultipleOutputs tx.Txid (NewAmount env.platform vout.Value))

/-! ## Scenarios: a regtest battle over one weak address -/

/-- The destination address of the scenarios. -/
def destination : String := "bcrt1qdestination000000000000000000000000"

/-- The script of an output that pays `address`. -/
def scriptTo (address : String) : ScriptPubKeyResult :=
  { Asm := "0 751e76e8199196d454941c45d1b3a323f1433bd6",
    Hex := "0014751e76e8199196d454941c45d1b3a323f1433bd6", Address := address }

/-- An `OP_RETURN` output script: it carries no address. -/
def opReturnScript : ScriptPubKeyResult :=
  { Asm := "OP_RETURN 6869", Hex := "6a026869", Address := "" }

/-- The environment of the scenarios: one watched address, a wallet that answers
`walletExample`, and a node that rejects the sweep. -/
def exampleEnv : Env :=
  { platform := x86_64
    sort := insertionAmountSort
    ourAddresses :=
      [("bcrt1qweak", "23d4a09295be678b21a5f1dceae1f634a69c1b41775f680ebf8165266471401b")]
    config := { DestinationAddress := destination, BurnMessage := "github.com/wille/rbfbattle" }
    listUnspent := fun _ => Except.ok walletExample
    spend := fun _ _ => Except.error "txn-mempool-conflict" }

/-- The contested output `aa:0`, 1 BTC at the watched address. -/
def contested : TrackedUTXO :=
  { Address := "bcrt1qweak", Amount := 100000000, N := 0, TxID := "aa",
    Script := scriptTo "bcrt1qweak", Tx := none }

/-- A second contested output, `cc:1`. -/
def contested2 : TrackedUTXO :=
  { Address := "bcrt1qweak", Amount := 100000000, N := 1, TxID := "cc",
    Script := scriptTo "bcrt1qweak", Tx := none }

/-- The state in which `aa:0` is monitored and the funding slot holds the 0.5 BTC entry. -/
def battleState : State :=
  { monitoredUtxos := monitor [] contested,
    unspentUtxo := some (walletEntry "a0" (f64round (1 / 2)) true) }

/-- The state in which `aa:0` and `cc:1` are monitored. -/
def twoBattlesState : State :=
  { monitoredUtxos := monitor (monitor [] contested) contested2,
    unspentUtxo := some (walletEntry "a0" (f64round (1 / 2)) true) }

/-- Our own sweep of `aa:0`, confirmed: its single output pays the destination. -/
def wonTx : TxRawResult :=
  { Txid := "bb", Vin := [⟨"aa", 0⟩], Vout := [⟨1 / 2, 0, scriptTo destination⟩],
    BlockHash := "00ff", Confirmations := 1 }

/-- A confirmed transaction that spends `aa:0` and pays the destination in its second
output. -/
def secondOutputTx : TxRawResult :=
  { Txid := "bc", Vin := [⟨"aa", 0⟩],
    Vout := [⟨1 / 4, 0, scriptTo "bcrt1qother"⟩, ⟨1 / 2, 1, scriptTo destination⟩],
    BlockHash := "00ff", Confirmations := 1 }

/-- An unconfirmed transaction that pays the watched address. -/
def depositTx : TxRawResult :=
  { Txid := "dd", Vin := [⟨"ee", 3⟩],
    Vout := [⟨1 / 4, 0, scriptTo "bcrt1qother"⟩, ⟨1, 1, scriptTo "bcrt1qweak"⟩],
    BlockHash := "", Confirmations := 0 }

/-- An unconfirmed transaction of a competitor that spends both `aa:0` and `cc:1`. -/
def doubleSweepTx : TxRawResult :=
  { Txid := "ff", Vin := [⟨"aa", 0⟩, ⟨"cc", 1⟩], Vout := [⟨1, 0, scriptTo "bcrt1qother"⟩],
    BlockHash := "", Confirmations := 0 }

/-- An unconfirmed transaction of a competitor that spends `aa:0`, pays a little to the
destination and attaches an `OP_RETURN` output: two outputs, one of them with an address. -/
def opReturnSweepTx : TxRawResult :=
  { Txid := "ab", Vin := [⟨"aa", 0⟩],
    Vout := [⟨1 / 1024, 0, scriptTo destination⟩, ⟨0, 1, opReturnScript⟩],
    BlockHash := "", Confirmations := 0 }

/-! ## gen-addresses/main.go: dividing the passwords among the workers -/

/-- The function `chunkPasswords`: `numChunks` slices `passwords[start:end]` of `chunkSize`
entries, the last ones shorter or empty. (`numChunks` is positive: with zero the division
panics.) -/
def chunkPasswords (passwords : List String) (numChunks : ℕ) : List (List String) :=
  let chunkSize := (passwords.length + numChunks - 1) / numChunks
  (List.range numChunks).map fun i =>
    let start := i * chunkSize
    let stop := min (start + chunkSize) passwords.length
    if start < passwords.length then (passwords.drop start).take (stop - start) else []

/-! ## strings, encoding/csv: library functions of the loader -/

/-- Whether the characters `pattern` begin the text. -/
def startsWith : List Char → List Char → Bool
  | [], _ => true
  | _ :: _, [] => false
  | p :: ps, c :: cs => p == c && startsWith ps cs

/-- Whether the characters `pattern` occur in the text, at some position. -/
def containsChars (pattern : List Char) : List Char → Bool
  | [] => pattern.isEmpty
  | c :: cs => startsWith pattern (c :: cs) || containsChars pattern cs

/-- The function `strings.Contains(s, substr)`. -/
def stringsContains (s substr : String) : Bool :=
  containsChars substr.toList s.toList

/-- A file as `encoding/csv` delivers it: the outcome of the first `reader.Read()`, and the
records after the first as the parser splits the rest of the file (or its parse error). -/
structure CsvFile where
  header : Except String (List String)
  records : Except String (List (List String))

/-- The call `reader.ReadAll()` after a first record of `fieldsPerRecord` fields was read:
`FieldsPerRecord` is 0, so every later record must have the number of fields of the first, and
the call returns nil and an error otherwise. -/
def ReadAll (fieldsPerRecord : ℕ) (records : Except String (List (List String))) :
    Except String (List (List String)) :=
  match records with
  | Except.error err => Except.error err
  | Except.ok rs =>
    if rs.all (fun record => record.length == fieldsPerRecord) then Except.ok rs
    else Except.error "wrong number of fields"

/-! ## addresses.go -/

/-- The errors `loadAddressesAndKeys` returns. -/
inductive LoadError where
  | openFile (err : String)
  | readHeader (err : String)
  | headerFormat (header : List String)
  | readRecords (err : String)
deriving DecidableEq, Repr

/-- The body of the loop over the records: a record of fewer than two fields is skipped, the
five address columns of any other record are mapped to its first column. (After `ReadAll` every
record has the seven fields of the header, so the columns exist.) -/
def addRecord (ourAddresses : GoMap String) (record : List String) : GoMap String :=
  if record.length < 2 then ourAddresses
  else
    let wif := record.getD 0 ""
    let p2pkh := record.getD 1 ""
    let p2pkhCompressed := record.getD 2 ""
    let p2sh := record.getD 3 ""
    let p2wpkh := record.getD 4 ""
    let p2tr := record.getD 5 ""
    ((((ourAddresses.set p2pkh wif).set p2pkhCompressed wif).set p2sh wif).set p2wpkh wif).set
      p2tr wif

/-- The function `loadAddressesAndKeys`, on the table `ourAddresses`: `file` is the outcome of
`os.Open` and what the CSV reader delivers. -/
def loadAddressesAndKeys (ourAddresses : GoMap String) (file : Except String CsvFile) :
    GoMap String × Except LoadError Unit :=
  match file with
  | Except.error err => (ourAddresses, Except.error (LoadError.openFile err))
  | Except.ok csv =>
    match csv.header with
    | Except.error err => (ourAddresses, Except.error (LoadError.readHeader err))
    | Except.ok header =>
      if header.length ≠ 7 || !stringsContains (header.getD 0 "") "Private Key" ||
          !stringsContains (header.getD 1 "") "P2PKH" then
        (ourAddresses, Except.error (LoadError.headerFormat header))
      else
        match ReadAll header.length csv.records with
        | Except.error err => (ourAddresses, Except.error (LoadError.readRecords err))
        | Except.ok records => (records.foldl addRecord ourAddresses, Except.ok ())

/-! ## gen-addresses/main.go: deriving the rows -/

/-- The header row the generator writes. -/
def generatorHeader : List String :=
  ["Private Key (hex)", "Legacy (uncompressed P2PKH)", "Legacy (compressed P2PKH)",
    "Script (P2SH)", "Segwit (P2WPKH)", "Taproot (P2TR)", "Password"]

/-- The networks of `chaincfg`. -/
inductive Net where
  | mainnet
  | testnet3
  | signet
  | regtest
deriving DecidableEq, Repr

/-- The functions of `crypto/sha256`, `btcec`, `btcutil`, `txscript` and `encoding/hex` that
`deriveAddressesFromPrivateKey` calls. A private key is given by the 32 bytes it is made from. -/
structure AddressLibrary where
  /-- The digest `sha256.Sum256`. -/
  sha256 : List UInt8 → List UInt8
  /-- The bytes `privateKey.Serialize()` of `btcec.PrivKeyFromBytes`. -/
  serializePrivateKey : List UInt8 → List UInt8
  /-- The bytes `pubkey.SerializeUncompressed()` of the key's public key. -/
  serializeUncompressed : List UInt8 → List UInt8
  /-- The bytes `pubkey.SerializeCompressed()` of the key's public key. -/
  serializeCompressed : List UInt8 → List UInt8
  /-- The digest `btcutil.Hash160`. -/
  hash160 : List UInt8 → List UInt8
  /-- The string of `btcutil.NewAddressPubKeyHash`. -/
  addressPubKeyHash : List UInt8 → Net → Except String String
  /-- The string of `btcutil.NewAddressWitnessPubKeyHash`. -/
  addressWitnessPubKeyHash : List UInt8 → Net → Except String String
  /-- The script `txscript.PayToAddrScript` of the P2WPKH address of a key hash. -/
  payToWitnessPubKeyHashScript : List UInt8 → Except String (List UInt8)
  /-- The string of `btcutil.NewAddressScriptHash`. -/
  addressScriptHash : List UInt8 → Net → Except String String
  /-- The bytes `schnorr.SerializePubKey(txscript.ComputeTaprootKeyNoScript(pubkey))`. -/
  taprootKeyNoScript : List UInt8 → List UInt8
  /-- The string of `btcutil.NewAddressTaproot`. -/
  addressTaproot : List UInt8 → Net → Except String String
  /-- The string `hex.EncodeToString`. -/
  hexEncode : List UInt8 → String

/-- The bytes `[]byte(s)` of a string: its UTF-8 encoding. -/
def bytesOfString (s : String) : List UInt8 :=
  (s.toList.map String.utf8EncodeChar).flatten

/-- The function `deriveAddressesFromPrivateKey`: the row of a password, or the message of the
`log.Fatalf` that ends the process. -/
def deriveAddressesFromPrivateKey (lib : AddressLibrary) (password : String) (net : Net) :
    Except String (List String) :=
  let privateKey := lib.sha256 (bytesOfString password)
  let uncompressedKey := lib.hash160 (lib.serializeUncompressed privateKey)
  let compressedKey := lib.hash160 (lib.serializeCompressed privateKey)
  match lib.addressPubKeyHash uncompressedKey net with
  | Except.error err => Except.error ("error creating P2PKH address: " ++ err)
  | Except.ok p2pkhUncompressedAddress =>
    match lib.addressPubKeyHash compressedKey net with
    | Except.error err => Except.error ("nil pointer dereference: " ++ err)
    | Except.ok p2pkhCompressedAddress =>
      match lib.addressWitnessPubKeyHash compressedKey net with
      | Except.error err => Except.error ("error creating P2WPKH address: " ++ err)
      | Except.ok p2wpkhAddress =>
        match lib.payToWitnessPubKeyHashScript compressedKey with
        | Except.error err => Except.error ("error creating witness program: " ++ err)
        | Except.ok witnessProgram =>
          match lib.addressScriptHash witnessProgram net with
          | Except.error err => Except.error ("error creating P2SH address: " ++ err)
          | Except.ok p2shAddress =>
            match lib.addressTaproot (lib.taprootKeyNoScript privateKey) net with
            | Except.error err => Except.error ("error creating P2TR address: " ++ err)
            | Except.ok p2trAddress =>
              Except.ok
                [lib.hexEncode (lib.serializePrivateKey privateKey), p2pkhUncompressedAddress,
                  p2pkhCompressedAddress, p2shAddress, p2wpkhAddress, p2trAddress, password]

/-- The rows the workers of the generator produce for a list of passwords: a password whose
derivation fails gives no row. -/
def generatedRows (lib : AddressLibrary) (net : Net) (passwords : List String) :
    List (List String) :=
  passwords.filterMap fun password =>
    match deriveAddressesFromPrivateKey lib password net with
    | Except.ok row => some row
    | Except.error _ => none

/-- No address string stands in two rows with different private keys. -/
def AddressesDetermineKey (rows : List (List String)) : Prop :=
  ∀ row ∈ rows, ∀ other ∈ rows, ∀ i j : ℕ, 1 ≤ i → i ≤ 5 → 1 ≤ j → j ≤ 5 →
    row.getD i "" = other.getD j "" → row.getD 0 "" = other.getD 0 ""

/-- A small library for examples, with the shape of the real one: the digests are the
identity, a public key is the private key behind a tag byte, and an address string is a tag
followed by the bytes as characters. -/
def exampleLibrary : AddressLibrary where
  sha256 := id
  serializePrivateKey := id
  serializeUncompressed := fun key => 4 :: key
  serializeCompressed := fun key => 2 :: key
  hash160 := id
  addressPubKeyHash := fun hash _ => Except.ok ("1" ++ String.mk (hash.map fun b => Char.ofNat b.toNat))
  addressWitnessPubKeyHash := fun hash _ =>
    Except.ok ("bc1q" ++ String.mk (hash.map fun b => Char.ofNat b.toNat))
  payToWitnessPubKeyHashScript := fun hash => Except.ok (0 :: 20 :: hash)
  addressScriptHash := fun script _ =>
    Except.ok ("3" ++ String.mk (script.map fun b => Char.ofNat b.toNat))
  taprootKeyNoScript := id
  addressTaproot := fun key _ => Except.ok ("bc1p" ++ String.mk (key.map fun b => Char.ofNat b.toNat))
  hexEncode := fun bytes => String.mk (bytes.map fun b => Char.ofNat b.toNat)

/-- Two rows of the example library. -/
def exampleRows : List (List String) :=
  generatedRows exampleLibrary Net.mainnet ["ab", "c"]

/-! ## wire, txscript, btcec: the library under the signer -/

/-- The type `wire.OutPoint`; `Hash` is the 32-byte hash of the transaction. -/
structure OutPoint where
  Hash : List UInt8
  Index : ℕ
deriving DecidableEq, Repr

/-- The type `wire.TxIn`. -/
structure TxIn where
  PreviousOutPoint : OutPoint
  SignatureScript : List UInt8
  Witness : List (List UInt8)
  Sequence : ℕ
deriving DecidableEq, Repr

/-- The type `wire.TxOut`; `Value` is in satoshis. -/
structure TxOut where
  Value : ℤ
  PkScript : List UInt8
deriving DecidableEq, Repr

/-- The type `wire.MsgTx`. -/
structure MsgTx where
  Version : ℤ
  TxIn : List TxIn
  TxOut : List TxOut
  LockTime : ℕ
deriving DecidableEq, Repr

/-- The call `wire.NewMsgTx(version)`: no inputs, no outputs. -/
def NewMsgTx (version : ℤ) : MsgTx :=
  { Version := version, TxIn := [], TxOut := [], LockTime := 0 }

/-- The call `wire.NewTxIn(outpoint, nil, nil)`: the sequence number is `MaxTxInSequenceNum`. -/
def NewTxIn (outpoint : OutPoint) : TxIn :=
  { PreviousOutPoint := outpoint, SignatureScript := [], Witness := [], Sequence := 4294967295 }

/-- The method `AddTxIn`. -/
def MsgTx.AddTxIn (tx : MsgTx) (txIn : RBFBattle.TxIn) : MsgTx :=
  { Version := tx.Version, TxIn := tx.TxIn ++ [txIn], TxOut := tx.TxOut, LockTime := tx.LockTime }

/-- The method `AddTxOut`. -/
def MsgTx.AddTxOut (tx : MsgTx) (txOut : RBFBattle.TxOut) : MsgTx :=
  { Version := tx.Version, TxIn := tx.TxIn, TxOut := tx.TxOut ++ [txOut], LockTime := tx.LockTime }

/-- The script classes of `txscript.GetScriptClass`. -/
inductive ScriptClass where
  | NonStandardTy
  | PubKeyTy
  | PubKeyHashTy
  | WitnessV0PubKeyHashTy
  | ScriptHashTy
  | WitnessV0ScriptHashTy
  | MultiSigTy
  | NullDataTy
  | WitnessV1TaprootTy
  | WitnessUnknownTy
deriving DecidableEq, Repr

/-- The functions of `chainhash`, `btcec`, `btcutil`, `txscript` and `txsizes` that the signer
and the builders of transactions call, and the error texts of `encoding/hex`. A private key is given by the bytes it is
made from; the previous outputs known to a `MultiPrevOutFetcher` are listed in the order they
were added. -/
structure SignerLibrary where
  /-- The text of the error of `hex.DecodeString`, for a string it rejects. -/
  hexErrorText : String → String
  /-- The function `chainhash.NewHashFromStr`. -/
  NewHashFromStr : String → Except String (List UInt8)
  /-- The function `txscript.GetScriptClass`. -/
  GetScriptClass : List UInt8 → ScriptClass
  /-- The text `%v` prints for a script class. -/
  scriptClassName : ScriptClass → String
  /-- The bytes `pk.PubKey().SerializeCompressed()` of the key `btcec.PrivKeyFromBytes`. -/
  SerializeCompressed : List UInt8 → List UInt8
  /-- The bytes `pk.PubKey().SerializeUncompressed()` of the key `btcec.PrivKeyFromBytes`. -/
  SerializeUncompressed : List UInt8 → List UInt8
  /-- The digest `btcutil.Hash160`. -/
  Hash160 : List UInt8 → List UInt8
  /-- The function `txscript.SignatureScript(tx, idx, subscript, SigHashAll, pk, compress)`. -/
  SignatureScript : MsgTx → ℕ → List UInt8 → List UInt8 → Bool → Except String (List UInt8)
  /-- The script `NewScriptBuilder().AddOp(OP_0).AddData(hash).Script()`. -/
  witnessProgramScript : List UInt8 → Except String (List UInt8)
  /-- The script `NewScriptBuilder().AddData(data).Script()`. -/
  pushDataScript : List UInt8 → Except String (List UInt8)
  /-- The function `txscript.WitnessSignature(tx, NewTxSigHashes(tx, fetcher), idx, amount,
  subscript, SigHashAll, pk, compress)`. -/
  WitnessSignature : MsgTx → List (OutPoint × TxOut) → ℕ → ℤ → List UInt8 → List UInt8 → Bool →
    Except String (List (List UInt8))
  /-- The function `txscript.TaprootWitnessSignature(tx, NewTxSigHashes(tx, fetcher), idx,
  amount, pkScript, SigHashAll, pk)`. -/
  TaprootWitnessSignature : MsgTx → List (OutPoint × TxOut) → ℕ → ℤ → List UInt8 → List UInt8 →
    Except String (List (List UInt8))
  /-- The function `txscript.NullDataScript`. -/
  NullDataScript : List UInt8 → Except String (List UInt8)
  /-- The function `btcutil.DecodeAddress(address, network)`, to the decoded address. -/
  DecodeAddress : String → Except String String
  /-- The function `txscript.PayToAddrScript` of a decoded address. -/
  PayToAddrScript : String → Except String (List UInt8)
  /-- The function `txsizes.EstimateVirtualSize(numP2PKHIns, numP2TRIns, numP2WPKHIns,
  numNestedP2WPKHIns, txOuts, 0)`. -/
  EstimateVirtualSize : ℕ → ℕ → ℕ → ℕ → List TxOut → ℤ

/-- The value of a hexadecimal digit. -/
def hexDigitValue (c : Char) : ℕ :=
  if '0' ≤ c ∧ c ≤ '9' then c.toNat - '0'.toNat
  else if 'a' ≤ c ∧ c ≤ 'f' then c.toNat - 'a'.toNat + 10
  else c.toNat - 'A'.toNat + 10

/-- The bytes `hex.DecodeString` returns: one for every pair of hexadecimal digits, up to the
first character that is not one (or to the end of the string). -/
def decodeHexPairs : List Char → List UInt8
  | a :: b :: rest =>
    if isHexDigit a && isHexDigit b then
      UInt8.ofNat (16 * hexDigitValue a + hexDigitValue b) :: decodeHexPairs rest
    else []
  | _ => []

/-- The call `hex.DecodeString(s)`: the bytes and the error, nil when `s` is an even number of
hexadecimal digits. -/
def SignerLibrary.DecodeString (lib : SignerLibrary) (s : String) : List UInt8 × Option String :=
  (decodeHexPairs s.toList, if hexDecodes s then none else some (lib.hexErrorText s))

/-- The entry of the node's memory pool for a transaction, `btcjson.GetMempoolEntryResult`: the
fields the engine reads, `Fees.Descendant` (a `float64` amount in BTC) and `VSize`. -/
structure MempoolEntry where
  Descendant : ℚ
  VSize : ℤ
deriving DecidableEq, Repr

/-- The answers of the node to the requests of `TryReplacingAttacker` and of the functions it
calls. -/
structure Client where
  GetMempoolEntry : String → Except String MempoolEntry
  SignRawTransactionWithWallet : MsgTx → Except String MsgTx
  SendRawTransaction : MsgTx → Except String String
  GetRawTransactionVerbose : List UInt8 → Except String TxRawResult

/-- How a function stops without a result: it returns an error, or the runtime panics. -/
inductive Failure where
  | error (msg : String)
  | panic (msg : String)
deriving DecidableEq, Repr

/-! ## tx.go -/

/-- The assignments `tx.TxIn[idx].SignatureScript = ...` and `tx.TxIn[idx].Witness = ...`:
`write` gives the new input from the old one; an index outside the slice panics. -/
def writeTxIn (tx : MsgTx) (idx : ℕ) (write : TxIn → TxIn) : MsgTx × Except Failure Unit :=
  match tx.TxIn[idx]? with
  | none => (tx, Except.error (Failure.panic "index out of range"))
  | some txIn =>
    ({ Version := tx.Version, TxIn := tx.TxIn.set idx (write txIn), TxOut := tx.TxOut,
       LockTime := tx.LockTime }, Except.ok ())

/-- The input `txIn` with the signature script `sigScript`. -/
def withSignatureScript (sigScript : List UInt8) (txIn : TxIn) : TxIn :=
  { PreviousOutPoint := txIn.PreviousOutPoint, SignatureScript := sigScript,
    Witness := txIn.Witness, Sequence := txIn.Sequence }

/-- The input `txIn` with the witness `witness`. -/
def withWitness (witness : List (List UInt8)) (txIn : TxIn) : TxIn :=
  { PreviousOutPoint := txIn.PreviousOutPoint, SignatureScript := txIn.SignatureScript,
    Witness := witness, Sequence := txIn.Sequence }

/-- The P2PKH case of `SignInput` from the call of `txscript.SignatureScript` on, with the
serialization `compress` chosen. -/
def signPubKeyHash (lib : SignerLibrary) (tx : MsgTx) (idx : ℕ) (scriptBytes pk : List UInt8)
    (compress : Bool) : MsgTx × Except Failure Unit :=
  match lib.SignatureScript tx idx scriptBytes pk compress with
  | Except.error err =>
    (tx, Except.error (Failure.error ("error creating signature script for P2PKH: " ++ err)))
  | Except.ok sigScript => writeTxIn tx idx (withSignatureScript sigScript)

/-- The loop of the P2TR case over `tx.TxIn`, from the input of index `i` on: the previous output
of every input other than `idx` is asked from the node and added to the fetcher. -/
def addOtherPrevOuts (lib : SignerLibrary) (client : Client) (p : Platform) (idx : ℕ) :
    ℕ → List TxIn → List (OutPoint × TxOut) → Except Failure (List (OutPoint × TxOut))
  | _, [], fetcher => Except.ok fetcher
  | i, txIn :: rest, fetcher =>
    if i ≠ idx then
      match client.GetRawTransactionVerbose txIn.PreviousOutPoint.Hash with
      | Except.error err =>
        Except.error (Failure.error ("error getting previous transaction: " ++ err))
      | Except.ok prevTx =>
        match prevTx.Vout[txIn.PreviousOutPoint.Index]? with
        | none => Except.error (Failure.panic "index out of range")
        | some prevOut =>
          let prevAmount := NewAmount p prevOut.Value
          let prevScript := (lib.DecodeString prevOut.ScriptPubKey.Hex).1
          addOtherPrevOuts lib client p idx (i + 1) rest
            (fetcher ++ [(txIn.PreviousOutPoint, ⟨prevAmount, prevScript⟩)])
    else addOtherPrevOuts lib client p idx (i + 1) rest fetcher

/-- The function `SignInput`: the transaction it leaves behind the pointer `tx`, and how it
ends. The index `idx` is not negative (the callers pass 0). -/
def SignInput (lib : SignerLibrary) (client : Client) (p : Platform) (tx : MsgTx) (idx : ℕ)
    (privateKey : String) (trackedUtxo : TrackedUTXO) : MsgTx × Except Failure Unit :=
  match lib.DecodeString trackedUtxo.Script.Hex with
  | (_, some err) => (tx, Except.error (Failure.error ("error decoding script hex: " ++ err)))
  | (scriptBytes, none) =>
    match lib.DecodeString privateKey with
    | (_, some err) => (tx, Except.error (Failure.error ("error decoding private key: " ++ err)))
    | (pk, none) =>
      let amount := trackedUtxo.Amount
      match lib.NewHashFromStr trackedUtxo.TxID with
      | Except.error err =>
        (tx, Except.error (Failure.error ("error parsing transaction hash: " ++ err)))
      | Except.ok txHash =>
        let prevOutFetcher : List (OutPoint × TxOut) :=
          [(⟨txHash, trackedUtxo.N⟩, ⟨amount, scriptBytes⟩)]
        match lib.GetScriptClass scriptBytes with
        | ScriptClass.PubKeyHashTy =>
          if scriptBytes.length ≠ 25 then
            (tx, Except.error (Failure.error "invalid P2PKH script length"))
          else
            let pubKeyHash := (scriptBytes.drop 3).take 20
            let compressedHash := lib.Hash160 (lib.SerializeCompressed pk)
            let uncompressedHash := lib.Hash160 (lib.SerializeUncompressed pk)
            if pubKeyHash = compressedHash then signPubKeyHash lib tx idx scriptBytes pk true
            else if pubKeyHash = uncompressedHash then
              signPubKeyHash lib tx idx scriptBytes pk false
            else
              (tx, Except.error (Failure.error
                "public key hash does not match either compressed or uncompressed key"))
        | ScriptClass.ScriptHashTy =>
          let pubKeyHash := lib.Hash160 (lib.SerializeCompressed pk)
          match lib.witnessProgramScript pubKeyHash with
          | Except.error err =>
            (tx, Except.error (Failure.error ("error creating redeem script: " ++ err)))
          | Except.ok redeemScript =>
            match lib.WitnessSignature tx prevOutFetcher idx amount redeemScript pk true with
            | Except.error err =>
              (tx, Except.error (Failure.error
                ("error creating witness for P2SH-P2WPKH: " ++ err)))
            | Except.ok witness =>
              match lib.pushDataScript redeemScript with
              | Except.error err =>
                (tx, Except.error (Failure.error ("error creating signature script: " ++ err)))
              | Except.ok sigScript =>
                writeTxIn tx idx
                  (fun txIn => withWitness witness (withSignatureScript sigScript txIn))
        | ScriptClass.WitnessV0PubKeyHashTy =>
          match lib.WitnessSignature tx prevOutFetcher idx amount scriptBytes pk true with
          | Except.error err =>
            (tx, Except.error (Failure.error ("error creating witness for P2WPKH: " ++ err)))
          | Except.ok witness => writeTxIn tx idx (withWitness witness)
        | ScriptClass.WitnessV1TaprootTy =>
          match addOtherPrevOuts lib client p idx 0 tx.TxIn prevOutFetcher with
          | Except.error failure => (tx, Except.error failure)
          | Except.ok fetcher =>
            match lib.TaprootWitnessSignature tx fetcher idx amount scriptBytes pk with
            | Except.error err =>
              (tx, Except.error (Failure.error ("error creating taproot witness: " ++ err)))
            | Except.ok witness => writeTxIn tx idx (withWitness witness)
        | scriptClass =>
          (tx, Except.error (Failure.error
            ("unsupported script type: " ++ lib.scriptClassName scriptClass)))

/-- The conversion of an integer to `int64`: the low 64 bits, in two's complement. -/
def wrapInt64 (x : ℤ) : ℤ := (x + 2 ^ 63) % 2 ^ 64 - 2 ^ 63

/-- The conversion of an integer to `int32`: the low 32 bits, in two's complement. -/
def wrapInt32 (x : ℤ) : ℤ := (x + 2 ^ 31) % 2 ^ 32 - 2 ^ 31

/-- The counters of `estimateTransactionSize`. -/
structure InputCounts where
  numP2PKHIns : ℕ
  numP2TRIns : ℕ
  numP2WPKHIns : ℕ
  numNestedP2WPKHIns : ℕ
deriving DecidableEq, Repr

/-- The loop of `estimateTransactionSize` over the input scripts: the counters, or the message
of the `log.Fatalf` that ends the process at a script of another class. -/
def countInputs (lib : SignerLibrary) : List String → InputCounts → Except String InputCounts
  | [], counts => Except.ok counts
  | inputScript :: rest, counts =>
    let inputScriptBytes := (lib.DecodeString inputScript).1
    match lib.GetScriptClass inputScriptBytes with
    | ScriptClass.PubKeyHashTy =>
      countInputs lib rest
        ⟨counts.numP2PKHIns + 1, counts.numP2TRIns, counts.numP2WPKHIns,
          counts.numNestedP2WPKHIns⟩
    | ScriptClass.WitnessV0PubKeyHashTy =>
      countInputs lib rest
        ⟨counts.numP2PKHIns, counts.numP2TRIns, counts.numP2WPKHIns + 1,
          counts.numNestedP2WPKHIns⟩
    | ScriptClass.WitnessV1TaprootTy =>
      countInputs lib rest
        ⟨counts.numP2PKHIns, counts.numP2TRIns + 1, counts.numP2WPKHIns,
          counts.numNestedP2WPKHIns⟩
    | ScriptClass.ScriptHashTy =>
      countInputs lib rest
        ⟨counts.numP2PKHIns, counts.numP2TRIns, counts.numP2WPKHIns,
          counts.numNestedP2WPKHIns + 1⟩
    | inputScriptClass =>
      Except.error ("unsupported script type: " ++ lib.scriptClassName inputScriptClass)

/-- The script `destScript` of `estimateTransactionSize`: the script of the address decoded when
the configuration was loaded; the error of `PayToAddrScript` is discarded and leaves the script
nil. (The program starts only if the destination address decodes.) -/
def estimateDestScript (lib : SignerLibrary) (config : Config) : List UInt8 :=
  match lib.DecodeAddress config.DestinationAddress with
  | Except.error _ => []
  | Except.ok decodedDestinationAddress =>
    match lib.PayToAddrScript decodedDestinationAddress with
    | Except.error _ => []
    | Except.ok destScript => destScript

/-- The function `estimateTransactionSize`: the estimate, or the message of the `log.Fatalf`
that ends the process. -/
def estimateTransactionSize (lib : SignerLibrary) (config : Config) (outputValue : ℤ)
    (inputScripts : List String) : Except String ℤ :=
  let destScript := estimateDestScript lib config
  match countInputs lib inputScripts ⟨0, 0, 0, 0⟩ with
  | Except.error msg => Except.error msg
  | Except.ok counts =>
    Except.ok (lib.EstimateVirtualSize counts.numP2PKHIns counts.numP2TRIns counts.numP2WPKHIns
      counts.numNestedP2WPKHIns [⟨outputValue, destScript⟩])

/-! ## main.go: the battle -/

/-- What `TryReplacingAttacker` and the functions it calls do besides writing the state: the
log lines, the calls, and how the process ends when it does (`log.Fatalf`, a panic). -/
inductive Step where
  | logMempoolEntryFailed (err : String)
  | logSpending (counterFee vsize : ℤ)
  | logOverpaid (counterFee : ℤ)
  | logCounterpartBurned (counterFee : ℤ)
  | fatalListUnspent (err : WalletError)
  | fatal (msg : String)
  | panic (msg : String)
  | logTrying (newFee outputValue : ℤ)
  | logBurning
  | callBurnTransaction (trackedUtxo : TrackedUTXO)
  | logBurned (txid : String)
  | logBurnFailed (err : String)
  | logDustLimit
  | callReplaceTransaction (outputValue : ℤ) (unspent : ListUnspentResult)
  | callSignRawTransactionWithWallet (tx : MsgTx)
  | callSendRawTransaction (tx : MsgTx)
  | logReplaced (newTxID : String)
  | logInsufficientFee (err : String)
  | logNoMoneyLeft (err : String)
  | logDustRejected (err : String)
  | logCounterpartConfirmed (err : String)
  | logReplaceError (err : String)
deriving DecidableEq, Repr

/-- The transaction `BurnTransaction` builds before it signs: the input spends the outpoint
`txHash:n`, the output carries `destScript` and no value. -/
def burnTx (txHash : List UInt8) (n : ℕ) (destScript : List UInt8) : MsgTx :=
  ((NewMsgTx 2).AddTxIn (NewTxIn ⟨txHash, n⟩)).AddTxOut ⟨0, destScript⟩

/-- The function `BurnTransaction`, on the table `monitoredUtxos`: the table it leaves, what it
did and what it returns. -/
def BurnTransaction (lib : SignerLibrary) (client : Client) (p : Platform) (config : Config)
    (monitoredUtxos : GoMap TrackedUTXO) (trackedUtxo : TrackedUTXO) (privateKeyWIF : String) :
    GoMap TrackedUTXO × List Step × Except Failure String :=
  match lib.NewHashFromStr trackedUtxo.TxID with
  | Except.error err =>
    (monitoredUtxos, [],
      Except.error (Failure.error ("error parsing transaction hash: " ++ err)))
  | Except.ok txHash =>
    let msg := bytesOfString config.BurnMessage
    match lib.NullDataScript msg with
    | Except.error err =>
      (monitoredUtxos, [],
        Except.error (Failure.error ("error creating destination script: " ++ err)))
    | Except.ok destScript =>
      let newTx := burnTx txHash trackedUtxo.N destScript
      match SignInput lib client p newTx 0 privateKeyWIF trackedUtxo with
      | (_, Except.error (Failure.error err)) =>
        (monitoredUtxos, [],
          Except.error (Failure.error ("error creating signature script: " ++ err)))
      | (_, Except.error (Failure.panic msg)) =>
        (monitoredUtxos, [], Except.error (Failure.panic msg))
      | (signed, Except.ok _) =>
        match client.SendRawTransaction signed with
        | Except.error err =>
          (monitoredUtxos, [Step.callSendRawTransaction signed],
            Except.error (Failure.error ("error broadcasting transaction: " ++ err)))
        | Except.ok newTxHash =>
          (cleanup monitoredUtxos trackedUtxo,
            [Step.callSendRawTransaction signed, Step.logBurned newTxHash],
            Except.ok newTxHash)

/-- The transaction `ReplaceTransaction` builds before the wallet signs: the first input spends
the contested outpoint, the second the funding output, and the one output pays `outputValue` to
the destination script. -/
def replaceTx (txHash : List UInt8) (n : ℕ) (outputValue : ℤ) (destScript : List UInt8)
    (txHash2 : List UInt8) (vout : ℕ) : MsgTx :=
  (((NewMsgTx 2).AddTxIn (NewTxIn ⟨txHash, n⟩)).AddTxOut ⟨outputValue, destScript⟩).AddTxIn
    (NewTxIn ⟨txHash2, vout⟩)

/-- The function `ReplaceTransaction`: what it did and what it returns. It writes neither
`monitoredUtxos` nor `unspentUtxo`. The hash of the funding transaction is used without a look
at the error of `NewHashFromStr`, so a nil hash makes `wire.NewOutPoint` panic. -/
def ReplaceTransaction (lib : SignerLibrary) (client : Client) (p : Platform) (config : Config)
    (outputValue : ℤ) (unspent : ListUnspentResult) (trackedUtxo : TrackedUTXO)
    (privateKeyWIF : String) : List Step × Except Failure String :=
  match lib.NewHashFromStr trackedUtxo.TxID with
  | Except.error err =>
    ([], Except.error (Failure.error ("error parsing transaction hash: " ++ err)))
  | Except.ok txHash =>
    match lib.DecodeAddress config.DestinationAddress with
    | Except.error err =>
      ([], Except.error (Failure.error ("error decoding destination address: " ++ err)))
    | Except.ok destAddr =>
      match lib.PayToAddrScript destAddr with
      | Except.error err =>
        ([], Except.error (Failure.error ("error creating destination script: " ++ err)))
      | Except.ok destScript =>
        match lib.NewHashFromStr unspent.TxID with
        | Except.error _ => ([], Except.error (Failure.panic "nil pointer dereference"))
        | Except.ok txHash2 =>
          let newTx := replaceTx txHash trackedUtxo.N outputValue destScript txHash2 unspent.Vout
          match client.SignRawTransactionWithWallet newTx with
          | Except.error err =>
            ([Step.callSignRawTransactionWithWallet newTx],
              Except.error (Failure.error ("error signing transaction with wallet: " ++ err)))
          | Except.ok sig =>
            match SignInput lib client p sig 0 privateKeyWIF trackedUtxo with
            | (_, Except.error (Failure.error err)) =>
              ([Step.callSignRawTransactionWithWallet newTx],
                Except.error (Failure.error ("error signing transaction: " ++ err)))
            | (_, Except.error (Failure.panic msg)) =>
              ([Step.callSignRawTransactionWithWallet newTx], Except.error (Failure.panic msg))
            | (signed, Except.ok _) =>
              match client.SendRawTransaction signed with
              | Except.error err =>
                ([Step.callSignRawTransactionWithWallet newTx,
                    Step.callSendRawTransaction signed],
                  Except.error (Failure.error ("error broadcasting transaction: " ++ err)))
              | Except.ok newTxHash =>
                ([Step.callSignRawTransactionWithWallet newTx,
                    Step.callSendRawTransaction signed], Except.ok newTxHash)

/-- The call of `BurnTransaction` in `TryReplacingAttacker` with the log line that follows a
returned error. -/
def burnAndLog (lib : SignerLibrary) (client : Client) (env : Env) (st : State)
    (utxo : TrackedUTXO) (privateKeyWIF : String) : State × List Step :=
  let r := BurnTransaction lib client env.platform env.config st.monitoredUtxos utxo privateKeyWIF
  let st1 : State := { monitoredUtxos := r.1, unspentUtxo := st.unspentUtxo }
  match r.2.2 with
  | Except.ok _ => (st1, Step.callBurnTransaction utxo :: r.2.1)
  | Except.error (Failure.error err) =>
    (st1, Step.callBurnTransaction utxo :: r.2.1 ++ [Step.logBurnFailed err])
  | Except.error (Failure.panic msg) =>
    (st1, Step.callBurnTransaction utxo :: r.2.1 ++ [Step.panic msg])

/-- The statements of `TryReplacingAttacker` after `ReplaceTransaction` has returned the error
`err` (the text `err.Error()`). -/
def afterReplaceError (lib : SignerLibrary) (client : Client) (env : Env) (st : State)
    (utxo : TrackedUTXO) (privateKeyWIF : String) (err : String) : State × List Step :=
  if stringsContains err "-26: insufficient fee" then (st, [Step.logInsufficientFee err])
  else if stringsContains err "not enough funds to cover fee" then
    let r := burnAndLog lib client env st utxo privateKeyWIF
    (r.1, Step.logNoMoneyLeft err :: r.2)
  else if stringsContains err "-26: dust" then
    let r := burnAndLog lib client env st utxo privateKeyWIF
    (r.1, Step.logDustRejected err :: r.2)
  else if stringsContains err "bad-txns-inputs-missingorspent" then
    (st, [Step.logCounterpartConfirmed err])
  else (st, [Step.logReplaceError err])

/-- The statements of `TryReplacingAttacker` from the call of `newFee` on: `counterFee` and
`vsize` are the competitor's fee and size, `unspent` the funding output and `estimatedTxSize`
the estimate. The function `formatTxId` slices the first and the last six bytes of the
competitor's transaction id and panics on a shorter string. -/
def replaceOrBurn (lib : SignerLibrary) (client : Client) (env : Env) (st : State)
    (counterpart : TxRawResult) (utxo : TrackedUTXO) (privateKeyWIF : String)
    (counterFee vsize : ℤ) (unspent : ListUnspentResult) (estimatedTxSize : ℤ) :
    State × List Step :=
  let unspentSats := NewAmount env.platform unspent.Amount
  let utxoValue := utxo.Amount
  let fee := newFee env.platform counterFee vsize (wrapInt32 estimatedTxSize) utxo
  let outputValueSatoshis := wrapInt64 (wrapInt64 (utxoValue - fee.1) + unspentSats)
  if counterpart.Txid.utf8ByteSize < 6 then (st, [Step.panic "slice bounds out of range"])
  else if fee.2 then
    let r := burnAndLog lib client env st utxo privateKeyWIF
    (r.1, Step.logTrying fee.1 outputValueSatoshis :: Step.logBurning :: r.2)
  else if outputValueSatoshis < 547 then
    (st, [Step.logTrying fee.1 outputValueSatoshis, Step.logDustLimit])
  else
    let r := ReplaceTransaction lib client env.platform env.config outputValueSatoshis unspent
      utxo privateKeyWIF
    let called := Step.logTrying fee.1 outputValueSatoshis ::
      Step.callReplaceTransaction outputValueSatoshis unspent :: r.1
    match r.2 with
    | Except.ok newTxID => (st, called ++ [Step.logReplaced newTxID])
    | Except.error (Failure.panic msg) => (st, called ++ [Step.panic msg])
    | Except.error (Failure.error err) =>
      let r2 := afterReplaceError lib client env st utxo privateKeyWIF err
      (r2.1, called ++ r2.2)

/-- The function `TryReplacingAttacker`: the state it leaves and what it did. The node's answer
to `listunspent`, if the funding slot is empty and the node is asked, is `env.listUnspent 0`. -/
def TryReplacingAttacker (lib : SignerLibrary) (client : Client) (env : Env) (st : State)
    (counterpart : TxRawResult) (utxo : TrackedUTXO) (privateKeyWIF : String) :
    State × List Step :=
  match client.GetMempoolEntry counterpart.Txid with
  | Except.error err => (st, [Step.logMempoolEntryFailed err])
  | Except.ok mempool =>
    let counterFee := NewAmount env.platform mempool.Descendant
    let vsize := mempool.VSize
    if counterFee > utxo.Amount then
      (st, [Step.logSpending counterFee vsize, Step.logOverpaid counterFee])
    else if counterFee = utxo.Amount then
      ({ monitoredUtxos := cleanup st.monitoredUtxos utxo, unspentUtxo := st.unspentUtxo },
        [Step.logSpending counterFee vsize, Step.logCounterpartBurned counterFee])
    else
      match selectUnspentUtxo env.sort st.unspentUtxo (env.listUnspent 0) with
      | (slot, Except.error err) =>
        ({ monitoredUtxos := st.monitoredUtxos, unspentUtxo := slot },
          [Step.logSpending counterFee vsize, Step.fatalListUnspent err])
      | (slot, Except.ok unspent) =>
        let st1 : State := { monitoredUtxos := st.monitoredUtxos, unspentUtxo := slot }
        let unspentSats := NewAmount env.platform unspent.Amount
        let utxoValue := utxo.Amount
        match estimateTransactionSize lib env.config (wrapInt64 (utxoValue + unspentSats))
            [utxo.Script.Hex, unspent.ScriptPubKey] with
        | Except.error msg => (st1, [Step.logSpending counterFee vsize, Step.fatal msg])
        | Except.ok estimatedTxSize =>
          let r := replaceOrBurn lib client env st1 counterpart utxo privateKeyWIF counterFee
            vsize unspent estimatedTxSize
          (r.1, Step.logSpending counterFee vsize :: r.2)

/-- The calls of `ReplaceTransaction` among the steps, in order. -/
def replaceTransactionCalls (steps : List Step) : List (ℤ × ListUnspentResult) :=
  steps.filterMap fun s =>
    match s with
    | Step.callReplaceTransaction outputValue unspent => some (outputValue, unspent)
    | _ => none

/-- The calls of `BurnTransaction` among the steps, in order. -/
def burnTransactionCalls (steps : List Step) : List TrackedUTXO :=
  steps.filterMap fun s =>
    match s with
    | Step.callBurnTransaction trackedUtxo => some trackedUtxo
    | _ => none

/-- The transactions handed to `SendRawTransaction` among the steps, in order. -/
def broadcasts (steps : List Step) : List MsgTx :=
  steps.filterMap fun s =>
    match s with
    | Step.callSendRawTransaction tx => some tx
    | _ => none

/-! ## Scenarios: the battle over `aa:0` -/

/-- A script classifier for the scenarios: the four templates the signer knows, by length and
leading bytes. -/
def exampleScriptClass (script : List UInt8) : ScriptClass :=
  if script.length = 25 ∧ script.take 3 = [0x76, 0xa9, 0x14] ∧ script.drop 23 = [0x88, 0xac] then
    ScriptClass.PubKeyHashTy
  else if script.length = 23 ∧ script.take 2 = [0xa9, 0x14] ∧ script.drop 22 = [0x87] then
    ScriptClass.ScriptHashTy
  else if script.length = 22 ∧ script.take 2 = [0x00, 0x14] then
    ScriptClass.WitnessV0PubKeyHashTy
  else if script.length = 34 ∧ script.take 2 = [0x51, 0x20] then ScriptClass.WitnessV1TaprootTy
  else ScriptClass.NonStandardTy

/-- A small library for the scenarios, with the shape of the real one: a public key is the
private key behind a tag byte, `Hash160` pads or cuts to 20 bytes, a signature is the key behind
the serialization flag, and the size estimate is 209 vbytes. -/
def exampleSigner : SignerLibrary where
  hexErrorText := fun _ => "encoding/hex: invalid byte"
  NewHashFromStr := fun s =>
    if s.length ≤ 64 ∧ s.toList.all isHexDigit then Except.ok (decodeHexPairs s.toList).reverse
    else Except.error "max hash string length is 64 bytes"
  GetScriptClass := exampleScriptClass
  scriptClassName := fun _ => "nonstandard"
  SerializeCompressed := fun key => 2 :: key
  SerializeUncompressed := fun key => 4 :: key
  Hash160 := fun bytes => (bytes ++ List.replicate 20 0).take 20
  SignatureScript := fun _ _ _ pk compress => Except.ok ((if compress then 1 else 0) :: pk)
  witnessProgramScript := fun hash => Except.ok (0x00 :: 0x14 :: hash)
  pushDataScript := fun data => Except.ok (UInt8.ofNat data.length :: data)
  WitnessSignature := fun _ _ _ _ _ pk _ => Except.ok [pk, 2 :: pk]
  TaprootWitnessSignature := fun _ _ _ _ _ pk => Except.ok [pk]
  NullDataScript := fun data =>
    if data.length ≤ 80 then Except.ok (0x6a :: UInt8.ofNat data.length :: data)
    else Except.error "data too large"
  DecodeAddress := fun address =>
    if address = "" then Except.error "decoded address is of unknown format"
    else Except.ok address
  PayToAddrScript := fun address => Except.ok (0x00 :: 0x14 :: (bytesOfString address).take 20)
  EstimateVirtualSize := fun _ _ _ _ _ => 209

/-- A node that knows the competitor's transaction with a descendant fee of 0.0001 BTC on 1000
vbytes, lets the wallet sign, and accepts what is broadcast. -/
def acceptingClient : Client where
  GetMempoolEntry := fun _ => Except.ok ⟨f64round (1 / 10000), 1000⟩
  SignRawTransactionWithWallet := fun tx => Except.ok tx
  SendRawTransaction := fun _ => Except.ok "5e7d"
  GetRawTransactionVerbose := fun _ => Except.error "No such mempool or blockchain transaction"

/-- The same node, except that it rejects what is broadcast with the text of an older
`bitcoind`, which names the reject code before the reason. -/
def dustClient : Client where
  GetMempoolEntry := fun _ => Except.ok ⟨f64round (1 / 10000), 1000⟩
  SignRawTransactionWithWallet := fun tx => Except.ok tx
  SendRawTransaction := fun _ => Except.error "-26: 64: dust"
  GetRawTransactionVerbose := fun _ => Except.error "No such mempool or blockchain transaction"

/-- A node for which the competitor's descendant fee is `descendant` BTC on 1000 vbytes. -/
def clientWithFee (descendant : ℚ) : Client where
  GetMempoolEntry := fun _ => Except.ok ⟨descendant, 1000⟩
  SignRawTransactionWithWallet := fun tx => Except.ok tx
  SendRawTransaction := fun _ => Except.ok "5e7d"
  GetRawTransactionVerbose := fun _ => Except.error "No such mempool or blockchain transaction"

/-- The private key of the watched address in `exampleEnv`. -/
def weakKey : String := "23d4a09295be678b21a5f1dceae1f634a69c1b41775f680ebf8165266471401b"

/-- The funding output in the slot of `battleState`. -/
def funding : ListUnspentResult := walletEntry "a0" (f64round (1 / 2)) true

/-- A competitor's unconfirmed transaction that spends `aa:0`. -/
def attackTx : TxRawResult :=
  { Txid := "c0ffee01", Vin := [⟨"aa", 0⟩], Vout := [⟨1 / 2, 0, scriptTo "bcrt1qother"⟩],
    BlockHash := "", Confirmations := 0 }

/-- The competitor's next transaction, which spends `aa:0` again after our replacement. -/
def attackTx2 : TxRawResult :=
  { Txid := "c0ffee02", Vin := [⟨"aa", 0⟩], Vout := [⟨1 / 4, 0, scriptTo "bcrt1qother"⟩],
    BlockHash := "", Confirmations := 0 }

/-- A contested output `ab:1` of 1 BTC at a P2PKH script whose hash is that of the uncompressed
key `0102` in `exampleSigner`. -/
def legacyContested : TrackedUTXO :=
  { Address := "mweak", Amount := 100000000, N := 1, TxID := "ab",
    Script :=
      { Asm := "OP_DUP OP_HASH160 0401020000000000000000000000000000000000 OP_EQUALVERIFY OP_CHECKSIG",
        Hex := "76a914040102000000000000000000000000000000000088ac", Address := "mweak" },
    Tx := none }

/-- A transaction of two inputs and one output, to be signed. -/
def unsignedTx : MsgTx :=
  replaceTx [0xab] 1 149997492 [0x00, 0x14] [0xa0] 0

/-! ## Reading the signer's behaviour -/

/-- The transaction `after` differs from `tx` at most in the signature script and the witness
of the input of index `idx`. -/
def onlyInputWritten (tx : MsgTx) (idx : ℕ) (after : MsgTx) : Prop :=
  after.Version = tx.Version ∧ after.TxOut = tx.TxOut ∧ after.LockTime = tx.LockTime ∧
    after.TxIn.length = tx.TxIn.length ∧ (∀ i, i ≠ idx → after.TxIn[i]? = tx.TxIn[i]?) ∧
    ∀ a, tx.TxIn[idx]? = some a →
      ∃ b, after.TxIn[idx]? = some b ∧ b.PreviousOutPoint = a.PreviousOutPoint ∧
        b.Sequence = a.Sequence

/-- The four script classes `SignInput` signs. -/
def signable (scriptClass : ScriptClass) : Bool :=
  scriptClass == ScriptClass.PubKeyHashTy || scriptClass == ScriptClass.ScriptHashTy ||
    scriptClass == ScriptClass.WitnessV0PubKeyHashTy ||
    scriptClass == ScriptClass.WitnessV1TaprootTy

/-- What `SignInput` is to leave: nothing but the input `idx` written, and nothing at all
written unless it returns nil. -/
def Framed (tx : MsgTx) (idx : ℕ) (r : MsgTx × Except Failure Unit) : Prop :=
  onlyInputWritten tx idx r.1 ∧ (r.2 ≠ Except.ok () → r.1 = tx)

/-- A node like `acceptingClient`, except that it rejects what is broadcast with the text
`reason`. -/
def rejectingClient (reason : String) : Client where
  GetMempoolEntry := fun _ => Except.ok ⟨f64round (1 / 10000), 1000⟩
  SignRawTransactionWithWallet := fun tx => Except.ok tx
  SendRawTransaction := fun _ => Except.error reason
  GetRawTransactionVerbose := fun _ => Except.error "No such mempool or blockchain transaction"

/-- Whether `TryReplacingAttacker` burns after `ReplaceTransaction` has failed with the text
`err`: the tests of the `if` chain in their order. -/
def burnsAfter (err : String) : Bool :=
  !stringsContains err "-26: insufficient fee" &&
    (stringsContains err "not enough funds to cover fee" || stringsContains err "-26: dust")

/-! ## The library under the generator: bytes and words -/

/-- Big-endian value of a list of bytes. -/
def beNat (bytes : List ℕ) : ℕ := bytes.foldl (fun acc b => acc * 256 + b) 0

/-- The `n` big-endian bytes of `x`. -/
def beBytes : ℕ → ℕ → List ℕ
  | 0, _ => []
  | n + 1, x => (x / 256 ^ n) % 256 :: beBytes n x

/-- The `n` little-endian bytes of `x`. -/
def leBytes (n x : ℕ) : List ℕ := (beBytes n x).reverse

/-- Groups of `k` elements, at most `fuel` of them. -/
def chunks (k : ℕ) : ℕ → List ℕ → List (List ℕ)
  | 0, _ => []
  | fuel + 1, l => if l.isEmpty then [] else l.take k :: chunks k fuel (l.drop k)

/-- Rotation of a 32-bit word to the right. -/
def rotr32 (x n : ℕ) : ℕ := ((x >>> n) ||| (x <<< (32 - n))) % 4294967296

/-- Rotation of a 32-bit word to the left. -/
def rotl32 (x n : ℕ) : ℕ := ((x <<< n) ||| (x >>> (32 - n))) % 4294967296

/-- Complement of a 32-bit word. -/
def not32 (x : ℕ) : ℕ := 4294967295 - x

/-! ## SHA-256 (FIPS 180-4) -/

/-- The round constants of SHA-256. -/
def sha256K : List ℕ :=
  [0x428a2f98, 0x71374491, 0xb5c0fbcf, 0xe9b5dba5, 0x3956c25b, 0x59f111f1, 0x923f82a4, 0xab1c5ed5,
   0xd807aa98, 0x12835b01, 0x243185be, 0x550c7dc3, 0x72be5d74, 0x80deb1fe, 0x9bdc06a7, 0xc19bf174,
   0xe49b69c1, 0xefbe4786, 0x0fc19dc6, 0x240ca1cc, 0x2de92c6f, 0x4a7484aa, 0x5cb0a9dc, 0x76f988da,
   0x983e5152, 0xa831c66d, 0xb00327c8, 0xbf597fc7, 0xc6e00bf3, 0xd5a79147, 0x06ca6351, 0x14292967,
   0x27b70a85, 0x2e1b2138, 0x4d2c6dfc, 0x53380d13, 0x650a7354, 0x766a0abb, 0x81c2c92e, 0x92722c85,
   0xa2bfe8a1, 0xa81a664b, 0xc24b8b70, 0xc76c51a3, 0xd192e819, 0xd6990624, 0xf40e3585, 0x106aa070,
   0x19a4c116, 0x1e376c08, 0x2748774c, 0x34b0bcb5, 0x391c0cb3, 0x4ed8aa4a, 0x5b9cca4f, 0x682e6ff3,
   0x748f82ee, 0x78a5636f, 0x84c87814, 0x8cc70208, 0x90befffa, 0xa4506ceb, 0xbef9a3f7, 0xc67178f2]

/-- The initial hash value of SHA-256. -/
def sha256Init : List ℕ :=
  [0x6a09e667, 0xbb67ae85, 0x3c6ef372, 0xa54ff53a, 0x510e527f, 0x9b05688c, 0x1f83d9ab, 0x5be0cd19]

/-- Extends the message schedule, kept newest word first, by `n` words. -/
def sha256Schedule : ℕ → List ℕ → List ℕ
  | 0, ws => ws
  | n + 1, ws =>
    let w2 := ws.getD 1 0
    let w7 := ws.getD 6 0
    let w15 := ws.getD 14 0
    let w16 := ws.getD 15 0
    let s0 := (rotr32 w15 7) ^^^ (rotr32 w15 18) ^^^ (w15 >>> 3)
    let s1 := (rotr32 w2 17) ^^^ (rotr32 w2 19) ^^^ (w2 >>> 10)
    sha256Schedule n (((s1 + w7 + s0 + w16) % 4294967296) :: ws)

/-- One round on the working variables `[a, b, c, d, e, f, g, h]`. -/
def sha256Round (s : List ℕ) (kw : ℕ × ℕ) : List ℕ :=
  match s with
  | [a, b, c, d, e, f, g, h] =>
    let S1 := (rotr32 e 6) ^^^ (rotr32 e 11) ^^^ (rotr32 e 25)
    let ch := (e &&& f) ^^^ ((not32 e) &&& g)
    let t1 := (h + S1 + ch + kw.1 + kw.2) % 4294967296
    let S0 := (rotr32 a 2) ^^^ (rotr32 a 13) ^^^ (rotr32 a 22)
    let maj := (a &&& b) ^^^ (a &&& c) ^^^ (b &&& c)
    let t2 := (S0 + maj) % 4294967296
    [(t1 + t2) % 4294967296, a, b, c, (d + t1) % 4294967296, e, f, g]
  | _ => s

/-- The compression of one 64-byte block into the hash value `hs`. -/
def sha256Compress (hs : List ℕ) (block : List ℕ) : List ℕ :=
  let w := (sha256Schedule 48 ((chunks 4 16 block).map beNat).reverse).reverse
  let s := (sha256K.zip w).foldl sha256Round hs
  List.zipWith (fun x y => (x + y) % 4294967296) hs s

/-- The padded message: a `1` bit, zeros, and the length in bits as 8 big-endian bytes. -/
def sha256Pad (msg : List ℕ) : List ℕ :=
  msg ++ [128] ++ List.replicate ((119 - msg.length % 64) % 64) 0 ++ beBytes 8 (8 * msg.length)

/-- Modelled from the spec: `sha256.Sum256` of the Go library, which is not under `src/`; the
"SHA-256 of the passphrase bytes" of the specification, computed as FIPS 180-4 defines it. -/
def sha256 (msg : List ℕ) : List ℕ :=
  let blocks := chunks 64 (msg.length / 64 + 2) (sha256Pad msg)
  (blocks.foldl sha256Compress sha256Init).flatMap (beBytes 4)

/-! ## RIPEMD-160 -/

/-- The initial value of RIPEMD-160. -/
def ripemdInit : List ℕ := [0x67452301, 0xefcdab89, 0x98badcfe, 0x10325476, 0xc3d2e1f0]

/-- The round function of step `j`. -/
def ripemdF (j x y z : ℕ) : ℕ :=
  if j < 16 then x ^^^ y ^^^ z
  else if j < 32 then (x &&& y) ||| ((not32 x) &&& z)
  else if j < 48 then (x ||| (not32 y)) ^^^ z
  else if j < 64 then (x &&& z) ||| (y &&& (not32 z))
  else x ^^^ (y ||| (not32 z))

/-- The constants of the left line, one for every 16 steps. -/
def ripemdKL : List ℕ := [0x00000000, 0x5a827999, 0x6ed9eba1, 0x8f1bbcdc, 0xa953fd4e]

/-- The constants of the right line. -/
def ripemdKR : List ℕ := [0x50a28be6, 0x5c4dd124, 0x6d703ef3, 0x7a6d76e9, 0x00000000]

/-- The order of the message words in the left line. -/
def ripemdRL : List ℕ :=
  [0, 1, 2, 3, 4, 5, 6, 7, 8, 9, 10, 11, 12, 13, 14, 15,
   7, 4, 13, 1, 10, 6, 15, 3, 12, 0, 9, 5, 2, 14, 11, 8,
   3, 10, 14, 4, 9, 15, 8, 1, 2, 7, 0, 6, 13, 11, 5, 12,
   1, 9, 11, 10, 0, 8, 12, 4, 13, 3, 7, 15, 14, 5, 6, 2,
   4, 0, 5, 9, 7, 12, 2, 10, 14, 1, 3, 8, 11, 6, 15, 13]

/-- The order of the message words in the right line. -/
def ripemdRR : List ℕ :=
  [5, 14, 7, 0, 9, 2, 11, 4, 13, 6, 15, 8, 1, 10, 3, 12,
   6, 11, 3, 7, 0, 13, 5, 10, 14, 15, 8, 12, 4, 9, 1, 2,
   15, 5, 1, 3, 7, 14, 6, 9, 11, 8, 12, 2, 10, 0, 4, 13,
   8, 6, 4, 1, 3, 11, 15, 0, 5, 12, 2, 13, 9, 7, 10, 14,
   12, 15, 10, 4, 1, 5, 8, 7, 6, 2, 13, 14, 0, 3, 9, 11]

/-- The rotations of the left line. -/
def ripemdSL : List ℕ :=
  [11, 14, 15, 12, 5, 8, 7, 9, 11, 13, 14, 15, 6, 7, 9, 8,
   7, 6, 8, 13, 11, 9, 7, 15, 7, 12, 15, 9, 11, 7, 13, 12,
   11, 13, 6, 7, 14, 9, 13, 15, 14, 8, 13, 6, 5, 12, 7, 5,
   11, 12, 14, 15, 14, 15, 9, 8, 9, 14, 5, 6, 8, 6, 5, 12,
   9, 15, 5, 11, 6, 8, 13, 12, 5, 12, 13, 14, 11, 8, 5, 6]

/-- The rotations of the right line. -/
def ripemdSR : List ℕ :=
  [8, 9, 9, 11, 13, 15, 15, 5, 7, 7, 8, 11, 14, 14, 12, 6,
   9, 13, 15, 7, 12, 8, 9, 11, 7, 7, 12, 7, 6, 15, 13, 11,
   9, 7, 15, 11, 8, 6, 6, 14, 12, 13, 5, 14, 13, 13, 7, 5,
   15, 5, 8, 11, 14, 14, 6, 14, 6, 9, 12, 9, 12, 5, 15, 8,
   8, 5, 12, 9, 12, 5, 14, 6, 8, 13, 6, 5, 15, 13, 11, 11]

/-- One step of a line on `[A, B, C, D, E]`: `f` is the round function at this step, `x` the
message word, `k` the constant and `s` the rotation. -/
def ripemdStep (v : List ℕ) (f : ℕ → ℕ → ℕ → ℕ) (x k s : ℕ) : List ℕ :=
  match v with
  | [a, b, c, d, e] =>
    [e, (rotl32 ((a + f b c d + x + k) % 4294967296) s + e) % 4294967296, b, rotl32 c 10, d]
  | _ => v

/-- The steps `j, j + 1, ...` of the left line, `n` of them. -/
def ripemdLeft (x : List ℕ) : ℕ → ℕ → List ℕ → List ℕ
  | 0, _, v => v
  | n + 1, j, v =>
    ripemdLeft x n (j + 1)
      (ripemdStep v (ripemdF j) (x.getD (ripemdRL.getD j 0) 0) (ripemdKL.getD (j / 16) 0)
        (ripemdSL.getD j 0))

/-- The steps `j, j + 1, ...` of the right line, `n` of them. -/
def ripemdRight (x : List ℕ) : ℕ → ℕ → List ℕ → List ℕ
  | 0, _, v => v
  | n + 1, j, v =>
    ripemdRight x n (j + 1)
      (ripemdStep v (ripemdF (79 - j)) (x.getD (ripemdRR.getD j 0) 0) (ripemdKR.getD (j / 16) 0)
        (ripemdSR.getD j 0))

/-- The compression of one 64-byte block: both lines, then the combination. -/
def ripemdCompress (hs : List ℕ) (block : List ℕ) : List ℕ :=
  let x := (chunks 4 16 block).map (fun w => beNat w.reverse)
  match hs, ripemdLeft x 80 0 hs, ripemdRight x 80 0 hs with
  | [h0, h1, h2, h3, h4], [a, b, c, d, e], [a', b', c', d', e'] =>
    [(h1 + c + d') % 4294967296, (h2 + d + e') % 4294967296, (h3 + e + a') % 4294967296,
      (h4 + a + b') % 4294967296, (h0 + b + c') % 4294967296]
  | _, _, _ => hs

/-- The padded message: as for SHA-256, with the length in little-endian bytes. -/
def ripemdPad (msg : List ℕ) : List ℕ :=
  msg ++ [128] ++ List.replicate ((119 - msg.length % 64) % 64) 0 ++ leBytes 8 (8 * msg.length)

/-- Modelled from the spec: the RIPEMD-160 inside `btcutil.Hash160`, which is not under `src/`;
the `RIPEMD160` of the specification. -/
def ripemd160 (msg : List ℕ) : List ℕ :=
  let blocks := chunks 64 (msg.length / 64 + 2) (ripemdPad msg)
  (blocks.foldl ripemdCompress ripemdInit).flatMap (leBytes 4)


/-! ## secp256k1 (SEC 2) -/

/-- The prime of the field. -/
def secpP : ℕ := 0xfffffffffffffffffffffffffffffffffffffffffffffffffffffffefffffc2f

/-- The order of the group. -/
def secpN : ℕ := 0xfffffffffffffffffffffffffffffffebaaedce6af48a03bbfd25e8cd0364141

/-- The base point. -/
def secpG : ℕ × ℕ :=
  (0x79be667ef9dcbbac55a06295ce870b07029bfcdb2dce28d959f2815b16f81798,
   0x483ada7726a3c4655da4fbfc0e1108a8fd17b448a68554199c47d08ffb10d4b8)

/-- The power `b ^ e` modulo `m`, by squaring, for exponents below `2 ^ fuel`. -/
def powMod (m : ℕ) : ℕ → ℕ → ℕ → ℕ → ℕ
  | 0, _, _, acc => acc
  | fuel + 1, b, e, acc =>
    powMod m fuel (b * b % m) (e / 2) (if e % 2 = 1 then acc * b % m else acc)

/-- The inverse modulo the field prime (Fermat). -/
def invP (a : ℕ) : ℕ := powMod secpP 256 (a % secpP) (secpP - 2) 1

/-- A point of the curve `y² = x³ + 7` in Jacobian coordinates `(X, Y, Z)`, standing for
`(X / Z², Y / Z³)`; `Z = 0` is the point at infinity. -/
structure Jacobian where
  X : ℕ
  Y : ℕ
  Z : ℕ

/-- Doubling. -/
def Jacobian.double (q : Jacobian) : Jacobian :=
  if q.Y = 0 ∨ q.Z = 0 then ⟨0, 1, 0⟩
  else
    let a := q.X * q.X % secpP
    let b := q.Y * q.Y % secpP
    let c := b * b % secpP
    let d := 2 * ((q.X + b) * (q.X + b) + 2 * secpP - a - c) % secpP
    let e := 3 * a % secpP
    let f := e * e % secpP
    let x3 := (f + 2 * secpP - 2 * d) % secpP
    let y3 := (e * (d + secpP - x3) + 8 * secpP - 8 * c % secpP) % secpP
    ⟨x3, y3, 2 * q.Y * q.Z % secpP⟩

/-- Addition. -/
def Jacobian.add (q r : Jacobian) : Jacobian :=
  if q.Z = 0 then r
  else if r.Z = 0 then q
  else
    let z1z1 := q.Z * q.Z % secpP
    let z2z2 := r.Z * r.Z % secpP
    let u1 := q.X * z2z2 % secpP
    let u2 := r.X * z1z1 % secpP
    let s1 := q.Y * r.Z % secpP * z2z2 % secpP
    let s2 := r.Y * q.Z % secpP * z1z1 % secpP
    if u1 = u2 then
      if s1 = s2 then q.double else ⟨0, 1, 0⟩
    else
      let h := (u2 + secpP - u1) % secpP
      let rr := (s2 + secpP - s1) % secpP
      let h2 := h * h % secpP
      let h3 := h2 * h % secpP
      let v := u1 * h2 % secpP
      let x3 := (rr * rr + 3 * secpP - h3 - 2 * v) % secpP
      let y3 := (rr * (v + secpP - x3) + secpP - s1 * h3 % secpP) % secpP
      ⟨x3, y3, h * q.Z % secpP * r.Z % secpP⟩

/-- The multiple `k * q + acc`, for `k` below `2 ^ fuel`: double and add, lowest bit first. -/
def scalarMul : ℕ → ℕ → Jacobian → Jacobian → Jacobian
  | 0, _, _, acc => acc
  | fuel + 1, k, q, acc =>
    scalarMul fuel (k / 2) q.double (if k % 2 = 1 then acc.add q else acc)

/-- The affine coordinates of a point that is not at infinity. -/
def Jacobian.toAffine (q : Jacobian) : ℕ × ℕ :=
  let zi := invP q.Z
  let zi2 := zi * zi % secpP
  (q.X * zi2 % secpP, q.Y * zi2 % secpP * zi % secpP)

/-- Modelled from the spec: the public key of `btcec`, which is not under `src/`: the point
`k * G` of secp256k1 for the private key `k`. -/
def publicKey (k : ℕ) : ℕ × ℕ :=
  (scalarMul 256 k ⟨secpG.1, secpG.2, 1⟩ ⟨0, 1, 0⟩).toAffine

/-! ## Base58Check -/

/-- The alphabet of Base58. -/
def base58Alphabet : List Char :=
  "123456789ABCDEFGHJKLMNPQRSTUVWXYZabcdefghijkmnopqrstuvwxyz".toList

/-- The base-58 digits of `x`, lowest first. -/
def base58Digits : ℕ → ℕ → List Char
  | 0, _ => []
  | fuel + 1, x =>
    if x = 0 then [] else base58Alphabet.getD (x % 58) '1' :: base58Digits fuel (x / 58)

/-- The function `base58.Encode`: a `1` for every leading zero byte, then the digits. -/
def base58Encode (bytes : List ℕ) : String :=
  String.mk ((bytes.takeWhile (· = 0)).map (fun _ => '1') ++
    (base58Digits (2 * bytes.length) (beNat bytes)).reverse)

/-- Modelled from the spec: `base58.CheckEncode` of `btcutil`, which is not under `src/`; the
"version-byte || hash → Base58Check" of the specification, with the first four bytes of the
double SHA-256 as the checksum. -/
def base58CheckEncode (payload : List ℕ) (version : ℕ) : String :=
  let b := version :: payload
  base58Encode (b ++ (sha256 (sha256 b)).take 4)

/-! ## Bech32 and Bech32m (BIP 173, BIP 350) -/

/-- The alphabet of Bech32. -/
def bech32Charset : List Char := "qpzry9x8gf2tvdw0s3jn54khce6mua7l".toList

/-- The generator of the checksum. -/
def bech32Generator : List ℕ := [0x3b6a57b2, 0x26508e6d, 0x1ea119fa, 0x3d4233dd, 0x2a1462b3]

/-- The checksum polynomial of BIP 173 over a list of 5-bit values. -/
def bech32Polymod (values : List ℕ) : ℕ :=
  values.foldl (fun chk v =>
    let b := chk >>> 25
    let c := ((chk &&& 0x1ffffff) <<< 5) ^^^ v
    (List.range 5).foldl
      (fun c i => if (b >>> i) % 2 = 1 then c ^^^ bech32Generator.getD i 0 else c) c) 1

/-- The human-readable part as it enters the checksum. -/
def bech32HrpExpand (hrp : String) : List ℕ :=
  hrp.toList.map (fun c => c.toNat >>> 5) ++ [0] ++ hrp.toList.map (fun c => c.toNat &&& 31)

/-- The checksum: `const` is 1 for Bech32 and `0x2bc830a3` for Bech32m. -/
def bech32Checksum (const : ℕ) (hrp : String) (data : List ℕ) : List ℕ :=
  let polymod := bech32Polymod (bech32HrpExpand hrp ++ data ++ [0, 0, 0, 0, 0, 0]) ^^^ const
  (List.range 6).map (fun i => (polymod >>> (5 * (5 - i))) &&& 31)

/-- The string: human-readable part, `1`, data and checksum. -/
def bech32Encode (const : ℕ) (hrp : String) (data : List ℕ) : String :=
  hrp ++ "1" ++ String.mk ((data ++ bech32Checksum const hrp data).map
    (fun d => bech32Charset.getD d 'q'))

/-- The 5-bit groups of a list of bytes, the last group padded with zero bits. -/
def convertBits8to5 (bytes : List ℕ) : List ℕ :=
  let bits := 8 * bytes.length
  let groups := (bits + 4) / 5
  let padded := beNat bytes <<< (5 * groups - bits)
  (List.range groups).map (fun i => (padded >>> (5 * (groups - 1 - i))) &&& 31)

/-- Modelled from the spec: the address encoding of `btcutil` for witness programs, which is
not under `src/`; "Bech32 over witness version 0" and "Bech32m witness version 1" of the
specification (BIP 173, BIP 350). -/
def encodeSegWitAddress (hrp : String) (witnessVersion : ℕ) (witnessProgram : List ℕ) : String :=
  bech32Encode (if witnessVersion = 0 then 1 else 0x2bc830a3) hrp
    (witnessVersion :: convertBits8to5 witnessProgram)

/-! ## Taproot (BIP 341) -/

/-- The function `chainhash.TaggedHash`. -/
def taggedHash (tag : String) (msg : List ℕ) : List ℕ :=
  let t := sha256 (tag.toList.map Char.toNat)
  sha256 (t ++ t ++ msg)

/-- Modelled from the spec: `txscript.ComputeTaprootKeyNoScript`, which is not under `src/`; the
"BIP-341 `t = H_taptweak(P)`, `Q = P + tG`" of the specification. The output key of a
key-path-only output: `P + t * G` for the internal key `P` taken with
an even `y`, where `t` is the tagged hash of its `x`. -/
def taprootOutputKey (pub : ℕ × ℕ) : ℕ × ℕ :=
  let y := if pub.2 % 2 = 0 then pub.2 else secpP - pub.2
  let t := beNat (taggedHash "TapTweak" (beBytes 32 pub.1)) % secpN
  (scalarMul 256 t ⟨secpG.1, secpG.2, 1⟩ ⟨pub.1, y, 1⟩).toAffine

/-! ## The library of the generator -/

/-- The digits of `encoding/hex`. -/
def hexDigits : List Char := "0123456789abcdef".toList

/-- The function `hex.EncodeToString`. -/
def hexEncodeToString (bytes : List UInt8) : String :=
  String.mk (bytes.flatMap fun b =>
    [hexDigits.getD (b.toNat / 16) '0', hexDigits.getD (b.toNat % 16) '0'])

/-- Bytes as numbers. -/
def natBytes (bytes : List UInt8) : List ℕ := bytes.map UInt8.toNat

/-- Numbers below 256 as bytes. -/
def uint8Bytes (bytes : List ℕ) : List UInt8 := bytes.map UInt8.ofNat

/-- The version byte of P2PKH addresses on a network (`chaincfg`). -/
def Net.pubKeyHashAddrID : Net → ℕ
  | Net.mainnet => 0x00
  | _ => 0x6f

/-- The version byte of P2SH addresses on a network. -/
def Net.scriptHashAddrID : Net → ℕ
  | Net.mainnet => 0x05
  | _ => 0xc4

/-- The human-readable part of segwit addresses on a network. -/
def Net.bech32HRPSegwit : Net → String
  | Net.mainnet => "bc"
  | Net.testnet3 => "tb"
  | Net.signet => "tb"
  | Net.regtest => "bcrt"

/-- The scalar of `btcec.PrivKeyFromBytes`. -/
def privateScalar (key : List UInt8) : ℕ := beNat (natBytes key) % secpN

/-- Modelled from the spec: the functions of `crypto/sha256`, `btcec`, `btcutil`, `txscript`
and `encoding/hex` that `deriveAddressesFromPrivateKey` calls, which are not under `src/`, as
the specification and the standards it names describe them. -/
def btcsuite : AddressLibrary where
  sha256 := fun msg => uint8Bytes (sha256 (natBytes msg))
  serializePrivateKey := fun key => uint8Bytes (beBytes 32 (privateScalar key))
  serializeUncompressed := fun key =>
    let pub := publicKey (privateScalar key)
    uint8Bytes (4 :: beBytes 32 pub.1 ++ beBytes 32 pub.2)
  serializeCompressed := fun key =>
    let pub := publicKey (privateScalar key)
    uint8Bytes ((if pub.2 % 2 = 0 then 2 else 3) :: beBytes 32 pub.1)
  hash160 := fun msg => uint8Bytes (ripemd160 (sha256 (natBytes msg)))
  addressPubKeyHash := fun hash net =>
    if hash.length ≠ 20 then Except.error "pkHash must be 20 bytes"
    else Except.ok (base58CheckEncode (natBytes hash) net.pubKeyHashAddrID)
  addressWitnessPubKeyHash := fun hash net =>
    if hash.length ≠ 20 then Except.error "witness program must be 20 bytes for p2wpkh"
    else Except.ok (encodeSegWitAddress net.bech32HRPSegwit 0 (natBytes hash))
  payToWitnessPubKeyHashScript := fun hash => Except.ok (0x00 :: 0x14 :: hash)
  addressScriptHash := fun script net =>
    Except.ok (base58CheckEncode (ripemd160 (sha256 (natBytes script))) net.scriptHashAddrID)
  taprootKeyNoScript := fun key =>
    uint8Bytes (beBytes 32 (taprootOutputKey (publicKey (privateScalar key))).1)
  addressTaproot := fun key net =>
    if key.length ≠ 32 then Except.error "witness program must be 32 bytes for p2tr"
    else Except.ok (encodeSegWitAddress net.bech32HRPSegwit 1 (natBytes key))
  hexEncode := hexEncodeToString

/-! ## Evaluating binary64 roundings -/

theorem int_log_two_eq {r : ℚ} {k : ℤ} (h1 : (2 : ℚ) ^ k ≤ r) (h2 : r < (2 : ℚ) ^ (k + 1)) :
    Int.log 2 r = k := by
  have hr : 0 < r := lt_of_lt_of_le (by positivity) h1
  have a : k ≤ Int.log 2 r := (Int.zpow_le_iff_le_log (by norm_num) hr).1 (by exact_mod_cast h1)
  have b : Int.log 2 r < k + 1 := (Int.lt_zpow_iff_log_lt (by norm_num) hr).1 (by exact_mod_cast h2)
  omega

/-- To evaluate `f64round q` for a positive `q` in the normal range: exhibit the quantum `2 ^ e`
and the significand `m`. -/
theorem f64round_eq {q v : ℚ} (e m : ℤ) (he : -1074 ≤ e) (h1 : (2 : ℚ) ^ (e + 52) ≤ q)
    (h2 : q < (2 : ℚ) ^ (e + 52 + 1)) (hm : roundHalfEven (q / 2 ^ e) = m)
    (hv : (m : ℚ) * 2 ^ e = v) : f64round q = v := by
  have hpos : 0 < q := lt_of_lt_of_le (by positivity) h1
  have hlog : f64quantum q = e := by
    unfold f64quantum
    rw [abs_of_pos hpos, int_log_two_eq h1 h2]
    omega
  unfold f64round
  rw [if_neg hpos.ne', hlog, hm, hv]

theorem roundHalfEven_nonneg {q : ℚ} (h : 0 ≤ q) : 0 ≤ roundHalfEven q := by
  have hf : 0 ≤ ⌊q⌋ := Int.floor_nonneg.2 h
  unfold roundHalfEven
  simp only
  split_ifs <;> omega

theorem roundHalfEven_pos {q : ℚ} (h : 1 ≤ q) : 0 < roundHalfEven q := by
  have hf : 1 ≤ ⌊q⌋ := Int.le_floor.2 (by exact_mod_cast h)
  unfold roundHalfEven
  simp only
  split_ifs <;> omega

theorem f64round_nonneg {q : ℚ} (h : 0 ≤ q) : 0 ≤ f64round q := by
  unfold f64round
  split_ifs
  · exact le_refl 0
  · have hz : (0 : ℚ) < 2 ^ f64quantum q := by positivity
    exact mul_nonneg (by exact_mod_cast roundHalfEven_nonneg (div_nonneg h hz.le)) hz.le

theorem f64round_pos {q : ℚ} (h : 1 ≤ q) : 0 < f64round q := by
  have hq : 0 < q := lt_of_lt_of_le one_pos h
  have hlog : 0 ≤ Int.log 2 q := by
    have : (0 : ℤ) ≤ Int.log 2 q := (Int.zpow_le_iff_le_log (by norm_num) hq).1 (by simpa using h)
    exact this
  have hz : (0 : ℚ) < 2 ^ f64quantum q := by positivity
  have hle : (2 : ℚ) ^ f64quantum q ≤ q := by
    refine le_trans ?_ (Int.zpow_log_le_self (b := 2) (by norm_num) hq)
    have : f64quantum q ≤ Int.log 2 q := by
      unfold f64quantum
      rw [abs_of_pos hq]
      omega
    exact_mod_cast zpow_le_zpow_right₀ (by norm_num : (1 : ℚ) ≤ 2) this
  unfold f64round
  rw [if_neg hq.ne']
  exact mul_pos (by exact_mod_cast roundHalfEven_pos ((one_le_div hz).2 hle)) hz

/-- The product of `newFee` on a platform that rounds `originalFeeRate*1.1` and the sum with 1
separately, from the values of the eight roundings. -/
theorem newFeeProduct_unfused (p : Platform) (hp : p.fusedMulAdd = false) {F Vc Vo : ℤ}
    (a b d c m r v x : ℚ) (hb : b ≠ 0) (h1 : f64round F = a) (h2 : f64round Vc = b)
    (h3 : f64round (a / b) = d) (h4 : f64round (11 / 10) = c) (h5 : f64round (d * c) = m)
    (h6 : f64round (m + 1) = r) (h7 : f64round Vo = v) (h8 : f64round (v * r) = x) :
    newFeeProduct p F Vc Vo = some x := by
  subst h1 h2 h3 h4 h5 h6 h7 h8
  simp [newFeeProduct, f64ofInt, f64div, f64mulAdd, f64add, f64mul, hp, hb]

/-- The product of `newFee` on a platform that fuses `1 + originalFeeRate*1.1`, from the values of
the seven roundings. -/
theorem newFeeProduct_fused (p : Platform) (hp : p.fusedMulAdd = true) {F Vc Vo : ℤ}
    (a b d c r v x : ℚ) (hb : b ≠ 0) (h1 : f64round F = a) (h2 : f64round Vc = b)
    (h3 : f64round (a / b) = d) (h4 : f64round (11 / 10) = c) (h5 : f64round (d * c + 1) = r)
    (h7 : f64round Vo = v) (h8 : f64round (v * r) = x) :
    newFeeProduct p F Vc Vo = some x := by
  subst h1 h2 h3 h4 h5 h7 h8
  simp [newFeeProduct, f64ofInt, f64div, f64mulAdd, f64fma, f64mul, hp, hb]

/-- The conversion to `int64` of a finite, non-negative float below `2 ^ 63` is its floor. -/
theorem float64ToInt64_floor (p : Platform) {x : ℚ} (h0 : 0 ≤ x) (h1 : x < 2 ^ 63) :
    float64ToInt64 p (some x) = ⌊x⌋ := by
  have hf : 0 ≤ ⌊x⌋ := Int.floor_nonneg.2 h0
  have hlt : ⌊x⌋ < 2 ^ 63 := Int.floor_lt.2 (by exact_mod_cast h1)
  simp only [float64ToInt64, truncate, if_pos h0]
  rw [if_pos ⟨by omega, hlt⟩]

/-- The `float64` product of `newFee` for a competitor fee of 99999999 satoshis on 100 vbytes and our 250 vbytes, rounding the product and the sum separately. -/
theorem newFeeProduct_testVector_x86_64 :
    newFeeProduct x86_64 99999999 100 250 = some (1100000989 / 4) :=
  newFeeProduct_unfused x86_64 rfl 99999999 100 (4294967253050327 / 4294967296) (2476979795053773 / 2251799813685248) (147639499323605 / 134217728) (147639633541333 / 134217728) 250
    (1100000989 / 4) (by norm_num)
    (f64round_eq (-26) 6710886332891136 (by norm_num) (by norm_num) (by norm_num)
      (by norm_num [roundHalfEven]) (by norm_num))
    (f64round_eq (-46) 7036874417766400 (by norm_num) (by norm_num) (by norm_num)
      (by norm_num [roundHalfEven]) (by norm_num))
    (f64round_eq (-33) 8589934506100654 (by norm_num) (by norm_num) (by norm_num)
      (by norm_num [roundHalfEven]) (by norm_num))
    (f64round_eq (-52) 4953959590107546 (by norm_num) (by norm_num) (by norm_num)
      (by norm_num [roundHalfEven]) (by norm_num))
    (f64round_eq (-32) 4724463978355360 (by norm_num) (by norm_num) (by norm_num)
      (by norm_num [roundHalfEven]) (by norm_num))
    (f64round_eq (-32) 4724468273322656 (by norm_num) (by norm_num) (by norm_num)
      (by norm_num [roundHalfEven]) (by norm_num))
    (f64round_eq (-45) 8796093022208000 (by norm_num) (by norm_num) (by norm_num)
      (by norm_num [roundHalfEven]) (by norm_num))
    (f64round_eq (-24) 4613738548166656 (by norm_num) (by norm_num) (by norm_num)
      (by norm_num [roundHalfEven]) (by norm_num))

/-- The `float64` product of `newFee` for a competitor fee of 99999999 satoshis on 100 vbytes and our 250 vbytes, with a fused multiply-add. -/
theorem newFeeProduct_testVector_fusing :
    newFeeProduct fusing 99999999 100 250 = some (1100000989 / 4) :=
  newFeeProduct_fused fusing rfl 99999999 100 (4294967253050327 / 4294967296) (2476979795053773 / 2251799813685248) (147639633541333 / 134217728) 250
    (1100000989 / 4) (by norm_num)
    (f64round_eq (-26) 6710886332891136 (by norm_num) (by norm_num) (by norm_num)
      (by norm_num [roundHalfEven]) (by norm_num))
    (f64round_eq (-46) 7036874417766400 (by norm_num) (by norm_num) (by norm_num)
      (by norm_num [roundHalfEven]) (by norm_num))
    (f64round_eq (-33) 8589934506100654 (by norm_num) (by norm_num) (by norm_num)
      (by norm_num [roundHalfEven]) (by norm_num))
    (f64round_eq (-52) 4953959590107546 (by norm_num) (by norm_num) (by norm_num)
      (by norm_num [roundHalfEven]) (by norm_num))
    (f64round_eq (-32) 4724468273322656 (by norm_num) (by norm_num) (by norm_num)
      (by norm_num [roundHalfEven]) (by norm_num))
    (f64round_eq (-45) 8796093022208000 (by norm_num) (by norm_num) (by norm_num)
      (by norm_num [roundHalfEven]) (by norm_num))
    (f64round_eq (-24) 4613738548166656 (by norm_num) (by norm_num) (by norm_num)
      (by norm_num [roundHalfEven]) (by norm_num))

/-- The `float64` product of `newFee` for a competitor fee of 10000 satoshis on 1000 vbytes and our 209 vbytes, rounding the product and the sum separately. -/
theorem newFeeProduct_largeCompetitor_x86_64 :
    newFeeProduct x86_64 10000 1000 209 = some 2508 :=
  newFeeProduct_unfused x86_64 rfl 10000 1000 10 (2476979795053773 / 2251799813685248) 11 12 209
    2508 (by norm_num)
    (f64round_eq (-39) 5497558138880000 (by norm_num) (by norm_num) (by norm_num)
      (by norm_num [roundHalfEven]) (by norm_num))
    (f64round_eq (-43) 8796093022208000 (by norm_num) (by norm_num) (by norm_num)
      (by norm_num [roundHalfEven]) (by norm_num))
    (f64round_eq (-49) 5629499534213120 (by norm_num) (by norm_num) (by norm_num)
      (by norm_num [roundHalfEven]) (by norm_num))
    (f64round_eq (-52) 4953959590107546 (by norm_num) (by norm_num) (by norm_num)
      (by norm_num [roundHalfEven]) (by norm_num))
    (f64round_eq (-49) 6192449487634432 (by norm_num) (by norm_num) (by norm_num)
      (by norm_num [roundHalfEven]) (by norm_num))
    (f64round_eq (-49) 6755399441055744 (by norm_num) (by norm_num) (by norm_num)
      (by norm_num [roundHalfEven]) (by norm_num))
    (f64round_eq (-45) 7353533766565888 (by norm_num) (by norm_num) (by norm_num)
      (by norm_num [roundHalfEven]) (by norm_num))
    (f64round_eq (-41) 5515150324924416 (by norm_num) (by norm_num) (by norm_num)
      (by norm_num [roundHalfEven]) (by norm_num))

/-- The `float64` product of `newFee` for a competitor fee of 10000 satoshis on 1000 vbytes and our 209 vbytes, with a fused multiply-add. -/
theorem newFeeProduct_largeCompetitor_fusing :
    newFeeProduct fusing 10000 1000 209 = some 2508 :=
  newFeeProduct_fused fusing rfl 10000 1000 10 (2476979795053773 / 2251799813685248) 12 209
    2508 (by norm_num)
    (f64round_eq (-39) 5497558138880000 (by norm_num) (by norm_num) (by norm_num)
      (by norm_num [roundHalfEven]) (by norm_num))
    (f64round_eq (-43) 8796093022208000 (by norm_num) (by norm_num) (by norm_num)
      (by norm_num [roundHalfEven]) (by norm_num))
    (f64round_eq (-49) 5629499534213120 (by norm_num) (by norm_num) (by norm_num)
      (by norm_num [roundHalfEven]) (by norm_num))
    (f64round_eq (-52) 4953959590107546 (by norm_num) (by norm_num) (by norm_num)
      (by norm_num [roundHalfEven]) (by norm_num))
    (f64round_eq (-49) 6755399441055744 (by norm_num) (by norm_num) (by norm_num)
      (by norm_num [roundHalfEven]) (by norm_num))
    (f64round_eq (-45) 7353533766565888 (by norm_num) (by norm_num) (by norm_num)
      (by norm_num [roundHalfEven]) (by norm_num))
    (f64round_eq (-41) 5515150324924416 (by norm_num) (by norm_num) (by norm_num)
      (by norm_num [roundHalfEven]) (by norm_num))


/-! ## Accuracy of binary64 rounding -/

theorem roundHalfEven_abs_sub_le (z : ℚ) : |(roundHalfEven z : ℚ) - z| ≤ 1 / 2 := by
  have h0 : (⌊z⌋ : ℚ) ≤ z := Int.floor_le z
  have h1 : z < (⌊z⌋ : ℚ) + 1 := Int.lt_floor_add_one z
  unfold roundHalfEven
  simp only
  split_ifs with ha hb hc
  · rw [abs_le]; constructor <;> linarith
  · push_cast
    rw [abs_le]; constructor <;> linarith
  · rw [abs_le]; constructor <;> linarith
  · push_cast
    rw [abs_le]; constructor <;> linarith

theorem f64round_abs_sub_le (q : ℚ) (hq : (2 : ℚ) ^ (-1022 : ℤ) ≤ |q|) :
    |f64round q - q| ≤ |q| * 2 ^ (-53 : ℤ) := by
  have hpos : 0 < |q| := lt_of_lt_of_le (by positivity) hq
  have hne : q ≠ 0 := abs_pos.1 hpos
  have hlog : (-1022 : ℤ) ≤ Int.log 2 |q| :=
    (Int.zpow_le_iff_le_log (by norm_num) hpos).1 (by exact_mod_cast hq)
  have he : f64quantum q = Int.log 2 |q| - 52 := by
    unfold f64quantum
    omega
  have hz : (0 : ℚ) < 2 ^ f64quantum q := by positivity
  have hle : (2 : ℚ) ^ f64quantum q ≤ |q| * 2 ^ (-52 : ℤ) := by
    have h2 : (2 : ℚ) ^ Int.log 2 |q| ≤ |q| := Int.zpow_log_le_self (b := 2) (by norm_num) hpos
    rw [he, sub_eq_add_neg, zpow_add₀ (by norm_num : (2 : ℚ) ≠ 0)]
    exact mul_le_mul_of_nonneg_right h2 (by positivity)
  have hr := roundHalfEven_abs_sub_le (q / 2 ^ f64quantum q)
  have hform : f64round q - q =
      ((roundHalfEven (q / 2 ^ f64quantum q) : ℚ) - q / 2 ^ f64quantum q) * 2 ^ f64quantum q := by
    unfold f64round
    rw [if_neg hne]
    field_simp
  rw [hform, abs_mul, abs_of_pos hz]
  calc |(roundHalfEven (q / 2 ^ f64quantum q) : ℚ) - q / 2 ^ f64quantum q| * 2 ^ f64quantum q
      ≤ 1 / 2 * 2 ^ f64quantum q := mul_le_mul_of_nonneg_right hr hz.le
    _ ≤ 1 / 2 * (|q| * 2 ^ (-52 : ℤ)) := mul_le_mul_of_nonneg_left hle (by norm_num)
    _ = |q| * 2 ^ (-53 : ℤ) := by
      rw [show (-53 : ℤ) = -52 + -1 by norm_num, zpow_add₀ (by norm_num : (2 : ℚ) ≠ 0)]
      norm_num
      ring


theorem f64unit_pos : 0 < f64unit := by unfold f64unit; positivity

theorem f64unit_lt : f64unit < 1 / 2 ^ 52 := by
  unfold f64unit
  rw [zpow_neg]
  norm_num

theorem one_sub_unit_pos : 0 < 1 - f64unit := by
  have := f64unit_lt
  have h : (1 : ℚ) / 2 ^ 52 < 1 := by norm_num
  linarith

theorem one_sub_unit_le : 1 - f64unit ≤ 1 := by
  have := f64unit_pos
  linarith

theorem pow_unit_pos (k : ℕ) : 0 < (1 - f64unit) ^ k := pow_pos one_sub_unit_pos k

theorem pow_unit_le_one (k : ℕ) : (1 - f64unit) ^ k ≤ 1 :=
  pow_le_one₀ one_sub_unit_pos.le one_sub_unit_le

theorem near_refl (a : ℚ) : Near 0 a a := by simp [Near]

theorem near_mono {j k : ℕ} {a e : ℚ} (hjk : j ≤ k) (ha : 0 ≤ a) (he : 0 ≤ e) (h : Near j a e) :
    Near k a e := by
  have hp : (1 - f64unit) ^ k ≤ (1 - f64unit) ^ j :=
    pow_le_pow_of_le_one one_sub_unit_pos.le one_sub_unit_le hjk
  exact ⟨le_trans (mul_le_mul_of_nonneg_left hp he) h.1,
    le_trans (mul_le_mul_of_nonneg_left hp ha) h.2⟩

theorem near_mul {j k : ℕ} {a b e f : ℚ} (ha : 0 ≤ a) (hb : 0 ≤ b) (he : 0 ≤ e) (hf : 0 ≤ f)
    (h1 : Near j a e) (h2 : Near k b f) : Near (j + k) (a * b) (e * f) := by
  have pj := (pow_unit_pos j).le
  have pk := (pow_unit_pos k).le
  constructor
  · calc e * f * (1 - f64unit) ^ (j + k)
        = (e * (1 - f64unit) ^ j) * (f * (1 - f64unit) ^ k) := by rw [pow_add]; ring
      _ ≤ a * b := mul_le_mul h1.1 h2.1 (mul_nonneg hf pk) ha
  · calc a * b * (1 - f64unit) ^ (j + k)
        = (a * (1 - f64unit) ^ j) * (b * (1 - f64unit) ^ k) := by rw [pow_add]; ring
      _ ≤ e * f := mul_le_mul h1.2 h2.2 (mul_nonneg hb pk) he

theorem near_add {k : ℕ} {a b e f : ℚ} (h1 : Near k a e) (h2 : Near k b f) :
    Near k (a + b) (e + f) := by
  constructor
  · rw [add_mul]; exact add_le_add h1.1 h2.1
  · rw [add_mul]; exact add_le_add h1.2 h2.2

theorem near_div {j k : ℕ} {a b e f : ℚ} (ha : 0 ≤ a) (hb : 0 < b) (he : 0 ≤ e) (hf : 0 < f)
    (h1 : Near j a e) (h2 : Near k b f) : Near (j + k) (a / b) (e / f) := by
  have pj := pow_unit_pos j
  have pk := pow_unit_pos k
  constructor
  · rw [div_mul_eq_mul_div, div_le_div_iff₀ hf hb, pow_add]
    calc e * ((1 - f64unit) ^ j * (1 - f64unit) ^ k) * b
        = (e * (1 - f64unit) ^ j) * (b * (1 - f64unit) ^ k) := by ring
      _ ≤ a * f := mul_le_mul h1.1 h2.2 (mul_nonneg hb.le pk.le) ha
  · rw [div_mul_eq_mul_div, div_le_div_iff₀ hb hf, pow_add]
    calc a * ((1 - f64unit) ^ j * (1 - f64unit) ^ k) * f
        = (a * (1 - f64unit) ^ j) * (f * (1 - f64unit) ^ k) := by ring
      _ ≤ e * b := mul_le_mul h1.2 h2.1 (mul_nonneg hf.le pk.le) he

/-- A value within eight roundings of `e` is at least half of `e`. -/
theorem near_half_le {k : ℕ} {a e : ℚ} (hk : k ≤ 8) (he : 0 ≤ e) (h : Near k a e) : e / 2 ≤ a := by
  have h8 : (1 : ℚ) / 2 ≤ (1 - f64unit) ^ k := by
    have hb : 1 + (k : ℚ) * (-f64unit) ≤ (1 + -f64unit) ^ k :=
      one_add_mul_le_pow (by have := f64unit_lt; have h : (1 : ℚ) / 2 ^ 52 < 1 := by norm_num
                             linarith) k
    have hk' : (k : ℚ) ≤ 8 := by exact_mod_cast hk
    have hu := f64unit_lt
    have hu0 := f64unit_pos
    have : (k : ℚ) * f64unit ≤ 8 * (1 / 2 ^ 52) := by
      exact mul_le_mul hk' hu.le hu0.le (by norm_num)
    have h3 : (8 : ℚ) * (1 / 2 ^ 52) ≤ 1 / 2 := by norm_num
    rw [← sub_eq_add_neg] at hb
    linarith
  calc e / 2 = e * (1 / 2) := by ring
    _ ≤ e * (1 - f64unit) ^ k := mul_le_mul_of_nonneg_left h8 he
    _ ≤ a := h.1

/-- Rounding costs one more factor, in the normal range. -/
theorem near_round {k : ℕ} {a e : ℚ} (hk : k ≤ 8) (ha : 0 ≤ a) (he : 0 ≤ e)
    (hn : e = 0 ∨ (2 : ℚ) ^ (-1021 : ℤ) ≤ e) (h : Near k a e) : Near (k + 1) (f64round a) e := by
  rcases hn with h0 | hn
  · subst h0
    have ha0 : a = 0 := by
      have := h.2
      have hp := pow_unit_pos k
      nlinarith
    subst ha0
    simp [Near, f64round]
  · have hhalf := near_half_le hk he h
    have hnorm : (2 : ℚ) ^ (-1022 : ℤ) ≤ |a| := by
      rw [abs_of_nonneg ha]
      have h2 : (2 : ℚ) ^ (-1022 : ℤ) = 2 ^ (-1021 : ℤ) / 2 := by
        rw [show (-1022 : ℤ) = -1021 + -1 by norm_num, zpow_add₀ (by norm_num : (2 : ℚ) ≠ 0)]
        norm_num
      rw [h2]
      exact le_trans (div_le_div_of_nonneg_right hn (by norm_num)) hhalf
    have herr := f64round_abs_sub_le a hnorm
    rw [abs_of_nonneg ha, abs_le] at herr
    have hu : f64unit = 2 ^ (-53 : ℤ) := rfl
    rw [← hu] at herr
    have hp := pow_unit_pos k
    have hu0 := f64unit_pos
    constructor
    · calc e * (1 - f64unit) ^ (k + 1) = (e * (1 - f64unit) ^ k) * (1 - f64unit) := by
            rw [pow_succ]; ring
        _ ≤ a * (1 - f64unit) := mul_le_mul_of_nonneg_right h.1 one_sub_unit_pos.le
        _ ≤ f64round a := by linarith [herr.1]
    · calc f64round a * (1 - f64unit) ^ (k + 1)
          ≤ (a * (1 + f64unit)) * (1 - f64unit) ^ (k + 1) :=
            mul_le_mul_of_nonneg_right (by linarith [herr.2]) (pow_unit_pos (k + 1)).le
        _ = (a * (1 - f64unit) ^ k) * (1 - f64unit ^ 2) := by rw [pow_succ]; ring
        _ ≤ (a * (1 - f64unit) ^ k) * 1 :=
            mul_le_mul_of_nonneg_left (by nlinarith) (mul_nonneg ha hp.le)
        _ ≤ e := by rw [mul_one]; exact h.2


theorem tiny_le_one : (2 : ℚ) ^ (-1021 : ℤ) ≤ 1 :=
  zpow_le_one_of_nonpos₀ (by norm_num) (by norm_num)

theorem tiny_le_small : (2 : ℚ) ^ (-1021 : ℤ) ≤ 1 / 2 ^ 31 := by
  have h : (2 : ℚ) ^ (-1021 : ℤ) ≤ 2 ^ (-31 : ℤ) :=
    zpow_le_zpow_right₀ (by norm_num) (by norm_num)
  have h2 : (2 : ℚ) ^ (-31 : ℤ) = 1 / 2 ^ 31 := by
    rw [zpow_neg]
    norm_num
  rw [← h2]
  exact h

/-- The `float64` product of `newFee` is within eight roundings of the exact product. -/
theorem newFeeProduct_near (p : Platform) (F Vc Vo : ℤ) (hF : 0 ≤ F) (hVc : 1 ≤ Vc)
    (hVc31 : Vc < 2 ^ 31) (hVo : 1 ≤ Vo) :
    ∃ x : ℚ, newFeeProduct p F Vc Vo = some x ∧ 0 ≤ x ∧ Near 8 x (specFeeProduct F Vc Vo) := by
  have qF : (0 : ℚ) ≤ F := by exact_mod_cast hF
  have qV : (1 : ℚ) ≤ Vc := by exact_mod_cast hVc
  have qV31 : (Vc : ℚ) ≤ 2 ^ 31 := by exact_mod_cast hVc31.le
  have qO : (1 : ℚ) ≤ Vo := by exact_mod_cast hVo
  have qVpos : (0 : ℚ) < Vc := lt_of_lt_of_le one_pos qV
  have qOpos : (0 : ℚ) < Vo := lt_of_lt_of_le one_pos qO
  -- the operands
  have nF : (F : ℚ) = 0 ∨ (2 : ℚ) ^ (-1021 : ℤ) ≤ F := by
    rcases eq_or_lt_of_le hF with h | h
    · left
      exact_mod_cast h.symm
    · right
      have : (1 : ℚ) ≤ F := by exact_mod_cast h
      exact le_trans tiny_le_one this
  have hA : Near 1 (f64round F) F := near_round (by norm_num) qF qF nF (near_refl _)
  have hB : Near 1 (f64round Vc) Vc :=
    near_round (by norm_num) qVpos.le qVpos.le (Or.inr (le_trans tiny_le_one qV)) (near_refl _)
  have hV : Near 1 (f64round Vo) Vo :=
    near_round (by norm_num) qOpos.le qOpos.le (Or.inr (le_trans tiny_le_one qO)) (near_refl _)
  have hC : Near 1 (f64round (11 / 10)) (11 / 10) :=
    near_round (by norm_num) (by norm_num) (by norm_num)
      (Or.inr (le_trans tiny_le_one (by norm_num))) (near_refl _)
  have a0 : 0 ≤ f64round (F : ℚ) := f64round_nonneg qF
  have b0 : 0 < f64round (Vc : ℚ) := f64round_pos qV
  have v0 : 0 ≤ f64round (Vo : ℚ) := f64round_nonneg qOpos.le
  have c0 : 0 ≤ f64round (11 / 10) := f64round_nonneg (by norm_num)
  -- the rate
  have rate0 : (0 : ℚ) ≤ (F : ℚ) / Vc := div_nonneg qF qVpos.le
  have nRate : (F : ℚ) / Vc = 0 ∨ (2 : ℚ) ^ (-1021 : ℤ) ≤ (F : ℚ) / Vc := by
    rcases eq_or_lt_of_le hF with h | h
    · left
      rw [← h]
      simp
    · right
      have h1 : (1 : ℚ) ≤ F := by exact_mod_cast h
      refine le_trans tiny_le_small ?_
      rw [div_le_div_iff₀ (by positivity) qVpos]
      calc (1 : ℚ) * Vc ≤ 1 * 2 ^ 31 := by linarith
        _ ≤ F * 2 ^ 31 := by nlinarith
  have hD0 : Near (1 + 1) (f64round F / f64round Vc) ((F : ℚ) / Vc) :=
    near_div a0 b0 qF qVpos hA hB
  have d0' : 0 ≤ f64round (F : ℚ) / f64round (Vc : ℚ) := div_nonneg a0 b0.le
  have hD : Near 3 (f64round (f64round F / f64round Vc)) ((F : ℚ) / Vc) :=
    near_round (by norm_num) d0' rate0 nRate hD0
  have d0 : 0 ≤ f64round (f64round (F : ℚ) / f64round (Vc : ℚ)) := f64round_nonneg d0'
  have s0 : (0 : ℚ) ≤ (F : ℚ) / Vc * (11 / 10) := mul_nonneg rate0 (by norm_num)
  have nS : (F : ℚ) / Vc * (11 / 10) = 0 ∨ (2 : ℚ) ^ (-1021 : ℤ) ≤ (F : ℚ) / Vc * (11 / 10) := by
    rcases nRate with h | h
    · left
      rw [h, zero_mul]
    · right
      nlinarith
  have hM0 : Near (3 + 1) (f64round (f64round F / f64round Vc) * f64round (11 / 10))
      ((F : ℚ) / Vc * (11 / 10)) := near_mul d0 c0 rate0 (by norm_num) hD hC
  have m0' : 0 ≤ f64round (f64round (F : ℚ) / f64round (Vc : ℚ)) * f64round (11 / 10) :=
    mul_nonneg d0 c0
  have t0 : (0 : ℚ) ≤ (F : ℚ) / Vc * (11 / 10) + 1 := by linarith
  have nT : (F : ℚ) / Vc * (11 / 10) + 1 = 0 ∨
      (2 : ℚ) ^ (-1021 : ℤ) ≤ (F : ℚ) / Vc * (11 / 10) + 1 :=
    Or.inr (le_trans tiny_le_one (by linarith))
  have hE : specFeeProduct F Vc Vo = (Vo : ℚ) * ((F : ℚ) / Vc * (11 / 10) + 1) := by
    unfold specFeeProduct
    ring
  have e0 : (0 : ℚ) ≤ (Vo : ℚ) * ((F : ℚ) / Vc * (11 / 10) + 1) := mul_nonneg qOpos.le t0
  have nE : (Vo : ℚ) * ((F : ℚ) / Vc * (11 / 10) + 1) = 0 ∨
      (2 : ℚ) ^ (-1021 : ℤ) ≤ (Vo : ℚ) * ((F : ℚ) / Vc * (11 / 10) + 1) :=
    Or.inr (le_trans tiny_le_one (by nlinarith))
  rw [hE]
  cases hp : p.fusedMulAdd
  · have hM : Near 5 (f64round (f64round (f64round F / f64round Vc) * f64round (11 / 10)))
        ((F : ℚ) / Vc * (11 / 10)) := near_round (by norm_num) m0' s0 nS hM0
    have m0 := f64round_nonneg m0'
    have hR0 := near_add hM (near_mono (Nat.zero_le 5) zero_le_one zero_le_one (near_refl 1))
    have r0' : 0 ≤ f64round (f64round (f64round (F : ℚ) / f64round (Vc : ℚ)) *
        f64round (11 / 10)) + 1 := by linarith
    have hR := near_round (by norm_num) r0' t0 nT hR0
    have r0 := f64round_nonneg r0'
    have hX0 := near_mul v0 r0 qOpos.le t0 hV hR
    have hX := near_round (by norm_num) (mul_nonneg v0 r0) e0 nE hX0
    exact ⟨_, newFeeProduct_unfused p hp _ _ _ _ _ _ _ _ b0.ne' rfl rfl rfl rfl rfl rfl rfl rfl,
      f64round_nonneg (mul_nonneg v0 r0), hX⟩
  · have hR0 := near_add hM0 (near_mono (Nat.zero_le (3 + 1)) zero_le_one zero_le_one (near_refl 1))
    have r0' : 0 ≤ f64round (f64round (F : ℚ) / f64round (Vc : ℚ)) * f64round (11 / 10) + 1 := by
      linarith
    have hR := near_round (by norm_num) r0' t0 nT hR0
    have r0 := f64round_nonneg r0'
    have hX0 := near_mul v0 r0 qOpos.le t0 hV hR
    have hX := near_round (by norm_num) (mul_nonneg v0 r0) e0 nE hX0
    exact ⟨_, newFeeProduct_fused p hp _ _ _ _ _ _ _ b0.ne' rfl rfl rfl rfl rfl rfl rfl,
      f64round_nonneg (mul_nonneg v0 r0),
      near_mono (by norm_num) (f64round_nonneg (mul_nonneg v0 r0)) e0 hX⟩


theorem pow_eight_unit_ge : 1 - 1 / 2 ^ 50 ≤ (1 - f64unit) ^ 8 := by
  have hb : 1 + ((8 : ℕ) : ℚ) * (-f64unit) ≤ (1 + -f64unit) ^ 8 :=
    one_add_mul_le_pow (by have := f64unit_lt; have h : (1 : ℚ) / 2 ^ 52 < 1 := by norm_num
                           linarith) 8
  have hu : f64unit = 1 / 2 ^ 53 := by
    unfold f64unit
    rw [zpow_neg]
    norm_num
  rw [← sub_eq_add_neg] at hb
  calc (1 : ℚ) - 1 / 2 ^ 50 = 1 + ((8 : ℕ) : ℚ) * (-f64unit) := by rw [hu]; norm_num
    _ ≤ (1 - f64unit) ^ 8 := hb

/-! ## The values of the constants and amounts used below -/

theorem highestValueUtxo_eq : highestValueUtxo = 4398926120406221 / 8796093022208 :=
  f64round_eq (-44) 8797852240812442 (by norm_num) (by norm_num) (by norm_num)
    (by norm_num [roundHalfEven]) (by norm_num)

theorem lowestValueUtxo_eq : lowestValueUtxo = 5902958103587057 / 590295810358705651712 :=
  f64round_eq (-69) 5902958103587057 (by norm_num) (by norm_num) (by norm_num)
    (by norm_num [roundHalfEven]) (by norm_num)

theorem f64round_half : f64round (1 / 2) = 1 / 2 :=
  f64round_eq (-53) 4503599627370496 (by norm_num) (by norm_num) (by norm_num)
    (by norm_num [roundHalfEven]) (by norm_num)

theorem f64round_tenThousandth :
    f64round (1 / 10000) = 7378697629483821 / 73786976294838206464 :=
  f64round_eq (-66) 7378697629483821 (by norm_num) (by norm_num) (by norm_num)
    (by norm_num [roundHalfEven]) (by norm_num)

theorem f64round_millionth :
    f64round (1 / 1000000) = 4722366482869645 / 4722366482869645213696 :=
  f64round_eq (-72) 4722366482869645 (by norm_num) (by norm_num) (by norm_num)
    (by norm_num [roundHalfEven]) (by norm_num)

theorem f64round_sixHundred : f64round 600 = 600 :=
  f64round_eq (-43) 5277655813324800 (by norm_num) (by norm_num) (by norm_num)
    (by norm_num [roundHalfEven]) (by norm_num)

theorem f64round_thousandth : f64round (1 / 1000) = 1152921504606847 / 1152921504606846976 :=
  f64round_eq (-62) 4611686018427388 (by norm_num) (by norm_num) (by norm_num)
    (by norm_num [roundHalfEven]) (by norm_num)

/-! ## fees.go: the claims -/

/-- C1 (code bug). At a competitor fee of 10000 satoshis on 1000 vbytes and an own size of 209
vbytes, `newFee` returns 2508 satoshis without the burn flag, on both platforms: less than
`F_c + V_o = 10209`, and less than the competitor's fee itself. -/
theorem newFee_below_competitor_fee :
    newFee x86_64 10000 1000 209 testUtxo = (2508, false) ∧
      newFee fusing 10000 1000 209 testUtxo = (2508, false) ∧
      (2508 : ℤ) < 10000 + 209 := by
  refine ⟨?_, ?_, by norm_num⟩
  · simp only [newFee, newFeeProduct_largeCompetitor_x86_64]
    rw [float64ToInt64_floor x86_64 (by norm_num) (by norm_num)]
    simp [testUtxo]
  · simp only [newFee, newFeeProduct_largeCompetitor_fusing]
    rw [float64ToInt64_floor fusing (by norm_num) (by norm_num)]
    simp [testUtxo]

/-- C2. For every input of `newFee` (and on every platform) the burn flag is true if and only if
the returned fee is at least the amount of the contested output. -/
theorem newFee_burn_iff (p : Platform) (attackingFee attackingTxSize ourEstimatedTxSize : ℤ)
    (utxo : TrackedUTXO) :
    (newFee p attackingFee attackingTxSize ourEstimatedTxSize utxo).2 = true ↔
      (newFee p attackingFee attackingTxSize ourEstimatedTxSize utxo).1 ≥ utxo.Amount := by
  simp [newFee]

/-- C3 (counterexample). At the vector of `TestNewFee`, `F_c = 99999999`, `V_c = 100`,
`V_o = 250`, the product is 275000247.25: `newFee` returns 275000247 on both platforms while the
ceiling is 275000248. -/
theorem newFee_testVector_ne_ceil :
    (newFee x86_64 99999999 100 250 testUtxo).1 = 275000247 ∧
      (newFee fusing 99999999 100 250 testUtxo).1 = 275000247 ∧
      specFee 99999999 100 250 = 275000248 ∧
      (newFee x86_64 99999999 100 250 testUtxo).1 ≠ specFee 99999999 100 250 ∧
      (newFee fusing 99999999 100 250 testUtxo).1 ≠ specFee 99999999 100 250 := by
  have h1 : (newFee x86_64 99999999 100 250 testUtxo).1 = 275000247 := by
    simp only [newFee, newFeeProduct_testVector_x86_64]
    rw [float64ToInt64_floor x86_64 (by norm_num) (by norm_num)]
    norm_num
  have h2 : (newFee fusing 99999999 100 250 testUtxo).1 = 275000247 := by
    simp only [newFee, newFeeProduct_testVector_fusing]
    rw [float64ToInt64_floor fusing (by norm_num) (by norm_num)]
    norm_num
  have h3 : specFee 99999999 100 250 = 275000248 := by
    unfold specFee specFeeProduct
    rw [Int.ceil_eq_iff]
    norm_num
  refine ⟨h1, h2, h3, ?_, ?_⟩
  · rw [h1, h3]
    norm_num
  · rw [h2, h3]
    norm_num

/-- C3 (amended). For `F_c ≥ 0`, `V_c ≥ 1` and `V_o ≥ 1` the `float64` product
`V_o * rate_new`, `rate_new = 1 + (F_c / V_c) * 1.1`, is finite and not negative; whenever it is
below `2 ^ 63` the fee returned by `newFee` is that product rounded down to a whole satoshi; and
for `V_c` in the range of `int32` the product is the exact `V_o * rate_new` up to a relative
error of `2 ^ (-50)`. -/
theorem newFee_eq_floor (p : Platform) (attackingFee attackingTxSize ourEstimatedTxSize : ℤ)
    (utxo : TrackedUTXO) (hF : 0 ≤ attackingFee) (hVc : 1 ≤ attackingTxSize)
    (hVo : 1 ≤ ourEstimatedTxSize) :
    ∃ x : ℚ, newFeeProduct p attackingFee attackingTxSize ourEstimatedTxSize = some x ∧ 0 ≤ x ∧
      (x < 2 ^ 63 →
        (newFee p attackingFee attackingTxSize ourEstimatedTxSize utxo).1 = ⌊x⌋) ∧
      (attackingTxSize < 2 ^ 31 →
        specFeeProduct attackingFee attackingTxSize ourEstimatedTxSize * (1 - 1 / 2 ^ 50) ≤ x ∧
          x * (1 - 1 / 2 ^ 50) ≤
            specFeeProduct attackingFee attackingTxSize ourEstimatedTxSize) := by
  have ha : 0 ≤ f64round (attackingFee : ℚ) := f64round_nonneg (by exact_mod_cast hF)
  have hb : 0 < f64round (attackingTxSize : ℚ) := f64round_pos (by exact_mod_cast hVc)
  have hv : 0 ≤ f64round (ourEstimatedTxSize : ℚ) :=
    f64round_nonneg (by exact_mod_cast (le_trans zero_le_one hVo))
  have hd : 0 ≤ f64round (f64round (attackingFee : ℚ) / f64round (attackingTxSize : ℚ)) :=
    f64round_nonneg (div_nonneg ha hb.le)
  have hc : 0 ≤ f64round (11 / 10) := f64round_nonneg (by norm_num)
  have hsome : ∃ x : ℚ,
      newFeeProduct p attackingFee attackingTxSize ourEstimatedTxSize = some x ∧ 0 ≤ x := by
    cases hp : p.fusedMulAdd
    · exact ⟨_, newFeeProduct_unfused p hp _ _ _ _ _ _ _ _ hb.ne' rfl rfl rfl rfl rfl rfl rfl rfl,
        f64round_nonneg (mul_nonneg hv (f64round_nonneg
          (add_nonneg (f64round_nonneg (mul_nonneg hd hc)) zero_le_one)))⟩
    · exact ⟨_, newFeeProduct_fused p hp _ _ _ _ _ _ _ hb.ne' rfl rfl rfl rfl rfl rfl rfl,
        f64round_nonneg (mul_nonneg hv (f64round_nonneg
          (add_nonneg (mul_nonneg hd hc) zero_le_one)))⟩
  obtain ⟨x, hx, hx0⟩ := hsome
  refine ⟨x, hx, hx0, ?_, ?_⟩
  · intro hlt
    simp only [newFee, hx]
    exact float64ToInt64_floor p hx0 hlt
  · intro h31
    obtain ⟨y, hy, -, hnear⟩ := newFeeProduct_near p attackingFee attackingTxSize
      ourEstimatedTxSize hF hVc h31 hVo
    rw [hx] at hy
    cases hy
    have hE : 0 ≤ specFeeProduct attackingFee attackingTxSize ourEstimatedTxSize := by
      unfold specFeeProduct
      have h1 : (0 : ℚ) ≤ attackingFee := by exact_mod_cast hF
      have h2 : (0 : ℚ) < attackingTxSize := by exact_mod_cast lt_of_lt_of_le one_pos hVc
      have h3 : (0 : ℚ) ≤ ourEstimatedTxSize := by exact_mod_cast le_trans zero_le_one hVo
      have h4 : (0 : ℚ) ≤ (attackingFee : ℚ) / attackingTxSize := div_nonneg h1 h2.le
      exact mul_nonneg h3 (by linarith)
    exact ⟨le_trans (mul_le_mul_of_nonneg_left pow_eight_unit_ge hE) hnear.1,
      le_trans (mul_le_mul_of_nonneg_left pow_eight_unit_ge hx0) hnear.2⟩

/-- C3 (amended), at the vector of `TestNewFee`. -/
theorem newFee_eq_floor_witness :
    (0 : ℤ) ≤ 99999999 ∧ (1 : ℤ) ≤ 100 ∧ (1 : ℤ) ≤ 250 ∧
      ∃ x : ℚ, newFeeProduct x86_64 99999999 100 250 = some x ∧ 0 ≤ x ∧
        (x < 2 ^ 63 → (newFee x86_64 99999999 100 250 testUtxo).1 = ⌊x⌋) ∧
        ((100 : ℤ) < 2 ^ 31 →
          specFeeProduct 99999999 100 250 * (1 - 1 / 2 ^ 50) ≤ x ∧
            x * (1 - 1 / 2 ^ 50) ≤ specFeeProduct 99999999 100 250) :=
  ⟨by norm_num, by norm_num, by norm_num,
    newFee_eq_floor x86_64 99999999 100 250 testUtxo (by norm_num) (by norm_num) (by norm_num)⟩

/-! ## wallet.go: the claims -/

/-- In a list of ascending amounts the first entry that satisfies a condition has the smallest
amount among those that satisfy it. -/
theorem find_first_is_smallest (q : ListUnspentResult → Bool) :
    ∀ (l : List ListUnspentResult) (r : ListUnspentResult),
      List.Pairwise (fun a b => a.Amount ≤ b.Amount) l → l.find? q = some r →
      ∀ u ∈ l, q u = true → r.Amount ≤ u.Amount
  | [], _, _, h => by simp at h
  | a :: t, r, hs, h => by
    intro u hu hq
    rw [List.pairwise_cons] at hs
    by_cases ha : q a = true
    · rw [List.find?_cons_of_pos _ ha] at h
      cases h
      rcases List.mem_cons.1 hu with rfl | hu
      · exact le_refl _
      · exact hs.1 u hu
    · rw [List.find?_cons_of_neg _ ha] at h
      rcases List.mem_cons.1 hu with rfl | hu
      · exact absurd hq ha
      · exact find_first_is_smallest q t r hs.2 h u hu hq

/-- With an empty slot and a non-empty list in which some entry is usable, `selectUnspentUtxo`
caches a usable entry of smallest amount, and returns it if its script decodes. -/
theorem selectUnspentUtxo_of_usable (sort : AmountSort) (unspent : List ListUnspentResult)
    (hex : ∃ u ∈ unspent, usable u = true) :
    ∃ r ∈ unspent, usable r = true ∧ (∀ u ∈ unspent, usable u = true → r.Amount ≤ u.Amount) ∧
      selectUnspentUtxo sort none (Except.ok unspent) =
        (some r, if hexDecodes r.ScriptPubKey then Except.ok r
          else Except.error (WalletError.hexDecode r.ScriptPubKey)) := by
  obtain ⟨u0, hu0, hq0⟩ := hex
  have hne : unspent.length ≠ 0 := by
    intro h
    rw [List.length_eq_zero] at h
    rw [h] at hu0
    simp at hu0
  have hsome : ((sort.run unspent).find? usable).isSome = true := by
    rw [List.find?_isSome]
    exact ⟨u0, (sort.perm unspent).mem_iff.2 hu0, hq0⟩
  obtain ⟨r, hr⟩ := Option.isSome_iff_exists.1 hsome
  refine ⟨r, (sort.perm unspent).mem_iff.1 (List.mem_of_find?_eq_some hr),
    List.find?_some hr, ?_, ?_⟩
  · intro u hu hq
    exact find_first_is_smallest usable _ r (sort.sorted unspent) hr u
      ((sort.perm unspent).mem_iff.2 hu) hq
  · simp only [selectUnspentUtxo, ListUnspentMin, if_neg hne, hr]
    split_ifs <;> rfl

theorem usable_walletExample :
    walletExample.filter usable =
      [walletEntry "a0" (f64round (1 / 2)) true, walletEntry "a1" (f64round (1 / 10000)) true] := by
  have h0 : usable (walletEntry "a0" (f64round (1 / 2)) true) = true := by
    simp only [usable, walletEntry, highestValueUtxo_eq, lowestValueUtxo_eq, f64round_half]
    norm_num
  have h1 : usable (walletEntry "a1" (f64round (1 / 10000)) true) = true := by
    simp only [usable, walletEntry, highestValueUtxo_eq, lowestValueUtxo_eq,
      f64round_tenThousandth]
    norm_num
  have h2 : ¬ usable (walletEntry "a2" (f64round (1 / 1000000)) true) = true := by
    simp only [usable, walletEntry, highestValueUtxo_eq, lowestValueUtxo_eq, f64round_millionth]
    norm_num
  have h3 : ¬ usable (walletEntry "a3" (f64round 600) true) = true := by
    simp only [usable, walletEntry, highestValueUtxo_eq, lowestValueUtxo_eq, f64round_sixHundred]
    norm_num
  have h4 : ¬ usable (walletEntry "a4" (f64round (1 / 1000)) false) = true := by
    simp [usable, walletEntry]
  rw [walletExample, List.filter_cons_of_pos h0, List.filter_cons_of_pos h1,
    List.filter_cons_of_neg h2, List.filter_cons_of_neg h3, List.filter_cons_of_neg h4,
    List.filter_nil]

/-- C9 (counterexample). With an empty slot and the one-entry list of `badScriptEntry`, which is
spendable and inside the bounds, `selectUnspentUtxo` caches the entry but returns an error
instead of the entry. -/
theorem selectUnspentUtxo_bad_script :
    usable badScriptEntry = true ∧
      selectUnspentUtxo insertionAmountSort none (Except.ok [badScriptEntry]) =
        (some badScriptEntry, Except.error (WalletError.hexDecode "zz")) := by
  have hu : usable badScriptEntry = true := by
    simp only [usable, badScriptEntry, walletEntry, highestValueUtxo_eq, lowestValueUtxo_eq,
      f64round_half]
    norm_num
  refine ⟨hu, ?_⟩
  obtain ⟨r, hr, -, -, hsel⟩ :=
    selectUnspentUtxo_of_usable insertionAmountSort [badScriptEntry] ⟨_, List.mem_singleton_self _, hu⟩
  rw [List.mem_singleton] at hr
  subst hr
  have hhex : ¬ hexDecodes badScriptEntry.ScriptPubKey = true := by decide
  rw [hsel, if_neg hhex]
  rfl

/-- From the list of `walletExample` the entry of 0.0001 BTC is selected, whatever the library's
sort does with ties. -/
theorem selectUnspentUtxo_walletExample (sort : AmountSort) :
    selectUnspentUtxo sort none (Except.ok walletExample) =
      (some (walletEntry "a1" (f64round (1 / 10000)) true),
        Except.ok (walletEntry "a1" (f64round (1 / 10000)) true)) := by
  have hmem : ∀ u, u ∈ walletExample.filter usable ↔ (u ∈ walletExample ∧ usable u = true) :=
    fun u => List.mem_filter
  rw [usable_walletExample] at hmem
  obtain ⟨r, hr, hq, hmin, hsel⟩ := selectUnspentUtxo_of_usable sort walletExample
    ⟨walletEntry "a1" (f64round (1 / 10000)) true,
      ((hmem _).1 (by simp)).1, ((hmem _).1 (by simp)).2⟩
  have hr2 := (hmem r).2 ⟨hr, hq⟩
  have hle := hmin (walletEntry "a1" (f64round (1 / 10000)) true)
    ((hmem _).1 (by simp)).1 ((hmem _).1 (by simp)).2
  have hreq : r = walletEntry "a1" (f64round (1 / 10000)) true := by
    rcases List.mem_cons.1 hr2 with h | h
    · exfalso
      rw [h] at hle
      simp only [walletEntry, f64round_half, f64round_tenThousandth] at hle
      norm_num at hle
    · simpa using h
  rw [hsel, hreq]
  have hhex : hexDecodes (walletEntry "a1" (f64round (1 / 10000)) true).ScriptPubKey = true := by
    decide
  rw [if_pos hhex]

/-- C9 (amended). With an empty slot and a list returned by the node in which some entry is
spendable with an amount strictly between `lowestValueUtxo` and `highestValueUtxo`,
`selectUnspentUtxo` caches in the slot such an entry of smallest amount, and returns it when its
`ScriptPubKey` is a hexadecimal string (otherwise it returns the decoding error); for the list of
`walletExample` this is the entry of 0.0001 BTC. -/
theorem selectUnspentUtxo_smallest_usable (sort : AmountSort) (unspent : List ListUnspentResult)
    (hex : ∃ u ∈ unspent, usable u = true) :
    (∃ r ∈ unspent, usable r = true ∧
        (∀ u ∈ unspent, usable u = true → r.Amount ≤ u.Amount) ∧
        (selectUnspentUtxo sort none (Except.ok unspent)).1 = some r ∧
        (hexDecodes r.ScriptPubKey = true →
          (selectUnspentUtxo sort none (Except.ok unspent)).2 = Except.ok r) ∧
        (hexDecodes r.ScriptPubKey = false →
          (selectUnspentUtxo sort none (Except.ok unspent)).2 =
            Except.error (WalletError.hexDecode r.ScriptPubKey))) ∧
      selectUnspentUtxo sort none (Except.ok walletExample) =
        (some (walletEntry "a1" (f64round (1 / 10000)) true),
          Except.ok (walletEntry "a1" (f64round (1 / 10000)) true)) := by
  constructor
  · obtain ⟨r, hr, hq, hmin, hsel⟩ := selectUnspentUtxo_of_usable sort unspent hex
    refine ⟨r, hr, hq, hmin, by rw [hsel], ?_, ?_⟩
    · intro h
      rw [hsel, if_pos h]
    · intro h
      rw [hsel, if_neg (by simp [h])]
  · exact selectUnspentUtxo_walletExample sort

/-- C9 (amended), at the list of `walletExample` with the insertion sort. -/
theorem selectUnspentUtxo_smallest_usable_witness :
    (∃ u ∈ walletExample, usable u = true) ∧
      selectUnspentUtxo insertionAmountSort none (Except.ok walletExample) =
        (some (walletEntry "a1" (f64round (1 / 10000)) true),
          Except.ok (walletEntry "a1" (f64round (1 / 10000)) true)) :=
  have h : ∃ u ∈ walletExample, usable u = true :=
    ⟨walletEntry "a1" (f64round (1 / 10000)) true,
      (List.mem_filter.1 (by rw [usable_walletExample]; simp)).1,
      (List.mem_filter.1 (by rw [usable_walletExample]; simp)).2⟩
  ⟨h, (selectUnspentUtxo_smallest_usable insertionAmountSort walletExample h).2⟩

/-- C10. With an empty slot, when the list of unspent outputs that `ListUnspentMin` returns is
empty, or holds no spendable entry with an amount strictly between the bounds,
`selectUnspentUtxo` fails with `errNoUsableUtxo` and the slot stays empty. -/
theorem selectUnspentUtxo_no_usable (sort : AmountSort)
    (answer : Except String (List ListUnspentResult))
    (h : (ListUnspentMin answer).1 = [] ∨ ∀ u ∈ (ListUnspentMin answer).1, usable u = false) :
    selectUnspentUtxo sort none answer = (none, Except.error errNoUsableUtxo) := by
  cases answer with
  | error e => simp [selectUnspentUtxo, ListUnspentMin]
  | ok unspent =>
    simp only [ListUnspentMin] at h
    by_cases hlen : unspent.length = 0
    · simp [selectUnspentUtxo, ListUnspentMin, hlen]
    · have hno : ∀ u ∈ unspent, usable u = false := by
        rcases h with h | h
        · rw [h] at hlen
          exact absurd rfl hlen
        · exact h
      have hfind : (sort.run unspent).find? usable = none := by
        rw [List.find?_eq_none]
        intro u hu
        rw [hno u ((sort.perm unspent).mem_iff.1 hu)]
        simp
      simp only [selectUnspentUtxo, ListUnspentMin, if_neg hlen, hfind]

/-- C10, at a list whose only entry, of 600 BTC, is above the bounds. -/
theorem selectUnspentUtxo_no_usable_witness :
    ((ListUnspentMin (Except.ok [walletEntry "a3" (f64round 600) true])).1 = [] ∨
        ∀ u ∈ (ListUnspentMin (Except.ok [walletEntry "a3" (f64round 600) true])).1,
          usable u = false) ∧
      selectUnspentUtxo insertionAmountSort none
          (Except.ok [walletEntry "a3" (f64round 600) true]) =
        (none, Except.error errNoUsableUtxo) :=
  have h : (ListUnspentMin (Except.ok [walletEntry "a3" (f64round 600) true])).1 = [] ∨
      ∀ u ∈ (ListUnspentMin (Except.ok [walletEntry "a3" (f64round 600) true])).1,
        usable u = false := by
    right
    intro u hu
    simp only [ListUnspentMin, List.mem_singleton] at hu
    subst hu
    simp only [usable, walletEntry, highestValueUtxo_eq, f64round_sixHundred]
    norm_num
  ⟨h, selectUnspentUtxo_no_usable insertionAmountSort _ h⟩

/-! ## main.go: how the loops of `processTransaction` run -/

theorem GoMap.get_set_self {V : Type} (m : GoMap V) (k : String) (v : V) :
    (m.set k v).get k = some v := by
  simp [GoMap.get, GoMap.set]

theorem GoMap.get_delete_self {V : Type} (m : GoMap V) (k : String) :
    (m.delete k).get k = none := by
  simp [GoMap.get, GoMap.delete, List.find?_eq_none]

/-- A confirmed transaction is decided by its first output alone: the first loop runs
`confirmedInputs` for that output and returns. -/
theorem processTransaction_confirmed (env : Env) (st : State) (tx : TxRawResult) (vout : Vout)
    (rest : List Vout) (hconf : 0 < tx.Confirmations) (hv : tx.Vout = vout :: rest) :
    processTransaction env st tx =
      confirmedInputs env tx (vout.ScriptPubKey.Address == env.config.DestinationAddress)
        (NewAmount env.platform vout.Value) tx.Vin env.listUnspent st := by
  simp [processTransaction, hv, outputsLoop, hconf]

/-- The loop over the inputs of a confirmed transaction with a single input that is in the
table. -/
theorem confirmedInputs_single (env : Env) (st : State) (tx : TxRawResult) (isSentToUs : Bool)
    (voutValue : ℤ) (vin : Vin) (answers : ℕ → Except String (List ListUnspentResult))
    (monitoredUtxo : TrackedUTXO)
    (h : st.monitoredUtxos.get (outpointKey vin.Txid vin.Vout) = some monitoredUtxo) :
    confirmedInputs env tx isSentToUs voutValue [vin] answers st =
      if isSentToUs then
        ({ monitoredUtxos := st.monitoredUtxos,
           unspentUtxo := (selectUnspentUtxo env.sort none (answers 0)).1 },
          [Event.logWon monitoredUtxo tx.Txid (monitoredUtxo.Amount - voutValue)])
      else
        ({ monitoredUtxos := cleanup st.monitoredUtxos monitoredUtxo,
           unspentUtxo := (selectUnspentUtxo env.sort none (answers 0)).1 },
          [Event.logLost monitoredUtxo tx.Txid (monitoredUtxo.Amount - voutValue)]) := by
  cases isSentToUs <;> simp [confirmedInputs, h]

/-- On an unconfirmed transaction the first loop leaves the state alone. With more than one
addressed output it warns at every output that pays the destination and falls through; otherwise
it returns at the first output that pays the destination. -/
theorem outputsLoop_unconfirmed (env : Env) (tx : TxRawResult) (utxos : List TrackedUTXO)
    (st : State) (hconf : tx.Confirmations = 0) :
    ∀ vouts : List Vout, outputsLoop env tx utxos vouts st =
      if 1 < utxos.length then (Flow.next, st, multipleOutputWarnings env tx vouts)
      else if vouts.any (paysDestination env) then (Flow.returned, st, [])
      else (Flow.next, st, [])
  | [] => by simp [outputsLoop, multipleOutputWarnings]
  | vout :: rest => by
    have ih := outputsLoop_unconfirmed env tx utxos st hconf rest
    by_cases hlen : 1 < utxos.length <;>
      by_cases hpay : vout.ScriptPubKey.Address = env.config.DestinationAddress <;>
      simp [outputsLoop, hconf, ih, hlen, hpay, multipleOutputWarnings, paysDestination]

theorem extractUTXOs_length (p : Platform) (tx : TxRawResult) :
    (extractUTXOs p tx).length =
      (tx.Vout.filter (fun vout => vout.ScriptPubKey.Address != "")).length := by
  unfold extractUTXOs
  induction tx.Vout with
  | nil => rfl
  | cons vout rest ih =>
    by_cases h : vout.ScriptPubKey.Address = "" <;> simp [List.filterMap_cons, h] <;>
      simpa using ih

theorem trackUTXO_Address (p : Platform) (tx : TxRawResult) (vout : Vout) :
    (trackUTXO p tx vout).Address = vout.ScriptPubKey.Address := rfl

theorem outpointKey_trackUTXO (p : Platform) (tx : TxRawResult) (vout : Vout) :
    outpointKey (trackUTXO p tx vout).TxID (trackUTXO p tx vout).N = outpointKey tx.Txid vout.N :=
  rfl

/-- The second loop stops at the first output that is watched: on an unconfirmed transaction it
monitors that output and calls `SpendTransaction` for it. -/
theorem watchedOutputs_unconfirmed (env : Env) (tx : TxRawResult) (st : State)
    (hconf : tx.Confirmations = 0) :
    ∀ vouts : List Vout,
      watchedOutputs env tx
          (vouts.filterMap fun vout =>
            if vout.ScriptPubKey.Address ≠ "" then some (trackUTXO env.platform tx vout)
            else none) st =
        match vouts.find? (watched env) with
        | none => none
        | some vout =>
          let utxo := trackUTXO env.platform tx vout
          let privKey := (env.ourAddresses.get vout.ScriptPubKey.Address).getD ""
          some ({ st with monitoredUtxos := monitor st.monitoredUtxos utxo },
            [Event.logDetected utxo, Event.callSpendTransaction utxo privKey] ++
              match env.spend utxo privKey with
              | Except.error err => [Event.logSpendFailed err]
              | Except.ok _ => [])
  | [] => by simp [watchedOutputs]
  | vout :: rest => by
    have ih := watchedOutputs_unconfirmed env tx st hconf rest
    by_cases ha : vout.ScriptPubKey.Address = ""
    · simp only [List.filterMap_cons, ha, ne_eq, not_true_eq_false, if_false] at ih ⊢
      rw [List.find?_cons_of_neg _ (by simp [watched, ha])]
      exact ih
    · cases hk : env.ourAddresses.get vout.ScriptPubKey.Address with
      | none =>
        simp only [List.filterMap_cons, ha, ne_eq, not_false_eq_true, if_true] at ih ⊢
        rw [List.find?_cons_of_neg _ (by simp [watched, hk])]
        simp only [watchedOutputs, trackUTXO_Address, hk]
        exact ih
      | some privKey =>
        simp only [List.filterMap_cons, ha, ne_eq, not_false_eq_true, if_true]
        rw [List.find?_cons_of_pos _ (by simp [watched, ha, hk])]
        simp only [watchedOutputs, trackUTXO_Address, hk, hconf, SpendTransaction]
        cases hs : env.spend (trackUTXO env.platform tx vout) privKey <;> simp [hs]

/-- The third loop stops at the first input that is in the table and starts one goroutine for
its entry. -/
theorem monitoredInputs_eq (env : Env) (tx : TxRawResult) (st : State) :
    ∀ vins : List Vin,
      monitoredInputs env tx st vins =
        match vins.findSome? (fun vin => st.monitoredUtxos.get (outpointKey vin.Txid vin.Vout)) with
        | none => []
        | some utxo =>
          opReturnLogs tx ++
            [Event.goTryReplacingAttacker tx utxo ((env.ourAddresses.get utxo.Address).getD "")]
  | [] => by simp [monitoredInputs]
  | vin :: rest => by
    have ih := monitoredInputs_eq env tx st rest
    cases h : st.monitoredUtxos.get (outpointKey vin.Txid vin.Vout) with
    | none => simp [monitoredInputs, List.findSome?_cons, h, ih]
    | some utxo => simp [monitoredInputs, List.findSome?_cons, h]

theorem replaceCalls_opReturnLogs (tx : TxRawResult) : replaceCalls (opReturnLogs tx) = [] := by
  simp [replaceCalls, opReturnLogs, List.filterMap_map, Function.comp_def]

theorem spendCalls_opReturnLogs (tx : TxRawResult) : spendCalls (opReturnLogs tx) = [] := by
  simp [spendCalls, opReturnLogs, List.filterMap_map, Function.comp_def]

theorem replaceCalls_warnings (env : Env) (tx : TxRawResult) (vouts : List Vout) :
    replaceCalls (multipleOutputWarnings env tx vouts) = [] := by
  simp [replaceCalls, multipleOutputWarnings, List.filterMap_map, Function.comp_def]

theorem spendCalls_warnings (env : Env) (tx : TxRawResult) (vouts : List Vout) :
    spendCalls (multipleOutputWarnings env tx vouts) = [] := by
  simp [spendCalls, multipleOutputWarnings, List.filterMap_map, Function.comp_def]

/-- What `processTransaction` does with an unconfirmed transaction, by the number of its
addressed outputs. -/
theorem processTransaction_unconfirmed (env : Env) (st : State) (tx : TxRawResult)
    (hconf : tx.Confirmations = 0) :
    processTransaction env st tx =
      if 1 < (extractUTXOs env.platform tx).length then
        ((afterOutputsLoop env tx (extractUTXOs env.platform tx) st).1,
          multipleOutputWarnings env tx tx.Vout ++
            (afterOutputsLoop env tx (extractUTXOs env.platform tx) st).2)
      else if tx.Vout.any (paysDestination env) then (st, [])
      else afterOutputsLoop env tx (extractUTXOs env.platform tx) st := by
  simp only [processTransaction, outputsLoop_unconfirmed env tx _ st hconf]
  split_ifs <;> simp

/-- An unconfirmed transaction that passes the first loop goes on with the statements after
it, in the same state. -/
theorem processTransaction_next (env : Env) (st : State) (tx : TxRawResult)
    (hconf : tx.Confirmations = 0)
    (hnext : (outputsLoop env tx (extractUTXOs env.platform tx) tx.Vout st).1 = Flow.next) :
    processTransaction env st tx =
      ((afterOutputsLoop env tx (extractUTXOs env.platform tx) st).1,
        (outputsLoop env tx (extractUTXOs env.platform tx) tx.Vout st).2.2 ++
          (afterOutputsLoop env tx (extractUTXOs env.platform tx) st).2) := by
  rw [processTransaction_unconfirmed env st tx hconf]
  rw [outputsLoop_unconfirmed env tx _ st hconf] at hnext ⊢
  split_ifs at hnext ⊢ <;> simp at hnext ⊢

/-- An unconfirmed transaction that passes the first loop and pays a watched address. -/
theorem processTransaction_watched (env : Env) (st : State) (tx : TxRawResult) (vout : Vout)
    (hconf : tx.Confirmations = 0)
    (hnext : (outputsLoop env tx (extractUTXOs env.platform tx) tx.Vout st).1 = Flow.next)
    (hfirst : tx.Vout.find? (watched env) = some vout) :
    processTransaction env st tx =
      ({ st with
          monitoredUtxos := monitor st.monitoredUtxos (trackUTXO env.platform tx vout) },
        (outputsLoop env tx (extractUTXOs env.platform tx) tx.Vout st).2.2 ++
          ([Event.logDetected (trackUTXO env.platform tx vout),
            Event.callSpendTransaction (trackUTXO env.platform tx vout)
              ((env.ourAddresses.get vout.ScriptPubKey.Address).getD "")] ++
            match env.spend (trackUTXO env.platform tx vout)
              ((env.ourAddresses.get vout.ScriptPubKey.Address).getD "") with
            | Except.error err => [Event.logSpendFailed err]
            | Except.ok _ => [])) := by
  have hw := watchedOutputs_unconfirmed env tx st hconf tx.Vout
  rw [hfirst] at hw
  rw [processTransaction_next env st tx hconf hnext]
  unfold afterOutputsLoop
  conv_lhs => unfold extractUTXOs
  rw [hw]
  rfl

/-- An unconfirmed transaction that passes the first loop and pays no watched address. -/
theorem processTransaction_unwatched (env : Env) (st : State) (tx : TxRawResult)
    (hconf : tx.Confirmations = 0)
    (hnext : (outputsLoop env tx (extractUTXOs env.platform tx) tx.Vout st).1 = Flow.next)
    (hnone : tx.Vout.find? (watched env) = none) :
    processTransaction env st tx =
      (st, (outputsLoop env tx (extractUTXOs env.platform tx) tx.Vout st).2.2 ++
        monitoredInputs env tx st tx.Vin) := by
  have hw := watchedOutputs_unconfirmed env tx st hconf tx.Vout
  rw [hnone] at hw
  have hafter : afterOutputsLoop env tx (extractUTXOs env.platform tx) st =
      (st, monitoredInputs env tx st tx.Vin) := by
    unfold afterOutputsLoop extractUTXOs
    rw [hw]
    simp [hconf]
  rw [processTransaction_next env st tx hconf hnext, hafter]

/-- The events of the first loop on an unconfirmed transaction hold no call. -/
theorem outputsLoop_calls (env : Env) (st : State) (tx : TxRawResult) (utxos : List TrackedUTXO)
    (hconf : tx.Confirmations = 0) :
    spendCalls (outputsLoop env tx utxos tx.Vout st).2.2 = [] ∧
      replaceCalls (outputsLoop env tx utxos tx.Vout st).2.2 = [] := by
  rw [outputsLoop_unconfirmed env tx utxos st hconf]
  split_ifs
  · exact ⟨spendCalls_warnings env tx _, replaceCalls_warnings env tx _⟩
  · exact ⟨rfl, rfl⟩
  · exact ⟨rfl, rfl⟩

/-! ## main.go: the claims -/

/-- C4 (code bug). Our own sweep `wonTx` of the monitored output `aa:0` is confirmed and pays the
destination: `processTransaction` logs the battle as won, empties the funding slot and selects
again (the 0.0001 BTC entry replaces the cached 0.5 BTC entry), but the monitored table is what
it was: the entry of `aa:0` is still in it. -/
theorem processTransaction_won_keeps_entry :
    processTransaction exampleEnv battleState wonTx =
        ({ monitoredUtxos := battleState.monitoredUtxos,
           unspentUtxo := some (walletEntry "a1" (f64round (1 / 10000)) true) },
          [Event.logWon contested "bb" (contested.Amount - NewAmount x86_64 (1 / 2))]) ∧
      (processTransaction exampleEnv battleState wonTx).1.monitoredUtxos.get (outpointKey "aa" 0) =
        some contested := by
  have hget : battleState.monitoredUtxos.get (outpointKey "aa" 0) = some contested := rfl
  have h : processTransaction exampleEnv battleState wonTx =
      ({ monitoredUtxos := battleState.monitoredUtxos,
         unspentUtxo := some (walletEntry "a1" (f64round (1 / 10000)) true) },
        [Event.logWon contested "bb" (contested.Amount - NewAmount x86_64 (1 / 2))]) := by
    rw [processTransaction_confirmed exampleEnv battleState wonTx ⟨1 / 2, 0, scriptTo destination⟩
      [] (by decide) rfl]
    have hvin : wonTx.Vin = [⟨"aa", 0⟩] := rfl
    rw [hvin, confirmedInputs_single exampleEnv battleState wonTx _ _ ⟨"aa", 0⟩ _ contested hget]
    have hdest : ((scriptTo destination).Address == exampleEnv.config.DestinationAddress) = true := by
      decide
    have hsel : selectUnspentUtxo exampleEnv.sort none (exampleEnv.listUnspent 0) = _ :=
      selectUnspentUtxo_walletExample exampleEnv.sort
    simp only [hdest, if_true, hsel]
    rfl
  refine ⟨h, ?_⟩
  rw [h]
  exact hget

/-- C5 (code bug). The confirmed transaction `secondOutputTx` spends the monitored output `aa:0`
and pays the destination in its second output: `processTransaction` looks at the first output
only, logs the battle as lost and removes the entry of `aa:0`. -/
theorem processTransaction_second_output_lost :
    (∃ vout ∈ secondOutputTx.Vout, paysDestination exampleEnv vout = true) ∧
      processTransaction exampleEnv battleState secondOutputTx =
        ({ monitoredUtxos := cleanup battleState.monitoredUtxos contested,
           unspentUtxo := some (walletEntry "a1" (f64round (1 / 10000)) true) },
          [Event.logLost contested "bc" (contested.Amount - NewAmount x86_64 (1 / 4))]) ∧
      (processTransaction exampleEnv battleState secondOutputTx).1.monitoredUtxos.get
          (outpointKey "aa" 0) = none := by
  have hget : battleState.monitoredUtxos.get (outpointKey "aa" 0) = some contested := rfl
  have h : processTransaction exampleEnv battleState secondOutputTx =
      ({ monitoredUtxos := cleanup battleState.monitoredUtxos contested,
         unspentUtxo := some (walletEntry "a1" (f64round (1 / 10000)) true) },
        [Event.logLost contested "bc" (contested.Amount - NewAmount x86_64 (1 / 4))]) := by
    rw [processTransaction_confirmed exampleEnv battleState secondOutputTx
      ⟨1 / 4, 0, scriptTo "bcrt1qother"⟩ [⟨1 / 2, 1, scriptTo destination⟩] (by decide) rfl]
    have hvin : secondOutputTx.Vin = [⟨"aa", 0⟩] := rfl
    rw [hvin,
      confirmedInputs_single exampleEnv battleState secondOutputTx _ _ ⟨"aa", 0⟩ _ contested hget]
    have hdest :
        ((scriptTo "bcrt1qother").Address == exampleEnv.config.DestinationAddress) = false := by
      decide
    have hsel : selectUnspentUtxo exampleEnv.sort none (exampleEnv.listUnspent 0) = _ :=
      selectUnspentUtxo_walletExample exampleEnv.sort
    simp only [hdest, hsel]
    rfl
  refine ⟨⟨⟨1 / 2, 1, scriptTo destination⟩, by simp [secondOutputTx], by decide⟩, h, ?_⟩
  rw [h]
  exact GoMap.get_delete_self _ _

/-- C6. An unconfirmed transaction that is not dropped by the first loop and whose first output
at a watched address is `vout`: `processTransaction` puts the tracked output of `vout` into the
monitored table under the key `txid:vout`, calls `SpendTransaction` exactly once, for that output
and with the private key of its address, starts no replacement and leaves the funding slot alone;
this holds whatever the spend returns, and a failure of the spend is only logged. -/
theorem processTransaction_detects (env : Env) (st : State) (tx : TxRawResult) (vout : Vout)
    (hconf : tx.Confirmations = 0)
    (hnext : (outputsLoop env tx (extractUTXOs env.platform tx) tx.Vout st).1 = Flow.next)
    (hfirst : tx.Vout.find? (watched env) = some vout) :
    ∃ privKey, env.ourAddresses.get vout.ScriptPubKey.Address = some privKey ∧
      (processTransaction env st tx).1.monitoredUtxos =
        st.monitoredUtxos.set (outpointKey tx.Txid vout.N) (trackUTXO env.platform tx vout) ∧
      (processTransaction env st tx).1.monitoredUtxos.get (outpointKey tx.Txid vout.N) =
        some (trackUTXO env.platform tx vout) ∧
      (processTransaction env st tx).1.unspentUtxo = st.unspentUtxo ∧
      spendCalls (processTransaction env st tx).2 = [(trackUTXO env.platform tx vout, privKey)] ∧
      replaceCalls (processTransaction env st tx).2 = [] ∧
      ∀ err, env.spend (trackUTXO env.platform tx vout) privKey = Except.error err →
        (processTransaction env st tx).2.getLast? = some (Event.logSpendFailed err) := by
  have hw : watched env vout = true := List.find?_some hfirst
  simp only [watched, Bool.and_eq_true, Option.isSome_iff_exists] at hw
  obtain ⟨privKey, hk⟩ := hw.2
  have hcalls := outputsLoop_calls env st tx (extractUTXOs env.platform tx) hconf
  refine ⟨privKey, hk, ?_⟩
  rw [processTransaction_watched env st tx vout hconf hnext hfirst, hk, Option.getD_some]
  refine ⟨rfl, GoMap.get_set_self _ _ _, rfl, ?_, ?_, ?_⟩
  · simp only [spendCalls, List.filterMap_append] at hcalls ⊢
    rw [hcalls.1]
    cases hs : env.spend (trackUTXO env.platform tx vout) privKey <;> simp
  · simp only [replaceCalls, List.filterMap_append] at hcalls ⊢
    rw [hcalls.2]
    cases hs : env.spend (trackUTXO env.platform tx vout) privKey <;> simp
  · intro err herr
    simp [herr, List.getLast?_append]

/-- C6, at `depositTx`, whose second output pays the watched address, with a node that rejects
the sweep. -/
theorem processTransaction_detects_witness :
    depositTx.Confirmations = 0 ∧
      (outputsLoop exampleEnv depositTx (extractUTXOs exampleEnv.platform depositTx) depositTx.Vout
        battleState).1 = Flow.next ∧
      depositTx.Vout.find? (watched exampleEnv) = some ⟨1, 1, scriptTo "bcrt1qweak"⟩ ∧
      ∃ privKey, exampleEnv.ourAddresses.get "bcrt1qweak" = some privKey ∧
        (processTransaction exampleEnv battleState depositTx).1.monitoredUtxos =
          battleState.monitoredUtxos.set (outpointKey "dd" 1)
            (trackUTXO x86_64 depositTx ⟨1, 1, scriptTo "bcrt1qweak"⟩) ∧
        (processTransaction exampleEnv battleState depositTx).1.monitoredUtxos.get
            (outpointKey "dd" 1) =
          some (trackUTXO x86_64 depositTx ⟨1, 1, scriptTo "bcrt1qweak"⟩) ∧
        (processTransaction exampleEnv battleState depositTx).1.unspentUtxo =
          battleState.unspentUtxo ∧
        spendCalls (processTransaction exampleEnv battleState depositTx).2 =
          [(trackUTXO x86_64 depositTx ⟨1, 1, scriptTo "bcrt1qweak"⟩, privKey)] ∧
        replaceCalls (processTransaction exampleEnv battleState depositTx).2 = [] ∧
        ∀ err, exampleEnv.spend (trackUTXO x86_64 depositTx ⟨1, 1, scriptTo "bcrt1qweak"⟩) privKey =
            Except.error err →
          (processTransaction exampleEnv battleState depositTx).2.getLast? =
            some (Event.logSpendFailed err) :=
  have h1 : depositTx.Confirmations = 0 := rfl
  have h2 : (outputsLoop exampleEnv depositTx (extractUTXOs exampleEnv.platform depositTx)
      depositTx.Vout battleState).1 = Flow.next := by
    rw [outputsLoop_unconfirmed exampleEnv depositTx _ battleState h1, extractUTXOs_length]
    rw [if_pos (by decide)]
  have h3 : depositTx.Vout.find? (watched exampleEnv) = some ⟨1, 1, scriptTo "bcrt1qweak"⟩ :=
    rfl
  ⟨h1, h2, h3, processTransaction_detects exampleEnv battleState depositTx _ h1 h2 h3⟩

/-- The goroutines started for an unconfirmed transaction that passes the first loop and pays
no watched address: one, for the entry of the first input that is in the table. -/
theorem replaceCalls_unwatched (env : Env) (st : State) (tx : TxRawResult)
    (hconf : tx.Confirmations = 0)
    (hnext : (outputsLoop env tx (extractUTXOs env.platform tx) tx.Vout st).1 = Flow.next)
    (hnone : tx.Vout.find? (watched env) = none) :
    replaceCalls (processTransaction env st tx).2 =
      match tx.Vin.findSome? (fun vin => st.monitoredUtxos.get (outpointKey vin.Txid vin.Vout)) with
      | none => []
      | some utxo => [(tx, utxo, (env.ourAddresses.get utxo.Address).getD "")] := by
  have hcalls := outputsLoop_calls env st tx (extractUTXOs env.platform tx) hconf
  have hrep := replaceCalls_opReturnLogs tx
  rw [processTransaction_unwatched env st tx hconf hnext hnone, monitoredInputs_eq]
  simp only [replaceCalls, List.filterMap_append] at hcalls hrep ⊢
  rw [hcalls.2]
  cases tx.Vin.findSome? (fun vin => st.monitoredUtxos.get (outpointKey vin.Txid vin.Vout)) with
  | none => rfl
  | some utxo =>
    simp only [List.filterMap_append, hrep]
    rfl

/-- C7 (counterexample). The unconfirmed transaction `doubleSweepTx` reaches the last step and
both of its inputs, `aa:0` and `cc:1`, are in the monitored table, yet a single goroutine is
started: the one for `aa:0`. -/
theorem processTransaction_double_sweep_one_call :
    doubleSweepTx.Vin.filter (spendsMonitored twoBattlesState) = [⟨"aa", 0⟩, ⟨"cc", 1⟩] ∧
      replaceCalls (processTransaction exampleEnv twoBattlesState doubleSweepTx).2 =
        [(doubleSweepTx, contested,
          "23d4a09295be678b21a5f1dceae1f634a69c1b41775f680ebf8165266471401b")] := by
  have h1 : doubleSweepTx.Confirmations = 0 := rfl
  have h2 : (outputsLoop exampleEnv doubleSweepTx (extractUTXOs exampleEnv.platform doubleSweepTx)
      doubleSweepTx.Vout twoBattlesState).1 = Flow.next := by
    rw [outputsLoop_unconfirmed exampleEnv doubleSweepTx _ twoBattlesState h1, extractUTXOs_length]
    rw [if_neg (by decide), if_neg (by decide)]
  have h3 : doubleSweepTx.Vout.find? (watched exampleEnv) = none := rfl
  have h4 : doubleSweepTx.Vin.findSome?
      (fun vin => twoBattlesState.monitoredUtxos.get (outpointKey vin.Txid vin.Vout)) =
      some contested := rfl
  refine ⟨rfl, ?_⟩
  rw [replaceCalls_unwatched exampleEnv twoBattlesState doubleSweepTx h1 h2 h3, h4]
  rfl

/-- C7 (amended). An unconfirmed transaction that reaches the last step (it passes the first
loop and no output is at a watched address): `processTransaction` leaves the state as it is,
calls no spend, and starts `TryReplacingAttacker` once, for the first input whose `txid:vout` is
in the monitored table, with the entry of that input and the key of the entry's address; it
starts nothing when no input is in the table. -/
theorem processTransaction_contested (env : Env) (st : State) (tx : TxRawResult)
    (hconf : tx.Confirmations = 0)
    (hnext : (outputsLoop env tx (extractUTXOs env.platform tx) tx.Vout st).1 = Flow.next)
    (hnone : tx.Vout.find? (watched env) = none) :
    (processTransaction env st tx).1 = st ∧
      spendCalls (processTransaction env st tx).2 = [] ∧
      replaceCalls (processTransaction env st tx).2 =
        match
          tx.Vin.findSome? (fun vin => st.monitoredUtxos.get (outpointKey vin.Txid vin.Vout)) with
        | none => []
        | some utxo => [(tx, utxo, (env.ourAddresses.get utxo.Address).getD "")] := by
  refine ⟨?_, ?_, replaceCalls_unwatched env st tx hconf hnext hnone⟩
  · rw [processTransaction_unwatched env st tx hconf hnext hnone]
  · have hcalls := outputsLoop_calls env st tx (extractUTXOs env.platform tx) hconf
    have hsp := spendCalls_opReturnLogs tx
    rw [processTransaction_unwatched env st tx hconf hnext hnone, monitoredInputs_eq]
    simp only [spendCalls, List.filterMap_append] at hcalls hsp ⊢
    rw [hcalls.1]
    cases tx.Vin.findSome? (fun vin => st.monitoredUtxos.get (outpointKey vin.Txid vin.Vout)) with
    | none => rfl
    | some utxo =>
      simp only [List.filterMap_append, hsp]
      rfl

/-- C7 (amended), at `doubleSweepTx`. -/
theorem processTransaction_contested_witness :
    doubleSweepTx.Confirmations = 0 ∧
      (outputsLoop exampleEnv doubleSweepTx (extractUTXOs exampleEnv.platform doubleSweepTx)
        doubleSweepTx.Vout twoBattlesState).1 = Flow.next ∧
      doubleSweepTx.Vout.find? (watched exampleEnv) = none ∧
      (processTransaction exampleEnv twoBattlesState doubleSweepTx).1 = twoBattlesState ∧
      spendCalls (processTransaction exampleEnv twoBattlesState doubleSweepTx).2 = [] ∧
      replaceCalls (processTransaction exampleEnv twoBattlesState doubleSweepTx).2 =
        match
          doubleSweepTx.Vin.findSome?
            (fun vin => twoBattlesState.monitoredUtxos.get (outpointKey vin.Txid vin.Vout)) with
        | none => []
        | some utxo =>
          [(doubleSweepTx, utxo, (exampleEnv.ourAddresses.get utxo.Address).getD "")] :=
  have h1 : doubleSweepTx.Confirmations = 0 := rfl
  have h2 : (outputsLoop exampleEnv doubleSweepTx (extractUTXOs exampleEnv.platform doubleSweepTx)
      doubleSweepTx.Vout twoBattlesState).1 = Flow.next := by
    rw [outputsLoop_unconfirmed exampleEnv doubleSweepTx _ twoBattlesState h1, extractUTXOs_length]
    rw [if_neg (by decide), if_neg (by decide)]
  have h3 : doubleSweepTx.Vout.find? (watched exampleEnv) = none := rfl
  ⟨h1, h2, h3, processTransaction_contested exampleEnv twoBattlesState doubleSweepTx h1 h2 h3⟩

/-- C8 (code bug). The unconfirmed transaction `opReturnSweepTx` has two outputs, the first pays
the destination and the second is an `OP_RETURN` without address: it is dropped as our own
replacement, without a warning and without a replacement, although it spends the monitored
output `aa:0`. -/
theorem processTransaction_op_return_dropped :
    opReturnSweepTx.Vout.length = 2 ∧
      opReturnSweepTx.Vout.any (paysDestination exampleEnv) = true ∧
      opReturnSweepTx.Vin.filter (spendsMonitored battleState) = [⟨"aa", 0⟩] ∧
      processTransaction exampleEnv battleState opReturnSweepTx = (battleState, []) := by
  refine ⟨rfl, by decide, rfl, ?_⟩
  rw [processTransaction_unconfirmed exampleEnv battleState opReturnSweepTx rfl,
    extractUTXOs_length]
  rw [if_neg (by decide), if_pos (by decide)]

/-- An unconfirmed transaction with an output that pays the destination is dropped as our own
replacement exactly when at most one of its outputs carries an address; when more than one output
carries an address, `processTransaction` warns once for every output that pays the destination
and continues with the steps for watched addresses and monitored inputs. -/
theorem processTransaction_pays_destination (env : Env) (st : State) (tx : TxRawResult)
    (hconf : tx.Confirmations = 0)
    (hpay : ∃ vout ∈ tx.Vout, vout.ScriptPubKey.Address = env.config.DestinationAddress) :
    ((outputsLoop env tx (extractUTXOs env.platform tx) tx.Vout st).1 = Flow.returned ↔
        (tx.Vout.filter (fun vout => vout.ScriptPubKey.Address != "")).length ≤ 1) ∧
      ((tx.Vout.filter (fun vout => vout.ScriptPubKey.Address != "")).length ≤ 1 →
        processTransaction env st tx = (st, [])) ∧
      (1 < (tx.Vout.filter (fun vout => vout.ScriptPubKey.Address != "")).length →
        processTransaction env st tx =
          ((afterOutputsLoop env tx (extractUTXOs env.platform tx) st).1,
            multipleOutputWarnings env tx tx.Vout ++
              (afterOutputsLoop env tx (extractUTXOs env.platform tx) st).2)) := by
  have hany : tx.Vout.any (paysDestination env) = true := by
    obtain ⟨vout, hmem, hv⟩ := hpay
    rw [List.any_eq_true]
    exact ⟨vout, hmem, by simp [paysDestination, hv]⟩
  rw [processTransaction_unconfirmed env st tx hconf,
    outputsLoop_unconfirmed env tx _ st hconf, extractUTXOs_length]
  refine ⟨?_, ?_, ?_⟩
  · split_ifs with h
    · simp only [reduceCtorEq, false_iff, not_le]
      exact h
    · simp only [true_iff]
      omega
  · intro h
    rw [if_neg (by omega), if_pos hany]
  · intro h
    rw [if_pos h]

/-! ## monitor.go: the claims -/

theorem GoMap.delete_delete {V : Type} (m : GoMap V) (k : String) :
    (m.delete k).delete k = m.delete k := by
  simp [GoMap.delete, List.filter_filter]

theorem GoMap.delete_of_get_none {V : Type} (m : GoMap V) (k : String) (h : m.get k = none) :
    m.delete k = m := by
  simp only [GoMap.get, Option.map_eq_none', List.find?_eq_none] at h
  simp only [GoMap.delete, List.filter_eq_self]
  intro e he
  simpa using h e he

/-- C12. For every monitored table and tracked output, `monitor` called twice gives the same
table (the same entries, hence the same size) as `monitor` called once, and `cleanup` gives the
table back unchanged when the key `TxID:N` of the output is not in it. -/
theorem monitor_twice_cleanup_absent (monitoredUtxos : GoMap TrackedUTXO) (utxo : TrackedUTXO) :
    monitor (monitor monitoredUtxos utxo) utxo = monitor monitoredUtxos utxo ∧
      (monitor (monitor monitoredUtxos utxo) utxo).length = (monitor monitoredUtxos utxo).length ∧
      (monitoredUtxos.get (outpointKey utxo.TxID utxo.N) = none →
        cleanup monitoredUtxos utxo = monitoredUtxos) := by
  have h : monitor (monitor monitoredUtxos utxo) utxo = monitor monitoredUtxos utxo := by
    simp [monitor, GoMap.set, GoMap.delete, List.filter_filter]
  refine ⟨h, by rw [h], ?_⟩
  intro hnone
  exact GoMap.delete_of_get_none _ _ hnone

/-- C12, at the table that monitors `aa:0` and the output `cc:1`, whose key is absent. -/
theorem monitor_twice_cleanup_absent_witness :
    battleState.monitoredUtxos.get (outpointKey contested2.TxID contested2.N) = none ∧
      cleanup battleState.monitoredUtxos contested2 = battleState.monitoredUtxos ∧
      monitor (monitor battleState.monitoredUtxos contested2) contested2 =
        monitor battleState.monitoredUtxos contested2 :=
  have h : battleState.monitoredUtxos.get (outpointKey contested2.TxID contested2.N) = none := rfl
  ⟨h, (monitor_twice_cleanup_absent battleState.monitoredUtxos contested2).2.2 h,
    (monitor_twice_cleanup_absent battleState.monitoredUtxos contested2).1⟩

/-! ## gen-addresses/main.go: the claims -/

/-- The first `n` chunks of `chunkSize` entries, put end to end, are the first `n * chunkSize`
entries of the list. -/
theorem chunks_flatten (passwords : List String) (chunkSize : ℕ) :
    ∀ n : ℕ,
      ((List.range n).map fun i =>
          if i * chunkSize < passwords.length then
            (passwords.drop (i * chunkSize)).take
              (min (i * chunkSize + chunkSize) passwords.length - i * chunkSize)
          else []).flatten =
        passwords.take (n * chunkSize)
  | 0 => by simp
  | n + 1 => by
    rw [List.range_succ, List.map_append, List.flatten_append, chunks_flatten passwords chunkSize n,
      Nat.succ_mul, List.take_add]
    congr 1
    simp only [List.map_cons, List.map_nil, List.flatten_cons, List.flatten_nil,
      List.append_nil]
    split_ifs with h
    · rw [List.take_eq_take]
      simp only [List.length_drop]
      omega
    · rw [List.drop_eq_nil_of_le (by omega)]
      simp

/-- C23. For every list of passwords and every `numChunks ≥ 1`, `chunkPasswords` returns exactly
`numChunks` chunks, their concatenation in order is the list, and no chunk is longer than
`ceil(len(passwords) / numChunks)`. -/
theorem chunkPasswords_partition (passwords : List String) (numChunks : ℕ)
    (h : 1 ≤ numChunks) :
    (chunkPasswords passwords numChunks).length = numChunks ∧
      (chunkPasswords passwords numChunks).flatten = passwords ∧
      ∀ chunk ∈ chunkPasswords passwords numChunks,
        chunk.length ≤ ⌈(passwords.length : ℚ) / numChunks⌉₊ := by
  have hceil : (passwords.length + numChunks - 1) / numChunks =
      ⌈(passwords.length : ℚ) / numChunks⌉₊ := by
    rw [← Nat.ceilDiv_eq_add_pred_div]
    apply le_antisymm
    · rw [ceilDiv_le_iff_le_mul (by omega)]
      have h1 : (passwords.length : ℚ) / numChunks ≤ ⌈(passwords.length : ℚ) / numChunks⌉₊ :=
        Nat.le_ceil _
      have hn : (0 : ℚ) < numChunks := by exact_mod_cast (by omega : 0 < numChunks)
      rw [div_le_iff₀ hn] at h1
      have h2 : ((passwords.length : ℕ) : ℚ) ≤
          ((⌈(passwords.length : ℚ) / numChunks⌉₊ * numChunks : ℕ) : ℚ) := by
        push_cast
        exact h1
      have h3 := Nat.cast_le.1 h2
      rw [Nat.mul_comm]
      exact h3
    · rw [Nat.ceil_le]
      have hn : (0 : ℚ) < numChunks := by exact_mod_cast (by omega : 0 < numChunks)
      rw [div_le_iff₀ hn]
      have h1 : passwords.length ≤ numChunks • (passwords.length ⌈/⌉ numChunks) :=
        (ceilDiv_le_iff_le_smul (by omega : 0 < numChunks)).1 le_rfl
      rw [smul_eq_mul] at h1
      have h2 : ((passwords.length : ℕ) : ℚ) ≤
          ((numChunks * (passwords.length ⌈/⌉ numChunks) : ℕ) : ℚ) := Nat.cast_le.2 h1
      push_cast at h2
      linarith
  refine ⟨by simp [chunkPasswords], ?_, ?_⟩
  · have hcover : passwords.length ≤
        numChunks * ((passwords.length + numChunks - 1) / numChunks) := by
      have := Nat.div_add_mod (passwords.length + numChunks - 1) numChunks
      have hm := Nat.mod_lt (passwords.length + numChunks - 1) (by omega : numChunks > 0)
      omega
    unfold chunkPasswords
    simp only
    rw [chunks_flatten passwords _ numChunks, List.take_of_length_le hcover]
  · intro chunk hchunk
    rw [← hceil]
    simp only [chunkPasswords, List.mem_map, List.mem_range] at hchunk
    obtain ⟨i, -, rfl⟩ := hchunk
    split_ifs
    · simp only [List.length_take, List.length_drop]
      omega
    · simp

/-- C23, at three passwords and two workers. -/
theorem chunkPasswords_partition_witness :
    1 ≤ 2 ∧ chunkPasswords ["alpha", "beta", "gamma"] 2 = [["alpha", "beta"], ["gamma"]] ∧
      (chunkPasswords ["alpha", "beta", "gamma"] 2).length = 2 ∧
      (chunkPasswords ["alpha", "beta", "gamma"] 2).flatten = ["alpha", "beta", "gamma"] ∧
      ∀ chunk ∈ chunkPasswords ["alpha", "beta", "gamma"] 2,
        chunk.length ≤ ⌈((["alpha", "beta", "gamma"] : List String).length : ℚ) / (2 : ℕ)⌉₊ :=
  ⟨by decide, by decide, chunkPasswords_partition ["alpha", "beta", "gamma"] 2 (by decide)⟩

/-! ## main.go: confirmed transactions -/

/-- The loop over the inputs of a confirmed transaction only logs, removes entries of the table
and selects the funding output again. -/
theorem confirmedInputs_effects (env : Env) (tx : TxRawResult) (isSentToUs : Bool)
    (voutValue : ℤ) :
    ∀ (vins : List Vin) (answers : ℕ → Except String (List ListUnspentResult)) (st : State),
      List.Sublist (confirmedInputs env tx isSentToUs voutValue vins answers st).1.monitoredUtxos
          st.monitoredUtxos ∧
        (∀ e ∈ (confirmedInputs env tx isSentToUs voutValue vins answers st).2,
          ∃ u t r, e = Event.logWon u t r ∨ e = Event.logLost u t r) ∧
        ((confirmedInputs env tx isSentToUs voutValue vins answers st).1.unspentUtxo =
            st.unspentUtxo ∨
          ∃ answer, (confirmedInputs env tx isSentToUs voutValue vins answers st).1.unspentUtxo =
            (selectUnspentUtxo env.sort none answer).1)
  | [], _, st => by simp [confirmedInputs]
  | vin :: rest, answers, st => by
    cases h : st.monitoredUtxos.get (outpointKey vin.Txid vin.Vout) with
    | none =>
      simp only [confirmedInputs, h]
      exact confirmedInputs_effects env tx isSentToUs voutValue rest answers st
    | some monitoredUtxo =>
      simp only [confirmedInputs, h]
      obtain ⟨h1, h2, h3⟩ := confirmedInputs_effects env tx isSentToUs voutValue rest
        (fun k => answers (k + 1))
        { monitoredUtxos :=
            (if isSentToUs = true then
              (st.monitoredUtxos,
                Event.logWon monitoredUtxo tx.Txid (monitoredUtxo.Amount - voutValue))
            else
              (cleanup st.monitoredUtxos monitoredUtxo,
                Event.logLost monitoredUtxo tx.Txid (monitoredUtxo.Amount - voutValue))).1,
          unspentUtxo := (selectUnspentUtxo env.sort none (answers 0)).1 }
      refine ⟨?_, ?_, ?_⟩
      · refine h1.trans ?_
        cases isSentToUs
        · exact List.filter_sublist _
        · exact List.Sublist.refl _
      · intro e he
        rcases List.mem_cons.1 he with rfl | he
        · cases isSentToUs
          · exact ⟨_, _, _, Or.inr rfl⟩
          · exact ⟨_, _, _, Or.inl rfl⟩
        · exact h2 e he
      · right
        rcases h3 with h3 | ⟨answer, h3⟩
        · exact ⟨answers 0, h3⟩
        · exact ⟨answer, h3⟩

/-- A confirmed transaction without outputs is ignored. -/
theorem processTransaction_confirmed_no_outputs (env : Env) (st : State) (tx : TxRawResult)
    (hconf : 0 < tx.Confirmations) (hv : tx.Vout = []) : processTransaction env st tx = (st, []) := by
  simp [processTransaction, hv, outputsLoop, afterOutputsLoop, extractUTXOs, watchedOutputs, hconf]

/-- C22. For every transaction with `Confirmations > 0`, `processTransaction` calls no spend and
starts no replacement (the only path to a burn), every event is the log line of a won or lost
battle, the monitored table it leaves is the table it found with entries removed (nothing is
inserted), and the funding slot is as it was or was emptied and selected again. -/
theorem processTransaction_confirmed_effects (env : Env) (st : State) (tx : TxRawResult)
    (hconf : 0 < tx.Confirmations) :
    spendCalls (processTransaction env st tx).2 = [] ∧
      replaceCalls (processTransaction env st tx).2 = [] ∧
      (∀ e ∈ (processTransaction env st tx).2,
        ∃ u t r, e = Event.logWon u t r ∨ e = Event.logLost u t r) ∧
      List.Sublist (processTransaction env st tx).1.monitoredUtxos st.monitoredUtxos ∧
      ((processTransaction env st tx).1.unspentUtxo = st.unspentUtxo ∨
        ∃ answer, (processTransaction env st tx).1.unspentUtxo =
          (selectUnspentUtxo env.sort none answer).1) := by
  have key : (∀ e ∈ (processTransaction env st tx).2,
        ∃ u t r, e = Event.logWon u t r ∨ e = Event.logLost u t r) ∧
      List.Sublist (processTransaction env st tx).1.monitoredUtxos st.monitoredUtxos ∧
      ((processTransaction env st tx).1.unspentUtxo = st.unspentUtxo ∨
        ∃ answer, (processTransaction env st tx).1.unspentUtxo =
          (selectUnspentUtxo env.sort none answer).1) := by
    cases hv : tx.Vout with
    | nil =>
      rw [processTransaction_confirmed_no_outputs env st tx hconf hv]
      exact ⟨by simp, List.Sublist.refl _, Or.inl rfl⟩
    | cons vout rest =>
      rw [processTransaction_confirmed env st tx vout rest hconf hv]
      obtain ⟨h1, h2, h3⟩ := confirmedInputs_effects env tx
        (vout.ScriptPubKey.Address == env.config.DestinationAddress)
        (NewAmount env.platform vout.Value) tx.Vin env.listUnspent st
      exact ⟨h2, h1, h3⟩
  obtain ⟨hlog, hsub, hslot⟩ := key
  refine ⟨?_, ?_, hlog, hsub, hslot⟩
  · simp only [spendCalls, List.filterMap_eq_nil_iff]
    intro e he
    obtain ⟨u, t, r, h | h⟩ := hlog e he <;> rw [h]
  · simp only [replaceCalls, List.filterMap_eq_nil_iff]
    intro e he
    obtain ⟨u, t, r, h | h⟩ := hlog e he <;> rw [h]

/-- C22, at the confirmed transaction `secondOutputTx`. -/
theorem processTransaction_confirmed_effects_witness :
    0 < secondOutputTx.Confirmations ∧
      spendCalls (processTransaction exampleEnv battleState secondOutputTx).2 = [] ∧
      replaceCalls (processTransaction exampleEnv battleState secondOutputTx).2 = [] ∧
      (∀ e ∈ (processTransaction exampleEnv battleState secondOutputTx).2,
        ∃ u t r, e = Event.logWon u t r ∨ e = Event.logLost u t r) ∧
      List.Sublist (processTransaction exampleEnv battleState secondOutputTx).1.monitoredUtxos
        battleState.monitoredUtxos ∧
      ((processTransaction exampleEnv battleState secondOutputTx).1.unspentUtxo =
          battleState.unspentUtxo ∨
        ∃ answer, (processTransaction exampleEnv battleState secondOutputTx).1.unspentUtxo =
          (selectUnspentUtxo exampleEnv.sort none answer).1) :=
  ⟨by decide, processTransaction_confirmed_effects exampleEnv battleState secondOutputTx
    (by decide)⟩

/-! ## addresses.go: the claims -/

theorem startsWith_iff (pattern : List Char) :
    ∀ text : List Char, startsWith pattern text = true ↔ ∃ rest, text = pattern ++ rest := by
  induction pattern with
  | nil => intro text; simp [startsWith]
  | cons p ps ih =>
    intro text
    cases text with
    | nil => simp [startsWith]
    | cons c cs =>
      simp only [startsWith, Bool.and_eq_true, beq_iff_eq, ih, List.cons_append, List.cons.injEq]
      constructor
      · rintro ⟨rfl, rest, rfl⟩
        exact ⟨rest, rfl, rfl⟩
      · rintro ⟨rest, rfl, rfl⟩
        exact ⟨rfl, rest, rfl⟩

/-- The function `stringsContains` decides whether the substring occurs: the text is some
characters, then the substring, then some characters. -/
theorem containsChars_iff (pattern : List Char) :
    ∀ text : List Char,
      containsChars pattern text = true ↔ ∃ before after, text = before ++ pattern ++ after
  | [] => by
    simp only [containsChars, List.isEmpty_iff]
    constructor
    · rintro rfl
      exact ⟨[], [], rfl⟩
    · rintro ⟨before, after, h⟩
      have h2 := congrArg List.length h
      simp only [List.length_nil, List.length_append] at h2
      exact List.length_eq_zero.1 (by omega)
  | c :: cs => by
    simp only [containsChars, Bool.or_eq_true, startsWith_iff, containsChars_iff pattern cs]
    constructor
    · rintro (⟨rest, h⟩ | ⟨before, after, h⟩)
      · exact ⟨[], rest, by simpa using h⟩
      · exact ⟨c :: before, after, by simp [h]⟩
    · rintro ⟨before, after, h⟩
      cases before with
      | nil => exact Or.inl ⟨after, by simpa using h⟩
      | cons b bs =>
        simp only [List.cons_append, List.cons.injEq] at h
        exact Or.inr ⟨bs, after, h.2⟩

theorem GoMap.get_delete_of_ne {V : Type} (m : GoMap V) (k k2 : String) (h : k2 ≠ k) :
    (m.delete k).get k2 = m.get k2 := by
  induction m with
  | nil => rfl
  | cons e rest ih =>
    simp only [GoMap.get, GoMap.delete] at ih ⊢
    by_cases he : e.1 = k
    · have hne : ¬ e.1 = k2 := fun h2 => h (h2.symm.trans he)
      rw [List.filter_cons_of_neg (by simp [he]), List.find?_cons_of_neg _ (by simp [hne])]
      exact ih
    · rw [List.filter_cons_of_pos (by simp [he])]
      by_cases h2 : e.1 = k2
      · rw [List.find?_cons_of_pos _ (by simp [h2]), List.find?_cons_of_pos _ (by simp [h2])]
      · rw [List.find?_cons_of_neg _ (by simp [h2]), List.find?_cons_of_neg _ (by simp [h2])]
        exact ih

theorem GoMap.get_set {V : Type} (m : GoMap V) (k k2 : String) (v : V) :
    (m.set k v).get k2 = if k2 = k then some v else m.get k2 := by
  by_cases h : k2 = k
  · subst h
    rw [if_pos rfl]
    exact GoMap.get_set_self m k2 v
  · rw [if_neg h]
    have hne : ¬ k = k2 := fun h2 => h h2.symm
    have h1 : (m.set k v).get k2 = (m.delete k).get k2 := by
      simp only [GoMap.get, GoMap.set]
      rw [List.find?_cons_of_neg _ (by simp [hne])]
    rw [h1, GoMap.get_delete_of_ne m k k2 h]

/-- What a record of at least two fields leaves in the table. -/
theorem get_addRecord (m : GoMap String) (record : List String) (k : String)
    (hlen : 2 ≤ record.length) :
    (addRecord m record).get k =
      if k = record.getD 1 "" ∨ k = record.getD 2 "" ∨ k = record.getD 3 "" ∨
          k = record.getD 4 "" ∨ k = record.getD 5 "" then some (record.getD 0 "")
      else m.get k := by
  have hnot : ¬ record.length < 2 := by omega
  simp only [addRecord, if_neg hnot, GoMap.get_set]
  by_cases h5 : k = record.getD 5 ""
  · simp [h5]
  by_cases h4 : k = record.getD 4 ""
  · simp [h4]
  by_cases h3 : k = record.getD 3 ""
  · simp [h3]
  by_cases h2 : k = record.getD 2 ""
  · simp [h2]
  by_cases h1 : k = record.getD 1 ""
  · simp [h1]
  rw [if_neg h5, if_neg h4, if_neg h3, if_neg h2, if_neg h1, if_neg]
  rintro (h | h | h | h | h)
  · exact h1 h
  · exact h2 h
  · exact h3 h
  · exact h4 h
  · exact h5 h

/-- After the records are loaded, every address of every record is mapped to the first column
of its record, when no address stands in two records with different first columns. -/
theorem get_foldl_addRecord (m : GoMap String) :
    ∀ rows : List (List String), (∀ row ∈ rows, 2 ≤ row.length) → AddressesDetermineKey rows →
      ∀ row ∈ rows, ∀ i : ℕ, 1 ≤ i → i ≤ 5 →
        (rows.foldl addRecord m).get (row.getD i "") = some (row.getD 0 "") := by
  intro rows
  induction rows using List.reverseRecOn with
  | nil => intro _ _ row hrow; simp at hrow
  | append_singleton init last ih =>
    intro hlen hdet row hrow i hi1 hi5
    rw [List.foldl_append, List.foldl_cons, List.foldl_nil,
      get_addRecord _ last _ (hlen last (by simp))]
    split_ifs with hk
    · have hj : ∃ j : ℕ, 1 ≤ j ∧ j ≤ 5 ∧ row.getD i "" = last.getD j "" := by
        rcases hk with h | h | h | h | h
        · exact ⟨1, by omega, by omega, h⟩
        · exact ⟨2, by omega, by omega, h⟩
        · exact ⟨3, by omega, by omega, h⟩
        · exact ⟨4, by omega, by omega, h⟩
        · exact ⟨5, by omega, by omega, h⟩
      obtain ⟨j, hj1, hj5, hij⟩ := hj
      rw [hdet row hrow last (by simp) i j hi1 hi5 hj1 hj5 hij]
    · rcases List.mem_append.1 hrow with hin | hl
      · refine ih (fun r hr => hlen r (List.mem_append_left _ hr)) ?_ row hin i hi1 hi5
        intro r hr o ho a b ha1 ha5 hb1 hb5 hab
        exact hdet r (List.mem_append_left _ hr) o (List.mem_append_left _ ho) a b ha1 ha5 hb1
          hb5 hab
      · rw [List.mem_singleton] at hl
        subst hl
        exfalso
        apply hk
        have h5 : i = 1 ∨ i = 2 ∨ i = 3 ∨ i = 4 ∨ i = 5 := by omega
        rcases h5 with h | h | h | h | h <;> simp [h]

/-- C13. `loadAddressesAndKeys` rejects the file with the header-format error and adds nothing to
the table whenever the header row does not have exactly 7 columns, or column 0 does not contain
`Private Key`, or column 1 does not contain `P2PKH`; when all three conditions hold the header is
accepted and the outcome is that of reading and loading the records. -/
theorem loadAddressesAndKeys_header (ourAddresses : GoMap String) (header : List String)
    (records : Except String (List (List String))) :
    ((header.length ≠ 7 ∨ stringsContains (header.getD 0 "") "Private Key" = false ∨
          stringsContains (header.getD 1 "") "P2PKH" = false) →
        loadAddressesAndKeys ourAddresses (Except.ok ⟨Except.ok header, records⟩) =
          (ourAddresses, Except.error (LoadError.headerFormat header))) ∧
      ((header.length = 7 ∧ stringsContains (header.getD 0 "") "Private Key" = true ∧
          stringsContains (header.getD 1 "") "P2PKH" = true) →
        loadAddressesAndKeys ourAddresses (Except.ok ⟨Except.ok header, records⟩) =
          match ReadAll 7 records with
          | Except.error err => (ourAddresses, Except.error (LoadError.readRecords err))
          | Except.ok rs => (rs.foldl addRecord ourAddresses, Except.ok ())) := by
  constructor
  · intro h
    simp only [loadAddressesAndKeys]
    rw [if_pos]
    rcases h with h | h | h
    · rw [decide_eq_true h]; rfl
    · rw [h]; cases decide (header.length ≠ 7) <;> rfl
    · rw [h]
      cases decide (header.length ≠ 7) <;>
        cases stringsContains (header.getD 0 "") "Private Key" <;> rfl
  · rintro ⟨h7, h0, h1⟩
    simp only [loadAddressesAndKeys]
    rw [if_neg, h7]
    rw [h0, h1, decide_eq_false (not_not.2 h7)]
    decide

/-- C13, at the header of the generator (accepted) and at a header of six columns
(rejected). -/
theorem loadAddressesAndKeys_header_witness :
    (generatorHeader.length = 7 ∧ stringsContains (generatorHeader.getD 0 "") "Private Key" = true ∧
        stringsContains (generatorHeader.getD 1 "") "P2PKH" = true) ∧
      loadAddressesAndKeys [] (Except.ok ⟨Except.ok generatorHeader, Except.ok []⟩) =
        ([], Except.ok ()) ∧
      loadAddressesAndKeys [] (Except.ok ⟨Except.ok generatorHeader.dropLast, Except.ok []⟩) =
        ([], Except.error (LoadError.headerFormat generatorHeader.dropLast)) :=
  have h : generatorHeader.length = 7 ∧
      stringsContains (generatorHeader.getD 0 "") "Private Key" = true ∧
      stringsContains (generatorHeader.getD 1 "") "P2PKH" = true := by decide
  ⟨h, (loadAddressesAndKeys_header [] generatorHeader (Except.ok [])).2 h,
    (loadAddressesAndKeys_header [] generatorHeader.dropLast (Except.ok [])).1
      (Or.inl (by decide))⟩

theorem exampleRows_eq :
    exampleRows =
      [["ab", "1\x04ab", "1\x02ab", "3\x00\x14\x02ab", "bc1q\x02ab", "bc1pab", "ab"],
        ["c", "1\x04c", "1\x02c", "3\x00\x14\x02c", "bc1q\x02c", "bc1pc", "c"]] := by
  decide

theorem exampleRows_first :
    deriveAddressesFromPrivateKey exampleLibrary "ab" Net.mainnet =
      Except.ok ["ab", "1\x04ab", "1\x02ab", "3\x00\x14\x02ab", "bc1q\x02ab", "bc1pab", "ab"] := by
  rfl

theorem exampleRows_second :
    deriveAddressesFromPrivateKey exampleLibrary "c" Net.mainnet =
      Except.ok ["c", "1\x04c", "1\x02c", "3\x00\x14\x02c", "bc1q\x02c", "bc1pc", "c"] := by
  rfl

theorem deriveAddressesFromPrivateKey_length (lib : AddressLibrary) (password : String)
    (net : Net) (row : List String)
    (h : deriveAddressesFromPrivateKey lib password net = Except.ok row) :
    row.length = 7 ∧ row.getD 6 "" = password := by
  unfold deriveAddressesFromPrivateKey at h
  simp only at h
  split at h
  · exact absurd h (by simp)
  split at h
  · exact absurd h (by simp)
  split at h
  · exact absurd h (by simp)
  split at h
  · exact absurd h (by simp)
  split at h
  · exact absurd h (by simp)
  split at h
  · exact absurd h (by simp)
  simp only [Except.ok.injEq] at h
  subst h
  exact ⟨rfl, rfl⟩

/-- C14. Round trip between the generator and the loader: when the file holds the generator's
header and a batch of rows that `deriveAddressesFromPrivateKey` returned (in any order), and no
address string of the batch belongs to two different private keys, `loadAddressesAndKeys`
accepts the file and the table it leaves maps each of the five address strings of every row
(columns 1 to 5) to the hex private key of that row (column 0). -/
theorem loadAddressesAndKeys_round_trip (lib : AddressLibrary) (net : Net)
    (ourAddresses : GoMap String) (rows : List (List String))
    (hrows : ∀ row ∈ rows, ∃ password,
      deriveAddressesFromPrivateKey lib password net = Except.ok row)
    (hkeys : AddressesDetermineKey rows) :
    ∃ table,
      loadAddressesAndKeys ourAddresses (Except.ok ⟨Except.ok generatorHeader, Except.ok rows⟩) =
          (table, Except.ok ()) ∧
        ∀ row ∈ rows, ∀ i : ℕ, 1 ≤ i → i ≤ 5 →
          table.get (row.getD i "") = some (row.getD 0 "") := by
  have hlen : ∀ row ∈ rows, row.length = 7 := fun row hrow => by
    obtain ⟨password, hp⟩ := hrows row hrow
    exact (deriveAddressesFromPrivateKey_length lib password net row hp).1
  have hall : (rows.all fun record => record.length == 7) = true := by
    rw [List.all_eq_true]
    intro row hrow
    rw [hlen row hrow]
    rfl
  refine ⟨rows.foldl addRecord ourAddresses, ?_, ?_⟩
  · have hheader : (generatorHeader.length ≠ 7 ||
        !stringsContains (generatorHeader.getD 0 "") "Private Key" ||
        !stringsContains (generatorHeader.getD 1 "") "P2PKH") = false := by decide
    have h7 : generatorHeader.length = 7 := rfl
    simp only [loadAddressesAndKeys]
    rw [hheader, h7]
    simp only [ReadAll, hall, if_true, Bool.false_eq_true, if_false]
  · exact get_foldl_addRecord ourAddresses rows
      (fun row hrow => by rw [hlen row hrow]; omega) hkeys

/-- C14, at the two rows of the example library. -/
theorem loadAddressesAndKeys_round_trip_witness :
    (∀ row ∈ exampleRows, ∃ password,
        deriveAddressesFromPrivateKey exampleLibrary password Net.mainnet = Except.ok row) ∧
      AddressesDetermineKey exampleRows ∧
      ∃ table,
        loadAddressesAndKeys [] (Except.ok ⟨Except.ok generatorHeader, Except.ok exampleRows⟩) =
            (table, Except.ok ()) ∧
          ∀ row ∈ exampleRows, ∀ i : ℕ, 1 ≤ i → i ≤ 5 →
            table.get (row.getD i "") = some (row.getD 0 "") :=
  have hrows : ∀ row ∈ exampleRows, ∃ password,
      deriveAddressesFromPrivateKey exampleLibrary password Net.mainnet = Except.ok row := by
    rw [exampleRows_eq]
    intro row hrow
    simp only [List.mem_cons, List.mem_singleton, List.not_mem_nil, or_false] at hrow
    rcases hrow with rfl | rfl
    · exact ⟨"ab", by rw [← exampleRows_first]⟩
    · exact ⟨"c", by rw [← exampleRows_second]⟩
  have hkeys : AddressesDetermineKey exampleRows := by
    rw [exampleRows_eq]
    intro row hrow other hother i j hi1 hi5 hj1 hj5
    simp only [List.mem_cons, List.mem_singleton, List.not_mem_nil, or_false] at hrow hother
    have hi : i = 1 ∨ i = 2 ∨ i = 3 ∨ i = 4 ∨ i = 5 := by omega
    have hj : j = 1 ∨ j = 2 ∨ j = 3 ∨ j = 4 ∨ j = 5 := by omega
    rcases hrow with rfl | rfl <;> rcases hother with rfl | rfl <;>
      rcases hi with rfl | rfl | rfl | rfl | rfl <;>
      rcases hj with rfl | rfl | rfl | rfl | rfl <;> decide
  ⟨hrows, hkeys,
    loadAddressesAndKeys_round_trip exampleLibrary Net.mainnet [] exampleRows hrows hkeys⟩

/-! ## Bounds of binary64 roundings by values of few bits -/

theorem roundHalfEven_ge_of_le (M : ℤ) (z : ℚ) (h : (M : ℚ) ≤ z) : M ≤ roundHalfEven z := by
  have hf : M ≤ ⌊z⌋ := Int.le_floor.2 h
  unfold roundHalfEven
  simp only
  split_ifs <;> omega

theorem roundHalfEven_le_of_le (M : ℤ) (z : ℚ) (h : z ≤ (M : ℚ)) : roundHalfEven z ≤ M := by
  have hfl : (⌊z⌋ : ℚ) ≤ z := Int.floor_le z
  unfold roundHalfEven
  simp only
  by_cases hz : z = (⌊z⌋ : ℚ)
  · have h1 : ⌊z⌋ ≤ M := by
      have : ((⌊z⌋ : ℤ) : ℚ) ≤ M := hz ▸ h
      exact_mod_cast this
    have h2 : z - (⌊z⌋ : ℚ) < 1 / 2 := by
      rw [← hz, sub_self]
      norm_num
    rw [if_pos h2]
    exact h1
  · have hlt : (⌊z⌋ : ℚ) < (M : ℚ) := lt_of_lt_of_le (lt_of_le_of_ne hfl (Ne.symm hz)) h
    have h1 : ⌊z⌋ < M := by exact_mod_cast hlt
    split_ifs <;> omega

/-- The quantum of a value below `2 ^ (53 - j)` is at most `2 ^ (-j)`. -/
theorem f64quantum_of_lt (q : ℚ) (j : ℕ) (hq : q ≠ 0) (habs : |q| < 2 ^ ((53 : ℤ) - j))
    (hj : j ≤ 1074) : ∃ k : ℕ, f64quantum q = -((j : ℤ) + k) := by
  have hlog : Int.log 2 |q| < 53 - j :=
    (Int.lt_zpow_iff_log_lt (by norm_num) (abs_pos.2 hq)).1 (by exact_mod_cast habs)
  have he : f64quantum q ≤ -j := by
    unfold f64quantum
    apply max_le <;> omega
  exact ⟨(-(f64quantum q) - j).toNat, by omega⟩

/-- Rounding does not cross a value `m / 2 ^ j` from above. -/
theorem f64round_ge_of_le (m : ℤ) (j : ℕ) (q : ℚ) (hj : j ≤ 1074)
    (habs : |q| < 2 ^ ((53 : ℤ) - j)) (h : (m : ℚ) / 2 ^ j ≤ q) :
    (m : ℚ) / 2 ^ j ≤ f64round q := by
  by_cases hq : q = 0
  · subst hq
    simpa [f64round] using h
  obtain ⟨k, hk⟩ := f64quantum_of_lt q j hq habs hj
  unfold f64round
  rw [if_neg hq, hk]
  have hpow : (2 : ℚ) ^ (-((j : ℤ) + k)) = 1 / (2 ^ j * 2 ^ k) := by
    rw [zpow_neg, zpow_add₀ (by norm_num), zpow_natCast, zpow_natCast, one_div]
  rw [hpow]
  have hpos : (0 : ℚ) < 2 ^ j * 2 ^ k := by positivity
  have hj' : (0 : ℚ) < 2 ^ j := by positivity
  have h1 : ((m * 2 ^ k : ℤ) : ℚ) ≤ q / (1 / (2 ^ j * 2 ^ k)) := by
    push_cast
    rw [div_le_iff₀ hj'] at h
    rw [div_div_eq_mul_div, div_one]
    nlinarith [pow_pos (by norm_num : (0 : ℚ) < 2) k]
  have h2 := roundHalfEven_ge_of_le _ _ h1
  have h3 : ((m * 2 ^ k : ℤ) : ℚ) ≤ (roundHalfEven (q / (1 / (2 ^ j * 2 ^ k))) : ℚ) := by
    exact_mod_cast h2
  rw [div_le_iff₀ hj']
  push_cast at h3
  have h4 : (m : ℚ) * 2 ^ k * (1 / (2 ^ j * 2 ^ k)) * 2 ^ j = m := by
    field_simp
    ring
  calc (m : ℚ) = (m : ℚ) * 2 ^ k * (1 / (2 ^ j * 2 ^ k)) * 2 ^ j := h4.symm
    _ ≤ (roundHalfEven (q / (1 / (2 ^ j * 2 ^ k))) : ℚ) * (1 / (2 ^ j * 2 ^ k)) * 2 ^ j := by
      apply mul_le_mul_of_nonneg_right _ hj'.le
      exact mul_le_mul_of_nonneg_right h3 (by positivity)

/-- Rounding does not cross a value `m / 2 ^ j` from below. -/
theorem f64round_le_of_le (m : ℤ) (j : ℕ) (q : ℚ) (hj : j ≤ 1074)
    (habs : |q| < 2 ^ ((53 : ℤ) - j)) (h : q ≤ (m : ℚ) / 2 ^ j) :
    f64round q ≤ (m : ℚ) / 2 ^ j := by
  by_cases hq : q = 0
  · subst hq
    simpa [f64round] using h
  obtain ⟨k, hk⟩ := f64quantum_of_lt q j hq habs hj
  unfold f64round
  rw [if_neg hq, hk]
  have hpow : (2 : ℚ) ^ (-((j : ℤ) + k)) = 1 / (2 ^ j * 2 ^ k) := by
    rw [zpow_neg, zpow_add₀ (by norm_num), zpow_natCast, zpow_natCast, one_div]
  rw [hpow]
  have hpos : (0 : ℚ) < 2 ^ j * 2 ^ k := by positivity
  have hj' : (0 : ℚ) < 2 ^ j := by positivity
  have h1 : q / (1 / (2 ^ j * 2 ^ k)) ≤ ((m * 2 ^ k : ℤ) : ℚ) := by
    push_cast
    rw [le_div_iff₀ hj'] at h
    rw [div_div_eq_mul_div, div_one]
    nlinarith [pow_pos (by norm_num : (0 : ℚ) < 2) k]
  have h2 := roundHalfEven_le_of_le _ _ h1
  have h3 : (roundHalfEven (q / (1 / (2 ^ j * 2 ^ k))) : ℚ) ≤ ((m * 2 ^ k : ℤ) : ℚ) := by
    exact_mod_cast h2
  rw [le_div_iff₀ hj']
  push_cast at h3
  have h4 : (m : ℚ) * 2 ^ k * (1 / (2 ^ j * 2 ^ k)) * 2 ^ j = m := by
    field_simp
    ring
  calc (roundHalfEven (q / (1 / (2 ^ j * 2 ^ k))) : ℚ) * (1 / (2 ^ j * 2 ^ k)) * 2 ^ j
      ≤ (m : ℚ) * 2 ^ k * (1 / (2 ^ j * 2 ^ k)) * 2 ^ j := by
        apply mul_le_mul_of_nonneg_right _ hj'.le
        exact mul_le_mul_of_nonneg_right h3 (by positivity)
    _ = m := h4

/-- A rational with at most 53 significant bits is its own binary64 value. -/
theorem f64round_dyadic (m : ℤ) (j : ℕ) (hm : |m| < 2 ^ 53) (hj : j ≤ 1074) :
    f64round ((m : ℚ) / 2 ^ j) = (m : ℚ) / 2 ^ j := by
  have habs : |(m : ℚ) / 2 ^ j| < 2 ^ ((53 : ℤ) - j) := by
    rw [abs_div, abs_of_pos (by positivity : (0 : ℚ) < 2 ^ j), zpow_sub₀ (by norm_num),
      div_lt_div_iff₀ (by positivity) (by positivity)]
    have h1 : |(m : ℚ)| < 2 ^ 53 := by exact_mod_cast hm
    have h2 : (2 : ℚ) ^ (j : ℤ) = 2 ^ j := zpow_natCast 2 j
    rw [h2]
    have h3 : (2 : ℚ) ^ (53 : ℤ) = 2 ^ 53 := by norm_num
    rw [h3]
    exact mul_lt_mul_of_pos_right h1 (by positivity)
  exact le_antisymm (f64round_le_of_le m j _ hj habs le_rfl) (f64round_ge_of_le m j _ hj habs le_rfl)

/-- An integer below `2 ^ 53` in magnitude is its own binary64 value. -/
theorem f64round_intCast (m : ℤ) (hm : |m| < 2 ^ 53) : f64round (m : ℚ) = m := by
  have h := f64round_dyadic m 0 hm (by norm_num)
  simpa using h

/-- Rounding keeps a value between two integers below `2 ^ 52` in magnitude that enclose it;
the bounds may be half-integers. -/
theorem f64round_between (a b : ℤ) (q : ℚ) (ha : 0 ≤ a) (hb : b ≤ 2 ^ 52)
    (h1 : (a : ℚ) / 2 ≤ q) (h2 : q ≤ (b : ℚ) / 2) :
    (a : ℚ) / 2 ≤ f64round q ∧ f64round q ≤ (b : ℚ) / 2 := by
  have hq0 : 0 ≤ q := le_trans (by positivity) h1
  have hbq : (b : ℚ) ≤ 2 ^ 52 := by exact_mod_cast hb
  have habs : |q| < 2 ^ ((53 : ℤ) - (1 : ℕ)) := by
    rw [abs_of_nonneg hq0]
    have : (2 : ℚ) ^ ((53 : ℤ) - (1 : ℕ)) = 2 ^ 52 := by norm_num
    rw [this]
    linarith
  have h3 := f64round_ge_of_le a 1 q (by norm_num) habs (by simpa using h1)
  have h4 := f64round_le_of_le b 1 q (by norm_num) habs (by simpa using h2)
  exact ⟨by simpa using h3, by simpa using h4⟩

/-- The satoshis of an amount whose product with `1e8` lies between the integers `lo ≥ 1` and
`hi ≤ 2 ^ 50`: `NewAmount` stays between them. -/
theorem NewAmount_between (p : Platform) (f : ℚ) (lo hi : ℤ) (hlo : 1 ≤ lo) (hhi : hi ≤ 2 ^ 50)
    (h1 : (lo : ℚ) ≤ f * 100000000) (h2 : f * 100000000 ≤ hi) :
    lo ≤ NewAmount p f ∧ NewAmount p f ≤ hi := by
  have hloq : (1 : ℚ) ≤ lo := by exact_mod_cast hlo
  have hhiq : (hi : ℚ) ≤ 2 ^ 50 := by exact_mod_cast hhi
  have hx1 := f64round_between (2 * lo) (2 * hi) (f * 100000000) (by omega) (by omega)
    (by push_cast; linarith) (by push_cast; linarith)
  push_cast at hx1
  have hx1a : (lo : ℚ) ≤ f64round (f * 100000000) := by linarith [hx1.1]
  have hx1b : f64round (f * 100000000) ≤ hi := by linarith [hx1.2]
  have hneg : ¬ f64round (f * 100000000) < 0 := by linarith
  have hx2 : ∃ x : ℚ, f64mulAdd p (some f) (some 100000000) (some (1 / 2)) = some x ∧
      (lo : ℚ) + 1 / 2 ≤ x ∧ x ≤ hi + 1 / 2 := by
    cases hp : p.fusedMulAdd
    · refine ⟨f64round (f64round (f * 100000000) + 1 / 2), ?_, ?_⟩
      · simp [f64mulAdd, hp, f64add, f64mul]
      · have h := f64round_between (2 * lo + 1) (2 * hi + 1) (f64round (f * 100000000) + 1 / 2)
          (by omega) (by omega) (by push_cast; linarith) (by push_cast; linarith)
        push_cast at h
        constructor <;> linarith [h.1, h.2]
    · refine ⟨f64round (f * 100000000 + 1 / 2), ?_, ?_⟩
      · simp [f64mulAdd, hp, f64fma]
      · have h := f64round_between (2 * lo + 1) (2 * hi + 1) (f * 100000000 + 1 / 2)
          (by omega) (by omega) (by push_cast; linarith) (by push_cast; linarith)
        push_cast at h
        constructor <;> linarith [h.1, h.2]
  obtain ⟨x, hx, hxa, hxb⟩ := hx2
  unfold NewAmount
  rw [if_neg hneg, hx, float64ToInt64_floor p (by linarith) (by norm_num at hhiq ⊢; linarith)]
  constructor
  · exact Int.le_floor.2 (by linarith)
  · have : ⌊x⌋ < hi + 1 := Int.floor_lt.2 (by push_cast; linarith)
    omega

/-- The satoshis of an amount whose product with `1e8` is within a quarter of the integer
`n`. -/
theorem NewAmount_eq_of_near (p : Platform) (f : ℚ) (n : ℤ) (hn : 1 ≤ n) (hhi : n < 2 ^ 50)
    (h1 : (n : ℚ) - 1 / 4 ≤ f * 100000000) (h2 : f * 100000000 ≤ n + 1 / 4) :
    NewAmount p f = n := by
  have hnq : (1 : ℚ) ≤ n := by exact_mod_cast hn
  have hhiq : (n : ℚ) ≤ 2 ^ 50 := by exact_mod_cast hhi.le
  have habs : ∀ q : ℚ, 0 ≤ q → q ≤ (n : ℚ) + 1 → |q| < 2 ^ ((53 : ℤ) - (2 : ℕ)) := by
    intro q hq0 hq
    rw [abs_of_nonneg hq0]
    have : (2 : ℚ) ^ ((53 : ℤ) - (2 : ℕ)) = 2 ^ 51 := by norm_num
    rw [this]
    norm_num at hhiq ⊢
    linarith
  have between : ∀ (a b : ℤ) (q : ℚ), 0 ≤ q → q ≤ (n : ℚ) + 1 → (a : ℚ) / 4 ≤ q →
      q ≤ (b : ℚ) / 4 → (a : ℚ) / 4 ≤ f64round q ∧ f64round q ≤ (b : ℚ) / 4 := by
    intro a b q hq0 hq ha hb
    have h3 := f64round_ge_of_le a 2 q (by norm_num) (habs q hq0 hq) (by norm_num; linarith)
    have h4 := f64round_le_of_le b 2 q (by norm_num) (habs q hq0 hq) (by norm_num; linarith)
    norm_num at h3 h4
    constructor <;> linarith
  have hx1 := between (4 * n - 1) (4 * n + 1) (f * 100000000) (by linarith) (by linarith)
    (by push_cast; linarith) (by push_cast; linarith)
  push_cast at hx1
  have hneg : ¬ f64round (f * 100000000) < 0 := by linarith [hx1.1]
  have hx2 : ∃ x : ℚ, f64mulAdd p (some f) (some 100000000) (some (1 / 2)) = some x ∧
      (n : ℚ) + 1 / 4 ≤ x ∧ x ≤ n + 3 / 4 := by
    cases hp : p.fusedMulAdd
    · refine ⟨f64round (f64round (f * 100000000) + 1 / 2), ?_, ?_⟩
      · simp [f64mulAdd, hp, f64add, f64mul]
      · have h := between (4 * n + 1) (4 * n + 3) (f64round (f * 100000000) + 1 / 2)
          (by linarith [hx1.1]) (by linarith [hx1.2]) (by push_cast; linarith [hx1.1])
          (by push_cast; linarith [hx1.2])
        push_cast at h
        constructor <;> linarith [h.1, h.2]
    · refine ⟨f64round (f * 100000000 + 1 / 2), ?_, ?_⟩
      · simp [f64mulAdd, hp, f64fma]
      · have h := between (4 * n + 1) (4 * n + 3) (f * 100000000 + 1 / 2)
          (by linarith) (by linarith) (by push_cast; linarith) (by push_cast; linarith)
        push_cast at h
        constructor <;> linarith [h.1, h.2]
  obtain ⟨x, hx, hxa, hxb⟩ := hx2
  unfold NewAmount
  rw [if_neg hneg, hx, float64ToInt64_floor p (by linarith) (by norm_num at hhiq ⊢; linarith)]
  rw [Int.floor_eq_iff]
  constructor <;> linarith

theorem NewAmount_half : NewAmount x86_64 (f64round (1 / 2)) = 50000000 := by
  rw [f64round_half]
  exact NewAmount_eq_of_near x86_64 _ 50000000 (by norm_num) (by norm_num) (by norm_num)
    (by norm_num)

theorem NewAmount_tenThousandth : NewAmount x86_64 (f64round (1 / 10000)) = 10000 := by
  rw [f64round_tenThousandth]
  exact NewAmount_eq_of_near x86_64 _ 10000 (by norm_num) (by norm_num) (by norm_num)
    (by norm_num)

theorem NewAmount_one : NewAmount x86_64 1 = 100000000 :=
  NewAmount_eq_of_near x86_64 _ 100000000 (by norm_num) (by norm_num) (by norm_num)
    (by norm_num)

theorem NewAmount_two : NewAmount x86_64 2 = 200000000 :=
  NewAmount_eq_of_near x86_64 _ 200000000 (by norm_num) (by norm_num) (by norm_num)
    (by norm_num)

/-- A usable funding output is worth at least 1000 satoshis and less than `2 ^ 37`. -/
theorem NewAmount_usable (p : Platform) (unspent : ListUnspentResult)
    (h : usable unspent = true) :
    1000 ≤ NewAmount p unspent.Amount ∧ NewAmount p unspent.Amount ≤ 2 ^ 37 := by
  simp only [usable, Bool.and_eq_true, decide_eq_true_eq] at h
  obtain ⟨⟨-, hhi⟩, hlo⟩ := h
  rw [highestValueUtxo_eq] at hhi
  rw [lowestValueUtxo_eq] at hlo
  refine NewAmount_between p _ 1000 (2 ^ 37) (by norm_num) (by norm_num) ?_ ?_
  · have : (5902958103587057 : ℚ) / 590295810358705651712 * 100000000 ≥ 1000 := by norm_num
    push_cast
    nlinarith
  · push_cast
    have : (4398926120406221 : ℚ) / 8796093022208 * 100000000 ≤ 2 ^ 37 := by norm_num
    nlinarith

/-! ## tx.go: the claims -/

theorem onlyInputWritten_refl (tx : MsgTx) (idx : ℕ) : onlyInputWritten tx idx tx :=
  ⟨rfl, rfl, rfl, rfl, fun _ _ => rfl, fun a h => ⟨a, h, rfl, rfl⟩⟩

theorem framed_failure (tx : MsgTx) (idx : ℕ) (failure : Failure) :
    Framed tx idx (tx, Except.error failure) :=
  ⟨onlyInputWritten_refl tx idx, fun _ => rfl⟩

theorem writeTxIn_framed (tx : MsgTx) (idx : ℕ) (write : TxIn → TxIn)
    (hw : ∀ a, (write a).PreviousOutPoint = a.PreviousOutPoint ∧ (write a).Sequence = a.Sequence) :
    Framed tx idx (writeTxIn tx idx write) := by
  unfold writeTxIn
  cases h : tx.TxIn[idx]? with
  | none => exact framed_failure tx idx _
  | some txIn =>
    refine ⟨⟨rfl, rfl, rfl, by simp, ?_, ?_⟩, fun hne => absurd rfl hne⟩
    · intro i hi
      simp only
      rw [List.getElem?_set_ne (Ne.symm hi)]
    · intro a ha
      rw [h] at ha
      cases ha
      refine ⟨write txIn, ?_, (hw txIn).1, (hw txIn).2⟩
      simp only
      have hlt : idx < tx.TxIn.length := by
        by_contra hge
        rw [List.getElem?_eq_none (by omega)] at h
        cases h
      rw [List.getElem?_set_self hlt]

theorem signPubKeyHash_framed (lib : SignerLibrary) (tx : MsgTx) (idx : ℕ)
    (scriptBytes pk : List UInt8) (compress : Bool) :
    Framed tx idx (signPubKeyHash lib tx idx scriptBytes pk compress) := by
  unfold signPubKeyHash
  split
  · exact framed_failure tx idx _
  · exact writeTxIn_framed tx idx _ (fun _ => ⟨rfl, rfl⟩)

theorem SignInput_framed (lib : SignerLibrary) (client : Client) (p : Platform) (tx : MsgTx)
    (idx : ℕ) (privateKey : String) (trackedUtxo : TrackedUTXO) :
    Framed tx idx (SignInput lib client p tx idx privateKey trackedUtxo) := by
  unfold SignInput
  simp only []
  repeat' split
  all_goals
    first
    | exact framed_failure tx idx _
    | exact writeTxIn_framed tx idx _ (fun _ => ⟨rfl, rfl⟩)
    | exact signPubKeyHash_framed lib tx idx _ _ _


/-- C18. For every transaction `tx`, index `idx` and tracked output, `SignInput` writes at most
the signature script and the witness of `tx.TxIn[idx]`: the version, the lock time, every output
and every other input of `tx` are unchanged, and the written input keeps its outpoint and its
sequence number. Unless `SignInput` returns nil, `tx` is entirely unchanged; and it returns an
error when the script hex or the key hex does not decode, when a P2PKH hash matches neither
public-key hash, and when the script class is none of P2PKH, P2SH, P2WPKH and P2TR (the
"unsupported script type"). -/
theorem SignInput_writes_only_input (lib : SignerLibrary) (client : Client) (p : Platform)
    (tx : MsgTx) (idx : ℕ) (privateKey : String) (trackedUtxo : TrackedUTXO) :
    onlyInputWritten tx idx (SignInput lib client p tx idx privateKey trackedUtxo).1 ∧
      ((SignInput lib client p tx idx privateKey trackedUtxo).2 ≠ Except.ok () →
        (SignInput lib client p tx idx privateKey trackedUtxo).1 = tx) ∧
      (hexDecodes trackedUtxo.Script.Hex = false →
        (SignInput lib client p tx idx privateKey trackedUtxo).2 =
          Except.error (Failure.error
            ("error decoding script hex: " ++ lib.hexErrorText trackedUtxo.Script.Hex))) ∧
      (hexDecodes trackedUtxo.Script.Hex = true → hexDecodes privateKey = false →
        (SignInput lib client p tx idx privateKey trackedUtxo).2 =
          Except.error (Failure.error
            ("error decoding private key: " ++ lib.hexErrorText privateKey))) ∧
      (hexDecodes trackedUtxo.Script.Hex = true → hexDecodes privateKey = true →
        (∃ txHash, lib.NewHashFromStr trackedUtxo.TxID = Except.ok txHash) →
        signable (lib.GetScriptClass (decodeHexPairs trackedUtxo.Script.Hex.toList)) = false →
        (SignInput lib client p tx idx privateKey trackedUtxo).2 =
          Except.error (Failure.error ("unsupported script type: " ++
            lib.scriptClassName
              (lib.GetScriptClass (decodeHexPairs trackedUtxo.Script.Hex.toList))))) ∧
      (hexDecodes trackedUtxo.Script.Hex = true → hexDecodes privateKey = true →
        (∃ txHash, lib.NewHashFromStr trackedUtxo.TxID = Except.ok txHash) →
        lib.GetScriptClass (decodeHexPairs trackedUtxo.Script.Hex.toList) =
          ScriptClass.PubKeyHashTy →
        ((decodeHexPairs trackedUtxo.Script.Hex.toList).drop 3).take 20 ≠
          lib.Hash160 (lib.SerializeCompressed (decodeHexPairs privateKey.toList)) →
        ((decodeHexPairs trackedUtxo.Script.Hex.toList).drop 3).take 20 ≠
          lib.Hash160 (lib.SerializeUncompressed (decodeHexPairs privateKey.toList)) →
        ∃ msg, (SignInput lib client p tx idx privateKey trackedUtxo).2 =
          Except.error (Failure.error msg)) := by
  refine ⟨(SignInput_framed lib client p tx idx privateKey trackedUtxo).1,
    (SignInput_framed lib client p tx idx privateKey trackedUtxo).2, ?_, ?_, ?_, ?_⟩
  · intro hs
    simp [SignInput, SignerLibrary.DecodeString, hs]
  · intro hs hk
    simp [SignInput, SignerLibrary.DecodeString, hs, hk]
  · rintro hs hk ⟨txHash, hh⟩ hc
    simp only [SignInput, SignerLibrary.DecodeString, hs, hk, hh, if_true]
    revert hc
    cases lib.GetScriptClass (decodeHexPairs trackedUtxo.Script.Hex.toList) <;>
      simp [signable]
  · rintro hs hk ⟨txHash, hh⟩ hc h1 h2
    simp only [SignInput, SignerLibrary.DecodeString, hs, hk, hh, hc, if_true]
    by_cases hl : (decodeHexPairs trackedUtxo.Script.Hex.toList).length ≠ 25
    · exact ⟨_, by rw [if_pos hl]⟩
    · exact ⟨_, by rw [if_neg hl, if_neg h1, if_neg h2]⟩

/-- C18, at the two-input transaction: the signer writes the witness of input 0 and returns
nil; input 1 and the output stay. -/
theorem SignInput_writes_only_input_witness :
    onlyInputWritten unsignedTx 0
        (SignInput exampleSigner acceptingClient x86_64 unsignedTx 0 weakKey contested).1 ∧
      (SignInput exampleSigner acceptingClient x86_64 unsignedTx 0 weakKey contested).2 =
        Except.ok () ∧
      (SignInput exampleSigner acceptingClient x86_64 unsignedTx 0 weakKey contested).1.TxIn[1]? =
        unsignedTx.TxIn[1]? ∧
      (SignInput exampleSigner acceptingClient x86_64 unsignedTx 0 weakKey contested).1 ≠
        unsignedTx :=
  ⟨(SignInput_writes_only_input exampleSigner acceptingClient x86_64 unsignedTx 0 weakKey
      contested).1, by rfl,
    (SignInput_writes_only_input exampleSigner acceptingClient x86_64 unsignedTx 0 weakKey
      contested).1.2.2.2.2.1 1 (by decide), by decide⟩

/-- C19. For a P2PKH previous output (script and key decode, the hash parses, the class is
`PubKeyHashTy`, 25 bytes), `SignInput` compares the bytes 3 to 22 of the script with the
`Hash160` of the compressed and of the uncompressed public key: if they equal the compressed hash
it signs with `compress = true`; otherwise, if they equal the uncompressed hash, it signs with
`compress = false`; and if they equal neither it returns an error and leaves `tx` as it is. -/
theorem SignInput_pubKeyHash (lib : SignerLibrary) (client : Client) (p : Platform) (tx : MsgTx)
    (idx : ℕ) (privateKey : String) (trackedUtxo : TrackedUTXO) (txHash : List UInt8)
    (hs : hexDecodes trackedUtxo.Script.Hex = true) (hk : hexDecodes privateKey = true)
    (hh : lib.NewHashFromStr trackedUtxo.TxID = Except.ok txHash)
    (hc : lib.GetScriptClass (decodeHexPairs trackedUtxo.Script.Hex.toList) =
      ScriptClass.PubKeyHashTy)
    (hl : (decodeHexPairs trackedUtxo.Script.Hex.toList).length = 25) :
    (((decodeHexPairs trackedUtxo.Script.Hex.toList).drop 3).take 20 =
          lib.Hash160 (lib.SerializeCompressed (decodeHexPairs privateKey.toList)) →
        SignInput lib client p tx idx privateKey trackedUtxo =
          signPubKeyHash lib tx idx (decodeHexPairs trackedUtxo.Script.Hex.toList)
            (decodeHexPairs privateKey.toList) true) ∧
      (((decodeHexPairs trackedUtxo.Script.Hex.toList).drop 3).take 20 ≠
          lib.Hash160 (lib.SerializeCompressed (decodeHexPairs privateKey.toList)) →
        ((decodeHexPairs trackedUtxo.Script.Hex.toList).drop 3).take 20 =
          lib.Hash160 (lib.SerializeUncompressed (decodeHexPairs privateKey.toList)) →
        SignInput lib client p tx idx privateKey trackedUtxo =
          signPubKeyHash lib tx idx (decodeHexPairs trackedUtxo.Script.Hex.toList)
            (decodeHexPairs privateKey.toList) false) ∧
      (((decodeHexPairs trackedUtxo.Script.Hex.toList).drop 3).take 20 ≠
          lib.Hash160 (lib.SerializeCompressed (decodeHexPairs privateKey.toList)) →
        ((decodeHexPairs trackedUtxo.Script.Hex.toList).drop 3).take 20 ≠
          lib.Hash160 (lib.SerializeUncompressed (decodeHexPairs privateKey.toList)) →
        SignInput lib client p tx idx privateKey trackedUtxo =
          (tx, Except.error (Failure.error
            "public key hash does not match either compressed or uncompressed key"))) := by
  have hl2 : ¬ (decodeHexPairs trackedUtxo.Script.Hex.toList).length ≠ 25 := not_not.2 hl
  refine ⟨fun h1 => ?_, fun h1 h2 => ?_, fun h1 h2 => ?_⟩
  · simp only [SignInput, SignerLibrary.DecodeString, hs, hk, hh, hc, if_true]
    rw [if_neg hl2, if_pos h1]
  · simp only [SignInput, SignerLibrary.DecodeString, hs, hk, hh, hc, if_true]
    rw [if_neg hl2, if_neg h1, if_pos h2]
  · simp only [SignInput, SignerLibrary.DecodeString, hs, hk, hh, hc, if_true]
    rw [if_neg hl2, if_neg h1, if_neg h2]

/-- C19, at the P2PKH output `ab:1` whose hash is that of the uncompressed key `0102`: the
signature script is made with `compress = false`. -/
theorem SignInput_pubKeyHash_witness :
    hexDecodes legacyContested.Script.Hex = true ∧ hexDecodes "0102" = true ∧
      exampleSigner.NewHashFromStr legacyContested.TxID = Except.ok [0xab] ∧
      SignInput exampleSigner acceptingClient x86_64 unsignedTx 0 "0102" legacyContested =
        signPubKeyHash exampleSigner unsignedTx 0
          (decodeHexPairs legacyContested.Script.Hex.toList) (decodeHexPairs "0102".toList)
          false ∧
      ((SignInput exampleSigner acceptingClient x86_64 unsignedTx 0 "0102"
        legacyContested).1.TxIn[0]?).map (fun txIn => txIn.SignatureScript) =
          some [0, 1, 2] :=
  ⟨by decide, by decide, by rfl,
    (SignInput_pubKeyHash exampleSigner acceptingClient x86_64 unsignedTx 0 "0102"
      legacyContested [0xab] (by decide) (by decide) (by rfl) (by decide) (by decide)).2.1
      (by decide) (by decide), by rfl⟩

/-! ## main.go: burning -/

/-- What signing leaves of the transaction `burnTx`: one input at the same outpoint, and the
one output. -/
theorem burnTx_signed (txHash : List UInt8) (n : ℕ) (destScript : List UInt8) (after : MsgTx)
    (h : onlyInputWritten (burnTx txHash n destScript) 0 after) :
    after.Version = 2 ∧ after.LockTime = 0 ∧ after.TxOut = [⟨0, destScript⟩] ∧
      ∃ txIn, after.TxIn = [txIn] ∧ txIn.PreviousOutPoint = ⟨txHash, n⟩ ∧
        txIn.Sequence = 4294967295 := by
  obtain ⟨hv, ho, hl, hn, -, hi⟩ := h
  refine ⟨hv, hl, ho, ?_⟩
  obtain ⟨b, hb, hp, hs⟩ := hi (NewTxIn ⟨txHash, n⟩) rfl
  refine ⟨b, ?_, hp, hs⟩
  have hlen : after.TxIn.length = 1 := hn
  match hafter : after.TxIn, hlen with
  | [x], _ =>
    rw [hafter] at hb
    simp only [List.getElem?_cons_zero, Option.some.injEq] at hb
    rw [hb]

/-- C17. `BurnTransaction` builds a transaction of version 2 with exactly one input, which
spends the contested outpoint `txid:vout`, and exactly one output, of value 0 at the `OP_RETURN`
script of the burn message: that is the transaction it hands to `SignInput`, and whatever it
broadcasts is that transaction with the input signed. If the hash parses, the script is built,
`SignInput` returns nil and the node accepts the broadcast, the function returns the new
transaction id and the monitored entry of the contested output is removed: the key `txid:vout`
is absent from the table afterwards and every other key keeps its entry. Whenever the function
fails (the hash does not parse, the script cannot be built, signing fails or the node rejects
the broadcast) the table is left unchanged. -/
theorem BurnTransaction_effects (lib : SignerLibrary) (client : Client) (p : Platform)
    (config : Config) (monitoredUtxos : GoMap TrackedUTXO) (trackedUtxo : TrackedUTXO)
    (privateKeyWIF : String) :
    (∀ tx ∈ broadcasts
        (BurnTransaction lib client p config monitoredUtxos trackedUtxo privateKeyWIF).2.1,
      ∃ txHash destScript txIn,
        lib.NewHashFromStr trackedUtxo.TxID = Except.ok txHash ∧
        lib.NullDataScript (bytesOfString config.BurnMessage) = Except.ok destScript ∧
        SignInput lib client p (burnTx txHash trackedUtxo.N destScript) 0 privateKeyWIF
          trackedUtxo = (tx, Except.ok ()) ∧
        (burnTx txHash trackedUtxo.N destScript).TxIn = [NewTxIn ⟨txHash, trackedUtxo.N⟩] ∧
        (burnTx txHash trackedUtxo.N destScript).TxOut = [⟨0, destScript⟩] ∧
        tx.Version = 2 ∧ tx.LockTime = 0 ∧ tx.TxOut = [⟨0, destScript⟩] ∧ tx.TxIn = [txIn] ∧
        txIn.PreviousOutPoint = ⟨txHash, trackedUtxo.N⟩) ∧
      (∀ txHash destScript signed newTxHash,
        lib.NewHashFromStr trackedUtxo.TxID = Except.ok txHash →
        lib.NullDataScript (bytesOfString config.BurnMessage) = Except.ok destScript →
        SignInput lib client p (burnTx txHash trackedUtxo.N destScript) 0 privateKeyWIF
          trackedUtxo = (signed, Except.ok ()) →
        client.SendRawTransaction signed = Except.ok newTxHash →
          (BurnTransaction lib client p config monitoredUtxos trackedUtxo privateKeyWIF).2.2 =
              Except.ok newTxHash ∧
            broadcasts (BurnTransaction lib client p config monitoredUtxos trackedUtxo
              privateKeyWIF).2.1 = [signed]) ∧
      (∀ newTxHash,
        (BurnTransaction lib client p config monitoredUtxos trackedUtxo privateKeyWIF).2.2 =
            Except.ok newTxHash →
          (BurnTransaction lib client p config monitoredUtxos trackedUtxo privateKeyWIF).1.get
              (outpointKey trackedUtxo.TxID trackedUtxo.N) = none ∧
            (∀ k, k ≠ outpointKey trackedUtxo.TxID trackedUtxo.N →
              (BurnTransaction lib client p config monitoredUtxos trackedUtxo
                privateKeyWIF).1.get k = monitoredUtxos.get k) ∧
            (BurnTransaction lib client p config monitoredUtxos trackedUtxo privateKeyWIF).1 =
              cleanup monitoredUtxos trackedUtxo ∧
            ∃ tx,
              broadcasts (BurnTransaction lib client p config monitoredUtxos trackedUtxo
                privateKeyWIF).2.1 = [tx] ∧
              client.SendRawTransaction tx = Except.ok newTxHash) ∧
      (∀ failure,
        (BurnTransaction lib client p config monitoredUtxos trackedUtxo privateKeyWIF).2.2 =
            Except.error failure →
          (BurnTransaction lib client p config monitoredUtxos trackedUtxo privateKeyWIF).1 =
            monitoredUtxos) ∧
      ((∀ txHash, lib.NewHashFromStr trackedUtxo.TxID ≠ Except.ok txHash) ∨
          (∀ destScript,
            lib.NullDataScript (bytesOfString config.BurnMessage) ≠ Except.ok destScript) ∨
          (∀ tx, (SignInput lib client p tx 0 privateKeyWIF trackedUtxo).2 ≠ Except.ok ()) ∨
          (∀ tx newTxHash, client.SendRawTransaction tx ≠ Except.ok newTxHash) →
        ∃ failure,
          (BurnTransaction lib client p config monitoredUtxos trackedUtxo privateKeyWIF).2.2 =
            Except.error failure) := by
  have habsent : (cleanup monitoredUtxos trackedUtxo).get
      (outpointKey trackedUtxo.TxID trackedUtxo.N) = none :=
    GoMap.get_delete_self monitoredUtxos _
  have hothers : ∀ k, k ≠ outpointKey trackedUtxo.TxID trackedUtxo.N →
      (cleanup monitoredUtxos trackedUtxo).get k = monitoredUtxos.get k :=
    fun k hk => GoMap.get_delete_of_ne monitoredUtxos _ k hk
  cases hh : lib.NewHashFromStr trackedUtxo.TxID with
  | error err =>
    have heq : BurnTransaction lib client p config monitoredUtxos trackedUtxo privateKeyWIF =
        (monitoredUtxos, [],
          Except.error (Failure.error ("error parsing transaction hash: " ++ err))) := by
      simp only [BurnTransaction, hh]
    rw [heq]
    refine ⟨?_, ?_, ?_, ?_, ?_⟩
    · intro tx htx
      simp [broadcasts] at htx
    · intro txHash2 destScript2 signed2 newTxHash h1
      cases h1
    · intro newTxHash h
      cases h
    · intro failure _
      rfl
    · intro _
      exact ⟨_, rfl⟩
  | ok txHash =>
    cases hd : lib.NullDataScript (bytesOfString config.BurnMessage) with
    | error err =>
      have heq : BurnTransaction lib client p config monitoredUtxos trackedUtxo privateKeyWIF =
          (monitoredUtxos, [],
            Except.error (Failure.error ("error creating destination script: " ++ err))) := by
        simp only [BurnTransaction, hh, hd]
      rw [heq]
      refine ⟨?_, ?_, ?_, ?_, ?_⟩
      · intro tx htx
        simp [broadcasts] at htx
      · intro txHash2 destScript2 signed2 newTxHash _ h2
        cases h2
      · intro newTxHash h
        cases h
      · intro failure _
        rfl
      · intro _
        exact ⟨_, rfl⟩
    | ok destScript =>
      have hframe := SignInput_framed lib client p (burnTx txHash trackedUtxo.N destScript) 0
        privateKeyWIF trackedUtxo
      rcases hsign : SignInput lib client p (burnTx txHash trackedUtxo.N destScript) 0
        privateKeyWIF trackedUtxo with ⟨signed, failure | _⟩
      · have hno : ∀ (txHash2 destScript2 : List UInt8) (signed2 : MsgTx) (newTxHash : String),
            Except.ok txHash = (Except.ok txHash2 : Except String (List UInt8)) →
            Except.ok destScript = (Except.ok destScript2 : Except String (List UInt8)) →
            SignInput lib client p (burnTx txHash2 trackedUtxo.N destScript2) 0 privateKeyWIF
              trackedUtxo = (signed2, Except.ok ()) →
            ¬ client.SendRawTransaction signed2 = Except.ok newTxHash := by
          intro txHash2 destScript2 signed2 newTxHash h1 h2 h3
          cases h1
          cases h2
          rw [hsign] at h3
          cases h3
        cases failure with
        | error err =>
          have heq : BurnTransaction lib client p config monitoredUtxos trackedUtxo
              privateKeyWIF =
              (monitoredUtxos, [],
                Except.error (Failure.error ("error creating signature script: " ++ err))) := by
            simp only [BurnTransaction, hh, hd, hsign]
          rw [heq]
          refine ⟨?_, ?_, ?_, ?_, ?_⟩
          · intro tx htx
            simp [broadcasts] at htx
          · intro a b c d h1 h2 h3 h4
            exact absurd h4 (hno a b c d h1 h2 h3)
          · intro newTxHash h
            cases h
          · intro failure _
            rfl
          · intro _
            exact ⟨_, rfl⟩
        | panic msg =>
          have heq : BurnTransaction lib client p config monitoredUtxos trackedUtxo
              privateKeyWIF = (monitoredUtxos, [], Except.error (Failure.panic msg)) := by
            simp only [BurnTransaction, hh, hd, hsign]
          rw [heq]
          refine ⟨?_, ?_, ?_, ?_, ?_⟩
          · intro tx htx
            simp [broadcasts] at htx
          · intro a b c d h1 h2 h3 h4
            exact absurd h4 (hno a b c d h1 h2 h3)
          · intro newTxHash h
            cases h
          · intro failure _
            rfl
          · intro _
            exact ⟨_, rfl⟩
      · rw [hsign] at hframe
        obtain ⟨hv, hl, ho, txIn, hi, hp, -⟩ := burnTx_signed _ _ _ _ hframe.1
        cases hsend : client.SendRawTransaction signed with
        | error err =>
          have heq : BurnTransaction lib client p config monitoredUtxos trackedUtxo
              privateKeyWIF =
              (monitoredUtxos, [Step.callSendRawTransaction signed],
                Except.error (Failure.error ("error broadcasting transaction: " ++ err))) := by
            simp only [BurnTransaction, hh, hd, hsign, hsend]
          rw [heq]
          refine ⟨?_, ?_, ?_, ?_, ?_⟩
          rotate_left 2
          · intro newTxHash h
            cases h
          · intro failure _
            rfl
          · intro _
            exact ⟨_, rfl⟩
          · intro tx htx
            simp only [broadcasts, List.filterMap_cons, List.filterMap_nil,
              List.mem_singleton] at htx
            subst htx
            exact ⟨txHash, destScript, txIn, rfl, rfl, hsign, rfl, rfl, hv, hl, ho, hi, hp⟩
          · intro txHash2 destScript2 signed2 newTxHash h1 h2 h3 h4
            cases h1
            cases h2
            rw [hsign] at h3
            cases h3
            rw [hsend] at h4
            cases h4
        | ok newTxHash =>
          have heq : BurnTransaction lib client p config monitoredUtxos trackedUtxo
              privateKeyWIF =
              (cleanup monitoredUtxos trackedUtxo,
                [Step.callSendRawTransaction signed, Step.logBurned newTxHash],
                Except.ok newTxHash) := by
            simp only [BurnTransaction, hh, hd, hsign, hsend]
          rw [heq]
          refine ⟨?_, ?_, ?_, ?_, ?_⟩
          rotate_left 3
          · intro failure h
            cases h
          rotate_right 3
          · intro tx htx
            simp only [broadcasts, List.filterMap_cons, List.filterMap_nil,
              List.mem_singleton] at htx
            subst htx
            exact ⟨txHash, destScript, txIn, rfl, rfl, hsign, rfl, rfl, hv, hl, ho, hi, hp⟩
          · intro txHash2 destScript2 signed2 newTxHash2 h1 h2 h3 h4
            cases h1
            cases h2
            rw [hsign] at h3
            cases h3
            rw [hsend] at h4
            cases h4
            exact ⟨rfl, rfl⟩
          · intro newTxHash2 h
            cases h
            exact ⟨habsent, hothers, rfl, signed, rfl, hsend⟩
          · rintro (h | h | h | h)
            · exact absurd rfl (h txHash)
            · exact absurd rfl (h destScript)
            · exact absurd (by rw [hsign]) (h (burnTx txHash trackedUtxo.N destScript))
            · exact absurd hsend (h signed newTxHash)

/-- C17, at the contested output `aa:0`, monitored before the call, and a node that accepts
the broadcast: the hash parses, the script is built, the signer returns nil and the node
answers `5e7d`; the function returns `5e7d`, the table is empty afterwards and the key `aa:0`
is absent. -/
theorem BurnTransaction_effects_witness :
    battleState.monitoredUtxos.get (outpointKey contested.TxID contested.N) = some contested ∧
      (exampleSigner.NewHashFromStr contested.TxID = Except.ok [0xaa] ∧
        exampleSigner.NullDataScript (bytesOfString exampleEnv.config.BurnMessage) =
          Except.ok (0x6a :: 26 :: bytesOfString "github.com/wille/rbfbattle") ∧
        (SignInput exampleSigner acceptingClient x86_64
          (burnTx [0xaa] contested.N (0x6a :: 26 :: bytesOfString "github.com/wille/rbfbattle"))
          0 weakKey contested).2 = Except.ok ()) ∧
      ((BurnTransaction exampleSigner acceptingClient x86_64 exampleEnv.config
            battleState.monitoredUtxos contested weakKey).2.2 = Except.ok "5e7d" ∧
        broadcasts (BurnTransaction exampleSigner acceptingClient x86_64 exampleEnv.config
            battleState.monitoredUtxos contested weakKey).2.1 =
          [(SignInput exampleSigner acceptingClient x86_64
            (burnTx [0xaa] contested.N
              (0x6a :: 26 :: bytesOfString "github.com/wille/rbfbattle"))
            0 weakKey contested).1]) ∧
      (BurnTransaction exampleSigner acceptingClient x86_64 exampleEnv.config
          battleState.monitoredUtxos contested weakKey).1.get "aa:0" = none ∧
      (BurnTransaction exampleSigner acceptingClient x86_64 exampleEnv.config
          battleState.monitoredUtxos contested weakKey).1 = [] :=
  ⟨by decide, ⟨by rfl, by rfl, by rfl⟩,
    (BurnTransaction_effects exampleSigner acceptingClient x86_64 exampleEnv.config
      battleState.monitoredUtxos contested weakKey).2.1 [0xaa]
      (0x6a :: 26 :: bytesOfString "github.com/wille/rbfbattle") _ "5e7d" (by rfl) (by rfl)
      (by rfl) (by rfl),
    ((BurnTransaction_effects exampleSigner acceptingClient x86_64 exampleEnv.config
      battleState.monitoredUtxos contested weakKey).2.2.1 "5e7d" (by rfl)).1,
    by decide⟩

/-! ## main.go: how `TryReplacingAttacker` runs -/

theorem wrapInt64_of_range (x : ℤ) (h1 : -2 ^ 63 ≤ x) (h2 : x < 2 ^ 63) : wrapInt64 x = x := by
  unfold wrapInt64
  rw [Int.emod_eq_of_lt (by linarith) (by linarith)]
  ring

theorem wrapInt32_of_range (x : ℤ) (h1 : -2 ^ 31 ≤ x) (h2 : x < 2 ^ 31) : wrapInt32 x = x := by
  unfold wrapInt32
  rw [Int.emod_eq_of_lt (by linarith) (by linarith)]
  ring

/-- The run of `TryReplacingAttacker` up to the call of `newFee`, when the competitor's fee is
below the value of the contested output, a funding output is found and the size is estimated. -/
theorem TryReplacingAttacker_funded (lib : SignerLibrary) (client : Client) (env : Env)
    (st : State) (counterpart : TxRawResult) (utxo : TrackedUTXO) (privateKeyWIF : String)
    (mempool : MempoolEntry) (slot : Option ListUnspentResult) (unspent : ListUnspentResult)
    (estimatedTxSize : ℤ)
    (hm : client.GetMempoolEntry counterpart.Txid = Except.ok mempool)
    (hlt : NewAmount env.platform mempool.Descendant < utxo.Amount)
    (hsel : selectUnspentUtxo env.sort st.unspentUtxo (env.listUnspent 0) =
      (slot, Except.ok unspent))
    (hest : estimateTransactionSize lib env.config
      (wrapInt64 (utxo.Amount + NewAmount env.platform unspent.Amount))
      [utxo.Script.Hex, unspent.ScriptPubKey] = Except.ok estimatedTxSize) :
    TryReplacingAttacker lib client env st counterpart utxo privateKeyWIF =
      ((replaceOrBurn lib client env ⟨st.monitoredUtxos, slot⟩ counterpart utxo privateKeyWIF
          (NewAmount env.platform mempool.Descendant) mempool.VSize unspent estimatedTxSize).1,
        Step.logSpending (NewAmount env.platform mempool.Descendant) mempool.VSize ::
          (replaceOrBurn lib client env ⟨st.monitoredUtxos, slot⟩ counterpart utxo privateKeyWIF
            (NewAmount env.platform mempool.Descendant) mempool.VSize unspent
            estimatedTxSize).2) := by
  unfold TryReplacingAttacker
  simp only [hm]
  rw [if_neg (by omega), if_neg (by omega)]
  simp only [hsel, hest]

/-- The run of `replaceOrBurn` when the fee is below the value and the output is not dust: the
replacement is built and broadcast. -/
theorem replaceOrBurn_replace (lib : SignerLibrary) (client : Client) (env : Env) (st : State)
    (counterpart : TxRawResult) (utxo : TrackedUTXO) (privateKeyWIF : String)
    (counterFee vsize : ℤ) (unspent : ListUnspentResult) (estimatedTxSize fee out : ℤ)
    (htx : 6 ≤ counterpart.Txid.utf8ByteSize)
    (hfee : newFee env.platform counterFee vsize (wrapInt32 estimatedTxSize) utxo = (fee, false))
    (hout : wrapInt64 (wrapInt64 (utxo.Amount - fee) + NewAmount env.platform unspent.Amount) =
      out)
    (h547 : 547 ≤ out) :
    replaceOrBurn lib client env st counterpart utxo privateKeyWIF counterFee vsize unspent
        estimatedTxSize =
      match (ReplaceTransaction lib client env.platform env.config out unspent utxo
          privateKeyWIF).2 with
      | Except.ok newTxID =>
        (st, Step.logTrying fee out :: Step.callReplaceTransaction out unspent ::
          (ReplaceTransaction lib client env.platform env.config out unspent utxo
            privateKeyWIF).1 ++ [Step.logReplaced newTxID])
      | Except.error (Failure.panic msg) =>
        (st, Step.logTrying fee out :: Step.callReplaceTransaction out unspent ::
          (ReplaceTransaction lib client env.platform env.config out unspent utxo
            privateKeyWIF).1 ++ [Step.panic msg])
      | Except.error (Failure.error err) =>
        ((afterReplaceError lib client env st utxo privateKeyWIF err).1,
          Step.logTrying fee out :: Step.callReplaceTransaction out unspent ::
            (ReplaceTransaction lib client env.platform env.config out unspent utxo
              privateKeyWIF).1 ++ (afterReplaceError lib client env st utxo privateKeyWIF err).2) := by
  unfold replaceOrBurn
  simp only [hfee, hout]
  rw [if_neg (by omega), if_neg (by simp), if_neg (by omega)]

/-- C20. In `TryReplacingAttacker`, whenever the competitor's fee (the descendant fee of its
mempool entry, in satoshis) is greater than or equal to the value of the contested output,
neither `ReplaceTransaction` nor `BurnTransaction` is called and nothing is broadcast; the
funding slot stays as it is; the monitored entry is removed when the fee equals the value, and
the monitored table is unchanged when the fee is greater. -/
theorem TryReplacingAttacker_overpaid (lib : SignerLibrary) (client : Client) (env : Env)
    (st : State) (counterpart : TxRawResult) (utxo : TrackedUTXO) (privateKeyWIF : String)
    (mempool : MempoolEntry)
    (hm : client.GetMempoolEntry counterpart.Txid = Except.ok mempool)
    (h : utxo.Amount ≤ NewAmount env.platform mempool.Descendant) :
    replaceTransactionCalls
        (TryReplacingAttacker lib client env st counterpart utxo privateKeyWIF).2 = [] ∧
      burnTransactionCalls
        (TryReplacingAttacker lib client env st counterpart utxo privateKeyWIF).2 = [] ∧
      broadcasts (TryReplacingAttacker lib client env st counterpart utxo privateKeyWIF).2 = [] ∧
      (TryReplacingAttacker lib client env st counterpart utxo privateKeyWIF).1.unspentUtxo =
        st.unspentUtxo ∧
      (NewAmount env.platform mempool.Descendant = utxo.Amount →
        (TryReplacingAttacker lib client env st counterpart utxo privateKeyWIF).1.monitoredUtxos =
          cleanup st.monitoredUtxos utxo) ∧
      (utxo.Amount < NewAmount env.platform mempool.Descendant →
        (TryReplacingAttacker lib client env st counterpart utxo privateKeyWIF).1.monitoredUtxos =
          st.monitoredUtxos) := by
  unfold TryReplacingAttacker
  simp only [hm]
  rcases lt_or_eq_of_le h with hlt | heq
  · rw [if_pos (by omega)]
    refine ⟨rfl, rfl, rfl, rfl, fun h2 => absurd h2 (by omega), fun _ => rfl⟩
  · rw [if_neg (by omega), if_pos heq.symm]
    refine ⟨rfl, rfl, rfl, rfl, fun _ => rfl, fun h2 => absurd h2 (by omega)⟩

/-- C20, at a competitor that pays the whole bitcoin of `aa:0` in fees (the entry is removed)
and at one that pays two (the table stays). -/
theorem TryReplacingAttacker_overpaid_witness :
    ((clientWithFee 1).GetMempoolEntry attackTx.Txid = Except.ok ⟨1, 1000⟩ ∧
        contested.Amount ≤ NewAmount exampleEnv.platform 1) ∧
      (TryReplacingAttacker exampleSigner (clientWithFee 1) exampleEnv battleState attackTx
          contested weakKey).1.monitoredUtxos = [] ∧
      broadcasts (TryReplacingAttacker exampleSigner (clientWithFee 2) exampleEnv battleState
        attackTx contested weakKey).2 = [] ∧
      (TryReplacingAttacker exampleSigner (clientWithFee 2) exampleEnv battleState attackTx
          contested weakKey).1.monitoredUtxos = battleState.monitoredUtxos :=
  have h1 : contested.Amount ≤ NewAmount exampleEnv.platform 1 :=
    le_of_eq (show (100000000 : ℤ) = NewAmount x86_64 1 from NewAmount_one.symm)
  have h2 : contested.Amount < NewAmount exampleEnv.platform 2 :=
    lt_of_lt_of_le (by decide : (100000000 : ℤ) < 200000000)
      (le_of_eq (show (200000000 : ℤ) = NewAmount x86_64 2 from NewAmount_two.symm))
  ⟨⟨rfl, h1⟩,
    ((TryReplacingAttacker_overpaid exampleSigner (clientWithFee 1) exampleEnv battleState
      attackTx contested weakKey ⟨1, 1000⟩ rfl h1).2.2.2.2.1
        (show NewAmount x86_64 1 = 100000000 from NewAmount_one)).trans (by decide),
    (TryReplacingAttacker_overpaid exampleSigner (clientWithFee 2) exampleEnv battleState
      attackTx contested weakKey ⟨2, 1000⟩ rfl h2.le).2.2.1,
    (TryReplacingAttacker_overpaid exampleSigner (clientWithFee 2) exampleEnv battleState
      attackTx contested weakKey ⟨2, 1000⟩ rfl h2.le).2.2.2.2.2 h2⟩


theorem ReplaceTransaction_calls (lib : SignerLibrary) (client : Client) (p : Platform)
    (config : Config) (outputValue : ℤ) (unspent : ListUnspentResult) (trackedUtxo : TrackedUTXO)
    (privateKeyWIF : String) :
    replaceTransactionCalls
        (ReplaceTransaction lib client p config outputValue unspent trackedUtxo
          privateKeyWIF).1 = [] ∧
      burnTransactionCalls
        (ReplaceTransaction lib client p config outputValue unspent trackedUtxo
          privateKeyWIF).1 = [] := by
  unfold ReplaceTransaction
  simp only []
  repeat' split
  all_goals exact ⟨rfl, rfl⟩

theorem BurnTransaction_calls (lib : SignerLibrary) (client : Client) (p : Platform)
    (config : Config) (monitoredUtxos : GoMap TrackedUTXO) (trackedUtxo : TrackedUTXO)
    (privateKeyWIF : String) :
    replaceTransactionCalls
        (BurnTransaction lib client p config monitoredUtxos trackedUtxo privateKeyWIF).2.1 =
        [] ∧
      burnTransactionCalls
        (BurnTransaction lib client p config monitoredUtxos trackedUtxo privateKeyWIF).2.1 =
        [] := by
  unfold BurnTransaction
  simp only []
  repeat' split
  all_goals exact ⟨rfl, rfl⟩

theorem burnAndLog_calls (lib : SignerLibrary) (client : Client) (env : Env) (st : State)
    (utxo : TrackedUTXO) (privateKeyWIF : String) :
    replaceTransactionCalls (burnAndLog lib client env st utxo privateKeyWIF).2 = [] ∧
      burnTransactionCalls (burnAndLog lib client env st utxo privateKeyWIF).2 = [utxo] ∧
      (burnAndLog lib client env st utxo privateKeyWIF).1.unspentUtxo = st.unspentUtxo := by
  have h := BurnTransaction_calls lib client env.platform env.config st.monitoredUtxos utxo
    privateKeyWIF
  unfold burnAndLog
  simp only []
  split
  · simp [replaceTransactionCalls, burnTransactionCalls] at h ⊢
    exact h
  · simp [replaceTransactionCalls, burnTransactionCalls] at h ⊢
    exact h
  · simp [replaceTransactionCalls, burnTransactionCalls] at h ⊢
    exact h

/-- After a failed `ReplaceTransaction`: `BurnTransaction` is called exactly when the error
text does not contain `-26: insufficient fee` and contains `not enough funds to cover fee` or
`-26: dust`; otherwise the state is left as it is. -/
theorem afterReplaceError_calls (lib : SignerLibrary) (client : Client) (env : Env) (st : State)
    (utxo : TrackedUTXO) (privateKeyWIF : String) (err : String) :
    replaceTransactionCalls (afterReplaceError lib client env st utxo privateKeyWIF err).2 = [] ∧
      burnTransactionCalls (afterReplaceError lib client env st utxo privateKeyWIF err).2 =
        (if burnsAfter err then [utxo] else []) ∧
      (afterReplaceError lib client env st utxo privateKeyWIF err).1.unspentUtxo =
        st.unspentUtxo ∧
      (burnsAfter err = false →
        (afterReplaceError lib client env st utxo privateKeyWIF err).1 = st) := by
  have hb := burnAndLog_calls lib client env st utxo privateKeyWIF
  unfold afterReplaceError burnsAfter
  cases h1 : stringsContains err "-26: insufficient fee"
  · cases h2 : stringsContains err "not enough funds to cover fee"
    · cases h3 : stringsContains err "-26: dust"
      · cases h4 : stringsContains err "bad-txns-inputs-missingorspent" <;>
          simp [replaceTransactionCalls, burnTransactionCalls]
      · simp [replaceTransactionCalls, burnTransactionCalls] at hb ⊢
        exact hb
    · simp [replaceTransactionCalls, burnTransactionCalls] at hb ⊢
      exact hb
  · simp [replaceTransactionCalls, burnTransactionCalls]

theorem newFee_largeCompetitor : newFee x86_64 10000 1000 209 contested = (2508, false) := by
  simp only [newFee, newFeeProduct_largeCompetitor_x86_64]
  rw [float64ToInt64_floor x86_64 (by norm_num) (by norm_num)]
  simp [contested]

/-- The battle of the scenarios: the competitor pays 10000 satoshis on 1000 vbytes, the fee of
the replacement is 2508 satoshis, and `ReplaceTransaction` is called with an output of
`100000000 - 2508 + 50000000` satoshis, funded from the slot. -/
theorem battle_run (client : Client) (counterpart : TxRawResult)
    (hm : client.GetMempoolEntry counterpart.Txid = Except.ok ⟨f64round (1 / 10000), 1000⟩)
    (htx : 6 ≤ counterpart.Txid.utf8ByteSize) :
    TryReplacingAttacker exampleSigner client exampleEnv battleState counterpart contested
        weakKey =
      match (ReplaceTransaction exampleSigner client x86_64 exampleEnv.config 149997492 funding
          contested weakKey).2 with
      | Except.ok newTxID =>
        (battleState, Step.logSpending 10000 1000 :: Step.logTrying 2508 149997492 ::
          Step.callReplaceTransaction 149997492 funding ::
          (ReplaceTransaction exampleSigner client x86_64 exampleEnv.config 149997492 funding
            contested weakKey).1 ++ [Step.logReplaced newTxID])
      | Except.error (Failure.panic msg) =>
        (battleState, Step.logSpending 10000 1000 :: Step.logTrying 2508 149997492 ::
          Step.callReplaceTransaction 149997492 funding ::
          (ReplaceTransaction exampleSigner client x86_64 exampleEnv.config 149997492 funding
            contested weakKey).1 ++ [Step.panic msg])
      | Except.error (Failure.error err) =>
        ((afterReplaceError exampleSigner client exampleEnv battleState contested weakKey err).1,
          Step.logSpending 10000 1000 :: Step.logTrying 2508 149997492 ::
            Step.callReplaceTransaction 149997492 funding ::
            (ReplaceTransaction exampleSigner client x86_64 exampleEnv.config 149997492 funding
              contested weakKey).1 ++
            (afterReplaceError exampleSigner client exampleEnv battleState contested weakKey
              err).2) := by
  have hF : NewAmount exampleEnv.platform (f64round (1 / 10000)) = 10000 :=
    NewAmount_tenThousandth
  have hS : NewAmount exampleEnv.platform funding.Amount = 50000000 := NewAmount_half
  have hsel : selectUnspentUtxo exampleEnv.sort battleState.unspentUtxo
      (exampleEnv.listUnspent 0) = (some funding, Except.ok funding) := rfl
  have hest : estimateTransactionSize exampleSigner exampleEnv.config
      (wrapInt64 (contested.Amount + NewAmount exampleEnv.platform funding.Amount))
      [contested.Script.Hex, funding.ScriptPubKey] = Except.ok 209 := rfl
  have h32 : wrapInt32 209 = 209 := by decide
  have hfee : newFee exampleEnv.platform 10000 1000 (wrapInt32 209) contested = (2508, false) := by
    rw [h32]
    exact newFee_largeCompetitor
  have hout : wrapInt64 (wrapInt64 (contested.Amount - 2508) +
      NewAmount exampleEnv.platform funding.Amount) = 149997492 := by
    rw [hS]
    decide
  have h1 := TryReplacingAttacker_funded exampleSigner client exampleEnv battleState counterpart
    contested weakKey ⟨f64round (1 / 10000), 1000⟩ (some funding) funding 209 hm
    (by rw [hF]; decide) hsel hest
  have h2 := replaceOrBurn_replace exampleSigner client exampleEnv
    ⟨battleState.monitoredUtxos, some funding⟩ counterpart contested weakKey 10000 1000 funding
    209 2508 149997492 htx hfee hout (by decide)
  rw [h1]
  simp only [hF]
  rw [h2]
  have hst : (⟨battleState.monitoredUtxos, some funding⟩ : State) = battleState := rfl
  rw [hst]
  have hp : exampleEnv.platform = x86_64 := rfl
  rw [hp]
  cases (ReplaceTransaction exampleSigner client x86_64 exampleEnv.config 149997492 funding
      contested weakKey).2 with
  | ok newTxID => rfl
  | error failure => cases failure <;> rfl

theorem replaceTransactionCalls_append (xs ys : List Step) :
    replaceTransactionCalls (xs ++ ys) =
      replaceTransactionCalls xs ++ replaceTransactionCalls ys :=
  List.filterMap_append _ _ _

theorem burnTransactionCalls_append (xs ys : List Step) :
    burnTransactionCalls (xs ++ ys) = burnTransactionCalls xs ++ burnTransactionCalls ys :=
  List.filterMap_append _ _ _

/-- The run of `TryReplacingAttacker` when `ReplaceTransaction` is reached and returns the
error `err`. -/
theorem TryReplacingAttacker_failed (lib : SignerLibrary) (client : Client) (env : Env)
    (st : State) (counterpart : TxRawResult) (utxo : TrackedUTXO) (privateKeyWIF : String)
    (mempool : MempoolEntry) (slot : Option ListUnspentResult) (unspent : ListUnspentResult)
    (estimatedTxSize fee out : ℤ) (err : String)
    (hm : client.GetMempoolEntry counterpart.Txid = Except.ok mempool)
    (hlt : NewAmount env.platform mempool.Descendant < utxo.Amount)
    (hsel : selectUnspentUtxo env.sort st.unspentUtxo (env.listUnspent 0) =
      (slot, Except.ok unspent))
    (hest : estimateTransactionSize lib env.config
      (wrapInt64 (utxo.Amount + NewAmount env.platform unspent.Amount))
      [utxo.Script.Hex, unspent.ScriptPubKey] = Except.ok estimatedTxSize)
    (htx : 6 ≤ counterpart.Txid.utf8ByteSize)
    (hfee : newFee env.platform (NewAmount env.platform mempool.Descendant) mempool.VSize
      (wrapInt32 estimatedTxSize) utxo = (fee, false))
    (hout : wrapInt64 (wrapInt64 (utxo.Amount - fee) + NewAmount env.platform unspent.Amount) =
      out)
    (h547 : 547 ≤ out)
    (hrep : (ReplaceTransaction lib client env.platform env.config out unspent utxo
      privateKeyWIF).2 = Except.error (Failure.error err)) :
    TryReplacingAttacker lib client env st counterpart utxo privateKeyWIF =
      ((afterReplaceError lib client env ⟨st.monitoredUtxos, slot⟩ utxo privateKeyWIF err).1,
        [Step.logSpending (NewAmount env.platform mempool.Descendant) mempool.VSize,
            Step.logTrying fee out, Step.callReplaceTransaction out unspent] ++
          ((ReplaceTransaction lib client env.platform env.config out unspent utxo
              privateKeyWIF).1 ++
            (afterReplaceError lib client env ⟨st.monitoredUtxos, slot⟩ utxo privateKeyWIF
              err).2)) := by
  rw [TryReplacingAttacker_funded lib client env st counterpart utxo privateKeyWIF mempool slot
    unspent estimatedTxSize hm hlt hsel hest,
    replaceOrBurn_replace lib client env ⟨st.monitoredUtxos, slot⟩ counterpart utxo
      privateKeyWIF _ _ unspent estimatedTxSize fee out htx hfee hout h547]
  simp only [hrep]
  rfl

/-- C16 (counterexample). The node rejects the replacement with `-26: 64: dust`, the text of an
older `bitcoind`: the error of `ReplaceTransaction` contains `dust`, and `TryReplacingAttacker`
logs it and abandons without a call of `BurnTransaction`. -/
theorem TryReplacingAttacker_dust_not_burned :
    (ReplaceTransaction exampleSigner dustClient x86_64 exampleEnv.config 149997492 funding
        contested weakKey).2 =
        Except.error (Failure.error "error broadcasting transaction: -26: 64: dust") ∧
      stringsContains "error broadcasting transaction: -26: 64: dust" "dust" = true ∧
      replaceTransactionCalls (TryReplacingAttacker exampleSigner dustClient exampleEnv
        battleState attackTx contested weakKey).2 = [(149997492, funding)] ∧
      burnTransactionCalls (TryReplacingAttacker exampleSigner dustClient exampleEnv battleState
        attackTx contested weakKey).2 = [] ∧
      (TryReplacingAttacker exampleSigner dustClient exampleEnv battleState attackTx contested
        weakKey).2.getLast? =
        some (Step.logReplaceError "error broadcasting transaction: -26: 64: dust") := by
  have hrep : (ReplaceTransaction exampleSigner dustClient x86_64 exampleEnv.config 149997492
      funding contested weakKey).2 =
      Except.error (Failure.error "error broadcasting transaction: -26: 64: dust") := rfl
  have hafter : afterReplaceError exampleSigner dustClient exampleEnv battleState contested
      weakKey "error broadcasting transaction: -26: 64: dust" =
      (battleState, [Step.logReplaceError "error broadcasting transaction: -26: 64: dust"]) := by
    unfold afterReplaceError
    rw [if_neg (by decide), if_neg (by decide), if_neg (by decide), if_neg (by decide)]
  have hcalls := ReplaceTransaction_calls exampleSigner dustClient x86_64 exampleEnv.config
    149997492 funding contested weakKey
  refine ⟨hrep, by decide, ?_, ?_, ?_⟩
  · rw [battle_run dustClient attackTx rfl (by decide)]
    simp only [hrep, hafter]
    rw [show ∀ (a b c : Step) (l : List Step), a :: b :: c :: l = [a, b, c] ++ l from
      fun _ _ _ _ => rfl, replaceTransactionCalls_append, replaceTransactionCalls_append,
      hcalls.1]
    rfl
  · rw [battle_run dustClient attackTx rfl (by decide)]
    simp only [hrep, hafter]
    rw [show ∀ (a b c : Step) (l : List Step), a :: b :: c :: l = [a, b, c] ++ l from
      fun _ _ _ _ => rfl, burnTransactionCalls_append, burnTransactionCalls_append,
      hcalls.2]
    rfl
  · rw [battle_run dustClient attackTx rfl (by decide)]
    simp only [hrep, hafter]
    rw [List.getLast?_append]
    rfl

/-- C16 (amended). When `TryReplacingAttacker` reaches `ReplaceTransaction` and it returns the
error `err`, the follow-up is chosen by the first test the text of `err` passes, in this order:
it contains `-26: insufficient fee` (abandon), `not enough funds to cover fee` (burn),
`-26: dust` (burn), `bad-txns-inputs-missingorspent` (abandon); any other error is logged and
abandoned. So `BurnTransaction` is called, once and for the contested output, exactly when the
text does not contain `-26: insufficient fee` and contains `not enough funds to cover fee` or
`-26: dust`; otherwise nothing is burned and the monitored table is left as it is. -/
theorem TryReplacingAttacker_replace_error (lib : SignerLibrary) (client : Client) (env : Env)
    (st : State) (counterpart : TxRawResult) (utxo : TrackedUTXO) (privateKeyWIF : String)
    (mempool : MempoolEntry) (slot : Option ListUnspentResult) (unspent : ListUnspentResult)
    (estimatedTxSize fee out : ℤ) (err : String)
    (hm : client.GetMempoolEntry counterpart.Txid = Except.ok mempool)
    (hlt : NewAmount env.platform mempool.Descendant < utxo.Amount)
    (hsel : selectUnspentUtxo env.sort st.unspentUtxo (env.listUnspent 0) =
      (slot, Except.ok unspent))
    (hest : estimateTransactionSize lib env.config
      (wrapInt64 (utxo.Amount + NewAmount env.platform unspent.Amount))
      [utxo.Script.Hex, unspent.ScriptPubKey] = Except.ok estimatedTxSize)
    (htx : 6 ≤ counterpart.Txid.utf8ByteSize)
    (hfee : newFee env.platform (NewAmount env.platform mempool.Descendant) mempool.VSize
      (wrapInt32 estimatedTxSize) utxo = (fee, false))
    (hout : wrapInt64 (wrapInt64 (utxo.Amount - fee) + NewAmount env.platform unspent.Amount) =
      out)
    (h547 : 547 ≤ out)
    (hrep : (ReplaceTransaction lib client env.platform env.config out unspent utxo
      privateKeyWIF).2 = Except.error (Failure.error err)) :
    burnTransactionCalls
        (TryReplacingAttacker lib client env st counterpart utxo privateKeyWIF).2 =
        (if !stringsContains err "-26: insufficient fee" &&
            (stringsContains err "not enough funds to cover fee" ||
              stringsContains err "-26: dust") then [utxo]
          else []) ∧
      ((!stringsContains err "-26: insufficient fee" &&
            (stringsContains err "not enough funds to cover fee" ||
              stringsContains err "-26: dust")) = false →
        (TryReplacingAttacker lib client env st counterpart utxo privateKeyWIF).1 =
            ⟨st.monitoredUtxos, slot⟩ ∧
          ∃ logged,
            (TryReplacingAttacker lib client env st counterpart utxo privateKeyWIF).2.getLast? =
              some logged ∧
            logged =
              (if stringsContains err "-26: insufficient fee" then Step.logInsufficientFee err
              else if stringsContains err "bad-txns-inputs-missingorspent" then
                Step.logCounterpartConfirmed err
              else Step.logReplaceError err)) := by
  have hrun := TryReplacingAttacker_failed lib client env st counterpart utxo privateKeyWIF
    mempool slot unspent estimatedTxSize fee out err hm hlt hsel hest htx hfee hout h547 hrep
  have hcalls := ReplaceTransaction_calls lib client env.platform env.config out unspent utxo
    privateKeyWIF
  have hafter := afterReplaceError_calls lib client env ⟨st.monitoredUtxos, slot⟩ utxo
    privateKeyWIF err
  rw [hrun]
  refine ⟨?_, fun hno => ⟨hafter.2.2.2 hno, ?_⟩⟩
  · simp only []
    rw [burnTransactionCalls_append, burnTransactionCalls_append, hcalls.2, hafter.2.1]
    rfl
  · simp only []
    rw [← List.append_assoc, List.getLast?_append]
    unfold afterReplaceError
    cases h1 : stringsContains err "-26: insufficient fee"
    · cases h2 : stringsContains err "not enough funds to cover fee"
      · cases h3 : stringsContains err "-26: dust"
        · cases h4 : stringsContains err "bad-txns-inputs-missingorspent" <;> simp
        · simp [h1, h2, h3] at hno
      · simp [h1, h2] at hno
    · simp

/-- C16 (amended), at a node that rejects the replacement with `-26: dust`: the burn path is
taken. -/
theorem TryReplacingAttacker_replace_error_witness :
    ((rejectingClient "-26: dust").GetMempoolEntry attackTx.Txid =
        Except.ok ⟨f64round (1 / 10000), 1000⟩ ∧
      NewAmount exampleEnv.platform (f64round (1 / 10000)) < contested.Amount ∧
      6 ≤ attackTx.Txid.utf8ByteSize ∧
      (ReplaceTransaction exampleSigner (rejectingClient "-26: dust") exampleEnv.platform
        exampleEnv.config 149997492 funding contested weakKey).2 =
        Except.error (Failure.error "error broadcasting transaction: -26: dust")) ∧
      burnTransactionCalls (TryReplacingAttacker exampleSigner (rejectingClient "-26: dust")
        exampleEnv battleState attackTx contested weakKey).2 = [contested] :=
  have hF : NewAmount exampleEnv.platform (f64round (1 / 10000)) = 10000 :=
    NewAmount_tenThousandth
  have hS : NewAmount exampleEnv.platform funding.Amount = 50000000 := NewAmount_half
  have hlt : NewAmount exampleEnv.platform (f64round (1 / 10000)) < contested.Amount := by
    rw [hF]
    decide
  have hfee : newFee exampleEnv.platform (NewAmount exampleEnv.platform (f64round (1 / 10000)))
      1000 (wrapInt32 209) contested = (2508, false) := by
    rw [hF, show wrapInt32 209 = 209 by decide]
    exact newFee_largeCompetitor
  have hout : wrapInt64 (wrapInt64 (contested.Amount - 2508) +
      NewAmount exampleEnv.platform funding.Amount) = 149997492 := by
    rw [hS]
    decide
  ⟨⟨rfl, hlt, by decide, rfl⟩,
    (TryReplacingAttacker_replace_error exampleSigner (rejectingClient "-26: dust") exampleEnv
      battleState attackTx contested weakKey ⟨f64round (1 / 10000), 1000⟩ (some funding) funding
      209 2508 149997492 "error broadcasting transaction: -26: dust" rfl hlt rfl rfl
      (by decide) hfee hout (by decide) rfl).1.trans (by decide)⟩

/-! ## main.go: the replacement -/

/-- In the ranges of a real battle (a competitor's fee that is not negative and at most the 21
million bitcoin there are, sizes of at least one vbyte, an estimate of at most 3000 vbytes)
the fee `newFee` returns is not negative and below `2 ^ 63`. -/
theorem newFee_range (p : Platform) (F Vc Vo : ℤ) (utxo : TrackedUTXO) (hF : 0 ≤ F)
    (hFU : F ≤ 2100000000000000) (hVc : 1 ≤ Vc) (hVc31 : Vc < 2 ^ 31) (hVo : 1 ≤ Vo)
    (hVo3 : Vo ≤ 3000) :
    0 ≤ (newFee p F Vc Vo utxo).1 ∧ (newFee p F Vc Vo utxo).1 < 2 ^ 63 := by
  obtain ⟨x, hx, hx0, hnear⟩ := newFeeProduct_near p F Vc Vo hF hVc hVc31 hVo
  have qF : (0 : ℚ) ≤ F := by exact_mod_cast hF
  have qFU : (F : ℚ) ≤ 2100000000000000 := by exact_mod_cast hFU
  have qV : (1 : ℚ) ≤ Vc := by exact_mod_cast hVc
  have qO : (1 : ℚ) ≤ Vo := by exact_mod_cast hVo
  have qO3 : (Vo : ℚ) ≤ 3000 := by exact_mod_cast hVo3
  have hrate : (F : ℚ) / Vc ≤ 2100000000000000 :=
    le_trans (div_le_self qF qV) qFU
  have hrate0 : (0 : ℚ) ≤ (F : ℚ) / Vc := div_nonneg qF (by linarith)
  have hspec : specFeeProduct F Vc Vo ≤ 3000 * (1 + 2100000000000000 * (11 / 10)) := by
    unfold specFeeProduct
    apply mul_le_mul qO3 (by linarith) (by linarith) (by norm_num)
  have h1 : x * (1 - 1 / 2 ^ 50) ≤ specFeeProduct F Vc Vo :=
    le_trans (mul_le_mul_of_nonneg_left pow_eight_unit_ge hx0) hnear.2
  have hlt : x < 2 ^ 63 := by
    by_contra hge
    have hge2 : (2 : ℚ) ^ 63 ≤ x := not_lt.1 hge
    have h2 : (2 : ℚ) ^ 63 * (1 - 1 / 2 ^ 50) ≤ x * (1 - 1 / 2 ^ 50) :=
      mul_le_mul_of_nonneg_right hge2 (by norm_num)
    have h3 : (3000 : ℚ) * (1 + 2100000000000000 * (11 / 10)) <
        2 ^ 63 * (1 - 1 / 2 ^ 50) := by norm_num
    linarith
  have hfloor : (newFee p F Vc Vo utxo).1 = ⌊x⌋ := by
    simp only [newFee, hx]
    exact float64ToInt64_floor p hx0 hlt
  rw [hfloor]
  exact ⟨Int.floor_nonneg.2 hx0, Int.floor_lt.2 (by exact_mod_cast hlt)⟩

theorem newFee_snd (p : Platform) (F Vc Vo : ℤ) (utxo : TrackedUTXO) :
    (newFee p F Vc Vo utxo).2 = decide ((newFee p F Vc Vo utxo).1 ≥ utxo.Amount) := rfl

/-- C21. In `TryReplacingAttacker`, whenever the funding output is one `selectUnspentUtxo`
accepts (spendable, above 0.00001 BTC and below 500.1 BTC) and `newFee` does not return the burn
flag, the fee is below the value `U` of the contested output, the funding output is worth at
least 1000 satoshis, and the output value `U - fee_new + funding_value` is at least 547
satoshis: the bail-out at the dust limit is not taken and `ReplaceTransaction` is called with
that output value, which leaves exactly `fee_new` of the two inputs as the fee. The amounts are
those of a real battle, where `int64` does not wrap around: the competitor's fee is not
negative, `U` is at most the 21 million bitcoin there are, the competitor's size is a positive
`int32`, the estimate is between 1 and 3000 vbytes, and the competitor's transaction id has the
six bytes `formatTxId` slices. -/
theorem TryReplacingAttacker_replaces (lib : SignerLibrary) (client : Client) (env : Env)
    (st : State) (counterpart : TxRawResult) (utxo : TrackedUTXO) (privateKeyWIF : String)
    (mempool : MempoolEntry) (slot : Option ListUnspentResult) (unspent : ListUnspentResult)
    (estimatedTxSize : ℤ)
    (hm : client.GetMempoolEntry counterpart.Txid = Except.ok mempool)
    (hF0 : 0 ≤ NewAmount env.platform mempool.Descendant)
    (hlt : NewAmount env.platform mempool.Descendant < utxo.Amount)
    (hU : utxo.Amount ≤ 2100000000000000)
    (hV : 1 ≤ mempool.VSize) (hV31 : mempool.VSize < 2 ^ 31)
    (hsel : selectUnspentUtxo env.sort st.unspentUtxo (env.listUnspent 0) =
      (slot, Except.ok unspent))
    (husable : usable unspent = true)
    (hest : estimateTransactionSize lib env.config
      (wrapInt64 (utxo.Amount + NewAmount env.platform unspent.Amount))
      [utxo.Script.Hex, unspent.ScriptPubKey] = Except.ok estimatedTxSize)
    (hsize1 : 1 ≤ estimatedTxSize) (hsize : estimatedTxSize ≤ 3000)
    (htx : 6 ≤ counterpart.Txid.utf8ByteSize)
    (hburn : (newFee env.platform (NewAmount env.platform mempool.Descendant) mempool.VSize
      (wrapInt32 estimatedTxSize) utxo).2 = false) :
    (newFee env.platform (NewAmount env.platform mempool.Descendant) mempool.VSize
        (wrapInt32 estimatedTxSize) utxo).1 < utxo.Amount ∧
      1000 ≤ NewAmount env.platform unspent.Amount ∧
      547 ≤ utxo.Amount -
        (newFee env.platform (NewAmount env.platform mempool.Descendant) mempool.VSize
          (wrapInt32 estimatedTxSize) utxo).1 + NewAmount env.platform unspent.Amount ∧
      ∃ out rest,
        (TryReplacingAttacker lib client env st counterpart utxo privateKeyWIF).2 =
          Step.logSpending (NewAmount env.platform mempool.Descendant) mempool.VSize ::
            Step.logTrying
              (newFee env.platform (NewAmount env.platform mempool.Descendant) mempool.VSize
                (wrapInt32 estimatedTxSize) utxo).1 out ::
            Step.callReplaceTransaction out unspent :: rest ∧
        out = utxo.Amount -
          (newFee env.platform (NewAmount env.platform mempool.Descendant) mempool.VSize
            (wrapInt32 estimatedTxSize) utxo).1 + NewAmount env.platform unspent.Amount ∧
        utxo.Amount + NewAmount env.platform unspent.Amount - out =
          (newFee env.platform (NewAmount env.platform mempool.Descendant) mempool.VSize
            (wrapInt32 estimatedTxSize) utxo).1 := by
  have h32 : wrapInt32 estimatedTxSize = estimatedTxSize :=
    wrapInt32_of_range _ (by linarith) (by linarith)
  rw [h32] at hburn ⊢
  obtain ⟨hfee0, -⟩ := newFee_range env.platform (NewAmount env.platform mempool.Descendant)
    mempool.VSize estimatedTxSize utxo hF0 (by linarith) hV hV31 hsize1 hsize
  have hfeeU : (newFee env.platform (NewAmount env.platform mempool.Descendant) mempool.VSize
      estimatedTxSize utxo).1 < utxo.Amount := by
    rw [newFee_snd, decide_eq_false_iff_not] at hburn
    omega
  obtain ⟨hs1, hs2⟩ := NewAmount_usable env.platform unspent husable
  have hs3 : NewAmount env.platform unspent.Amount ≤ 137438953472 := by
    norm_num at hs2
    exact hs2
  have hw1 : wrapInt64 (utxo.Amount -
      (newFee env.platform (NewAmount env.platform mempool.Descendant) mempool.VSize
        estimatedTxSize utxo).1) = utxo.Amount -
      (newFee env.platform (NewAmount env.platform mempool.Descendant) mempool.VSize
        estimatedTxSize utxo).1 :=
    wrapInt64_of_range _ (by linarith) (by linarith)
  have hout : wrapInt64 (wrapInt64 (utxo.Amount -
      (newFee env.platform (NewAmount env.platform mempool.Descendant) mempool.VSize
        estimatedTxSize utxo).1) + NewAmount env.platform unspent.Amount) = utxo.Amount -
      (newFee env.platform (NewAmount env.platform mempool.Descendant) mempool.VSize
        estimatedTxSize utxo).1 + NewAmount env.platform unspent.Amount := by
    rw [hw1]
    exact wrapInt64_of_range _ (by linarith) (by linarith)
  have h547 : 547 ≤ utxo.Amount -
      (newFee env.platform (NewAmount env.platform mempool.Descendant) mempool.VSize
        estimatedTxSize utxo).1 + NewAmount env.platform unspent.Amount := by
    linarith
  refine ⟨hfeeU, hs1, h547, _, ?_, ?_, rfl, by ring⟩
  · exact (ReplaceTransaction lib client env.platform env.config (utxo.Amount -
      (newFee env.platform (NewAmount env.platform mempool.Descendant) mempool.VSize
        estimatedTxSize utxo).1 + NewAmount env.platform unspent.Amount) unspent utxo
        privateKeyWIF).1 ++
      (match (ReplaceTransaction lib client env.platform env.config (utxo.Amount -
        (newFee env.platform (NewAmount env.platform mempool.Descendant) mempool.VSize
          estimatedTxSize utxo).1 + NewAmount env.platform unspent.Amount) unspent utxo
          privateKeyWIF).2 with
      | Except.ok newTxID => [Step.logReplaced newTxID]
      | Except.error (Failure.panic msg) => [Step.panic msg]
      | Except.error (Failure.error err) =>
        (afterReplaceError lib client env ⟨st.monitoredUtxos, slot⟩ utxo privateKeyWIF err).2)
  · rw [TryReplacingAttacker_funded lib client env st counterpart utxo privateKeyWIF mempool slot
      unspent estimatedTxSize hm hlt hsel hest,
      replaceOrBurn_replace lib client env ⟨st.monitoredUtxos, slot⟩ counterpart utxo
        privateKeyWIF _ _ unspent estimatedTxSize _ _ htx
        (by rw [h32]; exact Prod.ext rfl hburn) (by rw [h32] at *; exact hout) h547]
    rcases (ReplaceTransaction lib client env.platform env.config (utxo.Amount -
      (newFee env.platform (NewAmount env.platform mempool.Descendant) mempool.VSize
        estimatedTxSize utxo).1 + NewAmount env.platform unspent.Amount) unspent utxo
        privateKeyWIF).2 with (_ | _) | _ <;> rfl

theorem usable_funding : usable funding = true := by
  simp only [usable, funding, walletEntry, highestValueUtxo_eq, lowestValueUtxo_eq,
    f64round_half]
  norm_num

/-- C21, at the battle of the scenarios: the competitor pays 10000 satoshis, the contested
output is worth 1 BTC and the funding output 0.5 BTC. -/
theorem TryReplacingAttacker_replaces_witness :
    (acceptingClient.GetMempoolEntry attackTx.Txid = Except.ok ⟨f64round (1 / 10000), 1000⟩ ∧
        NewAmount exampleEnv.platform (f64round (1 / 10000)) = 10000 ∧
        contested.Amount = 100000000 ∧ usable funding = true ∧
        6 ≤ attackTx.Txid.utf8ByteSize ∧
        newFee exampleEnv.platform 10000 1000 (wrapInt32 209) contested = (2508, false)) ∧
      547 ≤ contested.Amount -
        (newFee exampleEnv.platform (NewAmount exampleEnv.platform (f64round (1 / 10000))) 1000
          (wrapInt32 209) contested).1 + NewAmount exampleEnv.platform funding.Amount ∧
      ∃ out rest,
        (TryReplacingAttacker exampleSigner acceptingClient exampleEnv battleState attackTx
            contested weakKey).2 =
          Step.logSpending (NewAmount exampleEnv.platform (f64round (1 / 10000))) 1000 ::
            Step.logTrying
              (newFee exampleEnv.platform (NewAmount exampleEnv.platform (f64round (1 / 10000)))
                1000 (wrapInt32 209) contested).1 out ::
            Step.callReplaceTransaction out funding :: rest ∧
        out = contested.Amount -
          (newFee exampleEnv.platform (NewAmount exampleEnv.platform (f64round (1 / 10000)))
            1000 (wrapInt32 209) contested).1 + NewAmount exampleEnv.platform funding.Amount ∧
        contested.Amount + NewAmount exampleEnv.platform funding.Amount - out =
          (newFee exampleEnv.platform (NewAmount exampleEnv.platform (f64round (1 / 10000)))
            1000 (wrapInt32 209) contested).1 :=
  have hF : NewAmount exampleEnv.platform (f64round (1 / 10000)) = 10000 :=
    NewAmount_tenThousandth
  have hfee : newFee exampleEnv.platform 10000 1000 (wrapInt32 209) contested = (2508, false) := by
    rw [show wrapInt32 209 = 209 by decide]
    exact newFee_largeCompetitor
  ⟨⟨rfl, hF, rfl, usable_funding, by decide, hfee⟩,
    (TryReplacingAttacker_replaces exampleSigner acceptingClient exampleEnv battleState attackTx
      contested weakKey ⟨f64round (1 / 10000), 1000⟩ (some funding) funding 209 rfl
      (by rw [hF]; decide) (by rw [hF]; decide) (by decide) (by decide) (by decide) rfl
      usable_funding rfl (by decide) (by decide) (by decide)
      (by rw [hF, hfee])).2.2⟩

/-! ## main.go: the funding slot -/

theorem selectUnspentUtxo_slot (sort : AmountSort) (unspentUtxo : Option ListUnspentResult)
    (answer : Except String (List ListUnspentResult)) (slot : Option ListUnspentResult)
    (unspent : ListUnspentResult)
    (h : selectUnspentUtxo sort unspentUtxo answer = (slot, Except.ok unspent)) :
    slot = some unspent ∧ ∀ cached, unspentUtxo = some cached → unspent = cached := by
  unfold selectUnspentUtxo at h
  cases unspentUtxo with
  | some cached =>
    simp only [Prod.mk.injEq, Except.ok.injEq] at h
    obtain ⟨rfl, rfl⟩ := h
    exact ⟨rfl, fun c hc => by cases hc; rfl⟩
  | none =>
    simp only at h
    refine ⟨?_, fun c hc => by cases hc⟩
    split at h
    · cases h
    · split at h
      · cases h
      · split at h
        · cases h
        · split at h
          · simp only [Prod.mk.injEq, Except.ok.injEq] at h
            obtain ⟨rfl, rfl⟩ := h
            rfl
          · cases h

/-- Whatever `replaceOrBurn` does, it leaves the funding slot as it is, and the funding output
of a call of `ReplaceTransaction` is `unspent`. -/
theorem replaceOrBurn_slot (lib : SignerLibrary) (client : Client) (env : Env) (st : State)
    (counterpart : TxRawResult) (utxo : TrackedUTXO) (privateKeyWIF : String)
    (counterFee vsize : ℤ) (unspent : ListUnspentResult) (estimatedTxSize : ℤ) :
    (replaceOrBurn lib client env st counterpart utxo privateKeyWIF counterFee vsize unspent
        estimatedTxSize).1.unspentUtxo = st.unspentUtxo ∧
      ∀ c ∈ replaceTransactionCalls
          (replaceOrBurn lib client env st counterpart utxo privateKeyWIF counterFee vsize
            unspent estimatedTxSize).2,
        c.2 = unspent := by
  unfold replaceOrBurn
  simp only []
  split
  · exact ⟨rfl, fun c hc => by simp [replaceTransactionCalls] at hc⟩
  split
  · have hb := burnAndLog_calls lib client env st utxo privateKeyWIF
    refine ⟨hb.2.2, fun c hc => ?_⟩
    rw [show ∀ (a b : Step) (l : List Step), a :: b :: l = [a, b] ++ l from fun _ _ _ => rfl,
      replaceTransactionCalls_append, hb.1] at hc
    simp [replaceTransactionCalls] at hc
  split
  · exact ⟨rfl, fun c hc => by simp [replaceTransactionCalls] at hc⟩
  have hr := ReplaceTransaction_calls lib client env.platform env.config
    (wrapInt64 (wrapInt64 (utxo.Amount -
      (newFee env.platform counterFee vsize (wrapInt32 estimatedTxSize) utxo).1) +
      NewAmount env.platform unspent.Amount)) unspent utxo privateKeyWIF
  split
  · refine ⟨rfl, fun c hc => ?_⟩
    rw [show ∀ (a b : Step) (l m : List Step), a :: b :: l ++ m = [a, b] ++ (l ++ m) from
      fun _ _ _ _ => rfl, replaceTransactionCalls_append, replaceTransactionCalls_append,
      hr.1] at hc
    simp [replaceTransactionCalls] at hc
    rw [hc]
  · refine ⟨rfl, fun c hc => ?_⟩
    rw [show ∀ (a b : Step) (l m : List Step), a :: b :: l ++ m = [a, b] ++ (l ++ m) from
      fun _ _ _ _ => rfl, replaceTransactionCalls_append, replaceTransactionCalls_append,
      hr.1] at hc
    simp [replaceTransactionCalls] at hc
    rw [hc]
  · rename_i err _
    have ha := afterReplaceError_calls lib client env st utxo privateKeyWIF err
    refine ⟨ha.2.2.1, fun c hc => ?_⟩
    rw [show ∀ (a b : Step) (l m : List Step), a :: b :: l ++ m = [a, b] ++ (l ++ m) from
      fun _ _ _ _ => rfl, replaceTransactionCalls_append, replaceTransactionCalls_append,
      hr.1, ha.1] at hc
    simp [replaceTransactionCalls] at hc
    rw [hc]

/-- C11 (counterexample). In the battle of the scenarios the slot holds the funding output
`a0:0`. The first `TryReplacingAttacker` broadcasts a replacement that spends `aa:0` and `a0:0`
and the node accepts it; the slot still holds `a0:0` afterwards, and when the competitor's next
transaction arrives the second `TryReplacingAttacker` reads the slot and funds its replacement
from `a0:0` again. -/
theorem TryReplacingAttacker_reuses_funding :
    (TryReplacingAttacker exampleSigner acceptingClient exampleEnv battleState attackTx contested
        weakKey).2.getLast? = some (Step.logReplaced "5e7d") ∧
      (broadcasts (TryReplacingAttacker exampleSigner acceptingClient exampleEnv battleState
          attackTx contested weakKey).2).map
          (fun tx => tx.TxIn.map (fun txIn => txIn.PreviousOutPoint)) =
        [[⟨[0xaa], 0⟩, ⟨[0xa0], 0⟩]] ∧
      (TryReplacingAttacker exampleSigner acceptingClient exampleEnv battleState attackTx contested
        weakKey).1.unspentUtxo = some funding ∧
      funding.TxID = "a0" ∧ funding.Vout = 0 ∧
      replaceTransactionCalls (TryReplacingAttacker exampleSigner acceptingClient exampleEnv
        (TryReplacingAttacker exampleSigner acceptingClient exampleEnv battleState attackTx
          contested weakKey).1 attackTx2 contested weakKey).2 = [(149997492, funding)] := by
  have hrep : (ReplaceTransaction exampleSigner acceptingClient x86_64 exampleEnv.config
      149997492 funding contested weakKey).2 = Except.ok "5e7d" := rfl
  have hcalls := ReplaceTransaction_calls exampleSigner acceptingClient x86_64 exampleEnv.config
    149997492 funding contested weakKey
  have hsent : (broadcasts (ReplaceTransaction exampleSigner acceptingClient x86_64
      exampleEnv.config 149997492 funding contested weakKey).1).map
      (fun tx => tx.TxIn.map (fun txIn => txIn.PreviousOutPoint)) =
      [[⟨[0xaa], 0⟩, ⟨[0xa0], 0⟩]] := by
    decide
  have hrun : ∀ counterpart : TxRawResult,
      acceptingClient.GetMempoolEntry counterpart.Txid =
        Except.ok ⟨f64round (1 / 10000), 1000⟩ →
      6 ≤ counterpart.Txid.utf8ByteSize →
      TryReplacingAttacker exampleSigner acceptingClient exampleEnv battleState counterpart
          contested weakKey =
        (battleState, [Step.logSpending 10000 1000, Step.logTrying 2508 149997492,
            Step.callReplaceTransaction 149997492 funding] ++
          ((ReplaceTransaction exampleSigner acceptingClient x86_64 exampleEnv.config 149997492
            funding contested weakKey).1 ++ [Step.logReplaced "5e7d"])) := by
    intro counterpart hm htx
    rw [battle_run acceptingClient counterpart hm htx]
    simp only [hrep]
    rfl
  rw [hrun attackTx rfl (by decide), hrun attackTx2 rfl (by decide)]
  refine ⟨?_, ?_, rfl, rfl, rfl, ?_⟩
  · simp only []
    rw [← List.append_assoc, List.getLast?_append]
    rfl
  · simp only []
    rw [show ∀ xs ys : List Step, broadcasts (xs ++ ys) = broadcasts xs ++ broadcasts ys from
      fun _ _ => List.filterMap_append _ _ _,
      show ∀ xs ys : List Step, broadcasts (xs ++ ys) = broadcasts xs ++ broadcasts ys from
      fun _ _ => List.filterMap_append _ _ _]
    rw [show broadcasts [Step.logSpending 10000 1000, Step.logTrying 2508 149997492,
      Step.callReplaceTransaction 149997492 funding] = [] from rfl,
      show broadcasts [Step.logReplaced "5e7d"] = [] from rfl, List.nil_append,
      List.append_nil]
    exact hsent
  · simp only []
    rw [replaceTransactionCalls_append, replaceTransactionCalls_append, hcalls.1]
    rfl

/-- C11 (amended). `TryReplacingAttacker` never empties the funding slot. A run that finds the
slot filled leaves it as it is and funds every call of `ReplaceTransaction` from it; and after
any run, whether the broadcast succeeded or not, the slot holds the funding output that the
call of `ReplaceTransaction` in that run used. -/
theorem TryReplacingAttacker_keeps_slot (lib : SignerLibrary) (client : Client) (env : Env)
    (st : State) (counterpart : TxRawResult) (utxo : TrackedUTXO) (privateKeyWIF : String) :
    (∀ cached, st.unspentUtxo = some cached →
        (TryReplacingAttacker lib client env st counterpart utxo privateKeyWIF).1.unspentUtxo =
            some cached ∧
          ∀ c ∈ replaceTransactionCalls
              (TryReplacingAttacker lib client env st counterpart utxo privateKeyWIF).2,
            c.2 = cached) ∧
      ∀ c ∈ replaceTransactionCalls
          (TryReplacingAttacker lib client env st counterpart utxo privateKeyWIF).2,
        (TryReplacingAttacker lib client env st counterpart utxo privateKeyWIF).1.unspentUtxo =
          some c.2 := by
  unfold TryReplacingAttacker
  cases hm : client.GetMempoolEntry counterpart.Txid with
  | error err =>
    exact ⟨fun cached hc => ⟨hc, fun c h => by simp [replaceTransactionCalls] at h⟩,
      fun c h => by simp [replaceTransactionCalls] at h⟩
  | ok mempool =>
    simp only []
    split
    · exact ⟨fun cached hc => ⟨hc, fun c h => by simp [replaceTransactionCalls] at h⟩,
        fun c h => by simp [replaceTransactionCalls] at h⟩
    split
    · exact ⟨fun cached hc => ⟨hc, fun c h => by simp [replaceTransactionCalls] at h⟩,
        fun c h => by simp [replaceTransactionCalls] at h⟩
    rcases hsel : selectUnspentUtxo env.sort st.unspentUtxo (env.listUnspent 0) with
      ⟨slot, err | unspent⟩
    · refine ⟨fun cached hc => ?_, fun c h => by simp [replaceTransactionCalls] at h⟩
      rw [hc] at hsel
      simp [selectUnspentUtxo] at hsel
    · obtain ⟨hslot, hcached⟩ := selectUnspentUtxo_slot _ _ _ _ _ hsel
      simp only []
      cases hest : estimateTransactionSize lib env.config
          (wrapInt64 (utxo.Amount + NewAmount env.platform unspent.Amount))
          [utxo.Script.Hex, unspent.ScriptPubKey] with
      | error msg =>
        refine ⟨fun cached hc => ⟨?_, fun c h => by simp [replaceTransactionCalls] at h⟩,
          fun c h => by simp [replaceTransactionCalls] at h⟩
        simp only []
        rw [hslot, hcached cached hc]
      | ok estimatedTxSize =>
        obtain ⟨hs, hc⟩ := replaceOrBurn_slot lib client env ⟨st.monitoredUtxos, slot⟩
          counterpart utxo privateKeyWIF (NewAmount env.platform mempool.Descendant)
          mempool.VSize unspent estimatedTxSize
        have hcalls : ∀ c ∈ replaceTransactionCalls
            (Step.logSpending (NewAmount env.platform mempool.Descendant) mempool.VSize ::
              (replaceOrBurn lib client env ⟨st.monitoredUtxos, slot⟩ counterpart utxo
                privateKeyWIF (NewAmount env.platform mempool.Descendant) mempool.VSize unspent
                estimatedTxSize).2), c.2 = unspent := fun c h => hc c h
        simp only []
        refine ⟨fun cached hcd => ⟨?_, fun c h => ?_⟩, fun c h => ?_⟩
        · rw [hs]
          simp only []
          rw [hslot, hcached cached hcd]
        · rw [hcalls c h, hcached cached hcd]
        · rw [hs, hcalls c h]
          exact hslot

/-- C11 (amended), at the battle of the scenarios: the slot holds `a0:0` before and after. -/
theorem TryReplacingAttacker_keeps_slot_witness :
    battleState.unspentUtxo = some funding ∧
      (TryReplacingAttacker exampleSigner acceptingClient exampleEnv battleState attackTx
          contested weakKey).1.unspentUtxo = some funding ∧
      ∀ c ∈ replaceTransactionCalls
          (TryReplacingAttacker exampleSigner acceptingClient exampleEnv battleState attackTx
            contested weakKey).2,
        c.2 = funding :=
  ⟨rfl, (TryReplacingAttacker_keeps_slot exampleSigner acceptingClient exampleEnv battleState
    attackTx contested weakKey).1 funding rfl⟩

/-! ## gen-addresses/main.go: the test vector -/

theorem deriveAddressesFromPrivateKey_toOption :
    (deriveAddressesFromPrivateKey btcsuite "bitcoin is awesome" Net.mainnet).toOption =
      some ["23d4a09295be678b21a5f1dceae1f634a69c1b41775f680ebf8165266471401b",
        "14NWDXkQwcGN1Pd9fboL8npVynD5SfyJAE", "1JRW4d8vHZseMEtYbgJ7MwPG1TasHUUVNq",
        "3LtPxQEqqo1sYGF7VTEufzBUki6pFiDVa1", "bc1qhuwxrtqe2akhr4rz8vv97waw9g75ma4unk5vnf",
        "bc1pclm3u06yang46craktcg2ellcpsvuqxm33n3a2jxajq06rea7cws0vrplv",
        "bitcoin is awesome"] := by
  decide!

/-- C15. On the main network `deriveAddressesFromPrivateKey` returns, without an error, for the
passphrase `bitcoin is awesome` the row of `TestGeneratePrivateKeyFromWord`: the private key
(the SHA-256 of the passphrase), the uncompressed and the compressed P2PKH address, the P2SH
address, the P2WPKH address and the P2TR address, in that order, followed by the passphrase. -/
theorem deriveAddressesFromPrivateKey_testVector :
    deriveAddressesFromPrivateKey btcsuite "bitcoin is awesome" Net.mainnet =
      Except.ok ["23d4a09295be678b21a5f1dceae1f634a69c1b41775f680ebf8165266471401b",
        "14NWDXkQwcGN1Pd9fboL8npVynD5SfyJAE", "1JRW4d8vHZseMEtYbgJ7MwPG1TasHUUVNq",
        "3LtPxQEqqo1sYGF7VTEufzBUki6pFiDVa1", "bc1qhuwxrtqe2akhr4rz8vv97waw9g75ma4unk5vnf",
        "bc1pclm3u06yang46craktcg2ellcpsvuqxm33n3a2jxajq06rea7cws0vrplv",
        "bitcoin is awesome"] := by
  have h := deriveAddressesFromPrivateKey_toOption
  cases hd : deriveAddressesFromPrivateKey btcsuite "bitcoin is awesome" Net.mainnet with
  | error err =>
    rw [hd] at h
    cases h
  | ok row =>
    rw [hd] at h
    simp only [Except.toOption, Option.some.injEq] at h
    rw [h]

end RBFBattle
